import Mathlib

/-!
# cups-filters: the `pdftops` filter front-end (`filter/pdftops.c`)

A shallow embedding of the parts of `filter/pdftops.c` that the verified
properties talk about, in the namespace `Pdftops`, followed by the function
`list_printers` of `utils/driverless.c`, in the namespace `Driverless`.

Conventions of the embedding:

* a byte is a `Char`; a byte sequence (file contents, a read buffer) is a
  `List Char`, and it may contain the NUL byte;
* a C string is read off a buffer by `cstr`, which stops at the first NUL;
* loops whose number of iterations is not bounded syntactically take a fuel
  argument that is computed from the size of the input, and the development
  proves that this fuel is never exhausted where the C loop terminates.
-/

set_option autoImplicit false

namespace Pdftops

/-! ## C library primitives -/

/-- The NUL byte that terminates a C string. -/
def NUL : Char := Char.ofNat 0

/-- The line feed byte. -/
def LF : Char := Char.ofNat 10

/-- The carriage return byte. -/
def CR : Char := Char.ofNat 13

/-- The C string held in a buffer: the bytes before the first NUL. -/
def cstr (buf : List Char) : List Char :=
  buf.takeWhile (fun c => c != NUL)

/-- The bytes of a string literal of the source. -/
def lit (s : String) : List Char := s.toList

/-- The test `strncmp(a, b, n) == 0`: the two C strings agree on their first
`n` bytes, the terminating NUL taking part in the comparison. -/
def strncmp_eq (a b : List Char) (n : Nat) : Bool :=
  (cstr a ++ [NUL]).take n == (cstr b ++ [NUL]).take n

/-- The function `tolower` of the C locale. -/
def tolower (c : Char) : Char :=
  if 65 ≤ c.toNat ∧ c.toNat ≤ 90 then Char.ofNat (c.toNat + 32) else c

/-- The test `strncasecmp(a, b, n) == 0`. -/
def strncasecmp_eq (a b : List Char) (n : Nat) : Bool :=
  ((cstr a ++ [NUL]).take n).map tolower == ((cstr b ++ [NUL]).take n).map tolower

/-- The bytes written by `printf("%s", buffer)`: the C string in the buffer. -/
def printf_s (buffer : List Char) : List Char := cstr buffer

/-- The bytes written by `puts(s)`: the string and a line feed. -/
def puts (s : String) : List Char := lit s ++ [LF]

/-! ## Reading lines (`cupsFileGetLine` of libcups)

`cupsFileGetLine(fp, buf, buflen)` copies bytes up to and including the line
terminator (LF, CR or CR LF) into `buf`, stops after `buflen - 2` bytes when
no terminator came, and returns the number of bytes copied, `0` at the end of
the file or when `buflen < 3`. -/

/-- The loop of `cupsFileGetLine`: `room` is the number of bytes that still fit
before `end = buf + buflen - 2`; the result is the line and the unread rest of
the file. -/
def getLineLoop : Nat → List Char → List Char × List Char
  | 0, inp => ([], inp)
  | _ + 1, [] => ([], [])
  | room + 1, c :: cs =>
    if c = CR then
      match cs with
      | [] => ([c], [])
      | d :: ds => if d = LF then ([c, d], ds) else ([c], d :: ds)
    else if c = LF then ([c], cs)
    else
      let r := getLineLoop room cs
      (c :: r.1, r.2)

/-- The call `cupsFileGetLine(fp, buf, buflen)` on a file whose unread part is
`inp`: the line put in `buf` (its length is the return value) and the part
of the file that is left unread. -/
def cupsFileGetLine (buflen : Nat) (inp : List Char) : List Char × List Char :=
  if buflen < 3 then ([], inp) else getLineLoop (buflen - 2) inp

/-- The size of `buffer` in `main` (`char buffer[8192]`). -/
def BUFSIZE : Nat := 8192

/-- The lines of a file as successive calls of `cupsFileGetLine` with the
buffer of `main` deliver them; `fuel` bounds the number of calls. -/
def fileLinesFuel : Nat → List Char → List (List Char)
  | 0, _ => []
  | fuel + 1, inp =>
    let r := cupsFileGetLine BUFSIZE inp
    if r.1.length > 0 then r.1 :: fileLinesFuel fuel r.2 else []

/-- The lines of a file; every call consumes a byte, so the length of the file
is enough fuel. -/
def fileLines (inp : List Char) : List (List Char) :=
  fileLinesFuel inp.length inp

/-! ## The post-processing child of `main` (Ghostscript build) -/

/-- The loop condition on the line in `buffer`: it starts with none of the
four DSC comments that end the copying. -/
def notMarker (buffer : List Char) : Bool :=
  !strncmp_eq buffer (lit "%%BeginProlog") 13 &&
  !strncmp_eq buffer (lit "%%EndProlog") 11 &&
  !strncmp_eq buffer (lit "%%BeginSetup") 12 &&
  !strncmp_eq buffer (lit "%%Page:") 7

/-- The workaround code for Kyocera printers, one `puts` per line. -/
def kyoceraFix : List (List Char) :=
  [ puts "% ===== Workaround insertion by pdftops CUPS filter =====",
    puts "% Kyocera\x27s PostScript interpreter crashes on early name binding,",
    puts "% so eliminate all \"bind\"s by redifining \"bind\" to no-op",
    puts "/bind \x7b\x7d bind def",
    puts "% =====" ]

/-- The workaround code for Brother printers, one `puts` per line. -/
def brotherFix : List (List Char) :=
  [ puts "% ===== Workaround insertion by pdftops CUPS filter =====",
    puts "% Brother\x27s PostScript interpreter spits out the current page",
    puts "% and aborts the job on the \"currenthalftone\" operator, so redefine",
    puts "% it to null",
    puts "/currenthalftone \x7b//null\x7d bind def",
    puts "/orig.sethalftone systemdict /sethalftone get def",
    puts "/sethalftone \x7bdup //null eq not \x7b//orig.sethalftone\x7d\x7bpop\x7d ifelse\x7d bind def",
    puts "% =====" ]

/-- The lines written between the echo of the prolog comment and the rest of
the file (`#ifndef HAVE_PDFTOPS` block). The argument is `ppd->manufacturer`,
`none` when there is no PPD file or it names no manufacturer. -/
def fixLines (manufacturer : Option (List Char)) : List (List Char) :=
  match manufacturer with
  | none => []
  | some m =>
    if strncasecmp_eq m (lit "Kyocera") 7 then kyoceraFix
    else if strncasecmp_eq m (lit "Brother") 7 then brotherFix
    else []

/-- The first loop of the child: copy lines until a marker line or the end of
the file. The result is the list of writes, and, when the loop stopped with
`bytes > 0`, the line left in `buffer` and the unread rest of the file. -/
def copyHeader : Nat → List Char → List (List Char) × Option (List Char × List Char)
  | 0, _ => ([], none)
  | fuel + 1, inp =>
    let r := cupsFileGetLine BUFSIZE inp
    if r.1.length > 0 then
      if notMarker r.1 then
        let k := copyHeader fuel r.2
        (printf_s r.1 :: k.1, k.2)
      else ([], some (r.1, r.2))
    else ([], none)

/-- The writes of the block `if (bytes > 0) { ... }` up to the copy of the rest
of the file, for the marker line in `buffer`. -/
def injected (manufacturer : Option (List Char)) (buffer : List Char) : List (List Char) :=
  (if !strncmp_eq buffer (lit "%%BeginProlog") 13 then [puts "%%BeginProlog"]
   else [printf_s buffer]) ++
  fixLines manufacturer ++
  (if !strncmp_eq buffer (lit "%%BeginProlog") 13 then
     (if !strncmp_eq buffer (lit "%%EndProlog") 11 then [puts "%%EndProlog"] else []) ++
     [printf_s buffer]
   else [])

/-- The result of the post-processing child. -/
structure Rewritten where
  /-- The writes made line by line, in order. -/
  written : List (List Char)
  /-- The bytes copied by the final `cupsFileRead`/`fwrite` loop. -/
  tail : List Char
  /-- The argument of `exit`. -/
  status : Nat
deriving DecidableEq

/-- The post-processing child of `main`, run on the bytes `inp` that arrive on
its standard input. -/
def postProcess (manufacturer : Option (List Char)) (inp : List Char) : Rewritten :=
  let h := copyHeader inp.length inp
  match h.2 with
  | some (buffer, rest) =>
    { written := h.1 ++ injected manufacturer buffer, tail := rest, status := 0 }
  | none => { written := h.1, tail := [], status := 0 }

/-- The bytes that the child writes to its standard output. -/
def Rewritten.output (r : Rewritten) : List Char := r.written.flatten ++ r.tail

/-- The output of the child seen as lines: the lines it wrote one by one, then
the lines of the part it copied as bytes. -/
def Rewritten.outputLines (r : Rewritten) : List (List Char) :=
  r.written ++ fileLines r.tail


/-! ## Notions used to state the properties of the post-processing child -/

/-- A line starts with one of the four comments `%%BeginProlog`, `%%EndProlog`,
`%%BeginSetup`, `%%Page:`. -/
def StartsWithMarker (line : List Char) : Prop :=
  lit "%%BeginProlog" <+: line ∨ lit "%%EndProlog" <+: line ∨
  lit "%%BeginSetup" <+: line ∨ lit "%%Page:" <+: line

instance (line : List Char) : Decidable (StartsWithMarker line) :=
  inferInstanceAs (Decidable (lit "%%BeginProlog" <+: line ∨ lit "%%EndProlog" <+: line ∨
    lit "%%BeginSetup" <+: line ∨ lit "%%Page:" <+: line))

/-- The C string `s` begins with `p`, the case of letters being ignored. -/
def HasPrefixNoCase (p s : List Char) : Prop :=
  (s.take p.length).map tolower = p.map tolower

instance (p s : List Char) : Decidable (HasPrefixNoCase p s) :=
  inferInstanceAs (Decidable ((s.take p.length).map tolower = p.map tolower))

/-- The manufacturer of the PPD file has a registered workaround: the name
begins with `Kyocera` or with `Brother`. -/
def HasQuirk (manufacturer : Option (List Char)) : Prop :=
  ∃ s, manufacturer = some s ∧
    (HasPrefixNoCase (lit "Kyocera") s ∨ HasPrefixNoCase (lit "Brother") s)

/-! ## `remove_options`

The options string is a C string; it is modelled by its bytes before the
terminating NUL, so that the end of the list is the end of the string. -/

/-- The options that `pstops` is not given in any case. -/
def pstops_exclude_general : List (List Char) :=
  [ lit "fitplot",
    lit "fit-to-page",
    lit "landscape",
    lit "orientation-requested" ]

/-- The options that `pstops` is not given when `pdftopdf` has run. -/
def pstops_exclude_page_management : List (List Char) :=
  [ lit "brightness",
    lit "Collate",
    lit "cupsEvenDuplex",
    lit "gamma",
    lit "hue",
    lit "ipp-attribute-fidelity",
    lit "MirrorPrint",
    lit "mirror",
    lit "multiple-document-handling",
    lit "natural-scaling",
    lit "number-up",
    lit "number-up-layout",
    lit "OutputOrder",
    lit "page-border",
    lit "page-bottom",
    lit "page-label",
    lit "page-left",
    lit "page-ranges",
    lit "page-right",
    lit "page-set",
    lit "page-top",
    lit "position",
    lit "saturation",
    lit "scaling" ]

/-- The test `isspace(c & 255)` in the C locale: space, tab, line feed,
vertical tab, form feed, carriage return. -/
def isspace (c : Char) : Bool :=
  c.toNat % 256 == 32 || (9 ≤ c.toNat % 256 && c.toNat % 256 ≤ 13)

/-- The call `strcasestr(haystack, needle)`: the offset of the first place
where `needle` occurs in `haystack`, letter case ignored, `none` for `NULL`. -/
def strcasestr : List Char → List Char → Option Nat
  | [], needle => if needle = [] then some 0 else none
  | c :: cs, needle =>
    if (needle.map tolower).isPrefixOf ((c :: cs).map tolower) then some 0
    else (strcasestr cs needle).map (· + 1)

/-- The second half of the loop condition of `remove_options`: the byte after
the occurrence at `option_start` is the end of the string, white space or
`=`. -/
def optionEnds (options_str option : List Char) (option_start : Nat) : Bool :=
  match options_str.get? (option_start + option.length) with
  | none => true
  | some c => isspace c || c == Char.ofNat 61

/-- The body of the loop of `remove_options` for the occurrence found at
`start`: the string after the `memmove`. -/
def stripAt (options_str option : List Char) (start : Nat) : List Char :=
  let option_end := start + option.length
  let option_start :=
    if start ≥ 2 && strncasecmp_eq (options_str.drop (start - 2)) (lit "no") 2
    then start - 2 else start
  let after_value := (options_str.drop option_end).dropWhile (fun c => !isspace c)
  let after_spaces := after_value.dropWhile isspace
  options_str.take option_start ++ after_spaces

/-- The `while` loop of `remove_options` for one option. Every iteration makes
the string shorter unless the string is empty, in which case the C loop does
not end; the result is then `none`. -/
def stripOption (option : List Char) : Nat → List Char → Option (List Char)
  | 0, _ => none
  | fuel + 1, options_str =>
    match strcasestr options_str option with
    | none => some options_str
    | some start =>
      if optionEnds options_str option start then
        stripOption option fuel (stripAt options_str option start)
      else some options_str

/-- The function `remove_options`: the options string after the call, `none`
when the call does not return. -/
def remove_options : List Char → List (List Char) → Option (List Char)
  | options_str, [] => some options_str
  | options_str, option :: rest =>
    match stripOption option (options_str.length + 1) options_str with
    | none => none
    | some s => remove_options s rest

/-- The size that `main` asks `realloc` for before it appends ` Collate`:
`sizeof(pstops_options) + 8`. The variable `pstops_options` is a `char *`, so
`sizeof_ptr` is the size of a pointer. -/
def reallocSize (sizeof_ptr : Nat) : Nat := sizeof_ptr + 8

/-- The number of bytes of the buffer that are in use after
`strcpy(pstops_end, " Collate")` with `pstops_end = pstops_options +
strlen(pstops_options)`: the options string, the bytes of ` Collate` and the
terminating NUL. -/
def collateEnd (pstops_options : List Char) : Nat :=
  pstops_options.length + (lit " Collate").length + 1

/-- The options string that `main` passes to `pstops` (`pstops_argv[5]`), from
`argv[5]` and the globals `pdftopdfapplied` and `deviceCollate`; `sizeof_ptr`
is the size of a pointer. The block that `realloc` returns has the size that
was asked for, `sizeof(pstops_options) + 8`; when `strcpy` writes ` Collate`
past the end of that block the program has no defined result, and the model
gives `none`. -/
def pstopsOptions (sizeof_ptr : Nat) (argv5 : List Char) (pdftopdfapplied deviceCollate : Nat) :
    Option (List Char) :=
  match remove_options argv5 pstops_exclude_general with
  | none => none
  | some s1 =>
    match (if pdftopdfapplied ≠ 0 then remove_options s1 pstops_exclude_page_management
           else some s1) with
    | none => none
    | some s2 =>
      if pdftopdfapplied ≠ 0 ∧ deviceCollate ≠ 0 then
        if collateEnd s2 ≤ reallocSize sizeof_ptr then some (s2 ++ lit " Collate") else none
      else some s2

/-! ## Notions used to state the properties of `remove_options` -/

/-- The string does not start with white space. -/
def NoLeadingSpace (s : List Char) : Prop :=
  ∀ c, s.head? = some c → isspace c = false

/-- The string does not end with white space. -/
def NoTrailingSpace (s : List Char) : Prop :=
  ∀ c, s.getLast? = some c → isspace c = false

/-- Some two neighbouring bytes of the string are both white space. -/
def hasDoubleSpace : List Char → Bool
  | a :: b :: t => (isspace a && isspace b) || hasDoubleSpace (b :: t)
  | _ => false

/-- The string has no two white space bytes in a row. -/
def NoDoubleSpace (s : List Char) : Prop :=
  hasDoubleSpace s = false

/-- The string is a list of tokens separated by single spaces: no white space
at either end, none twice in a row, and no white space other than the space. -/
def SingleSpaced (s : List Char) : Prop :=
  NoLeadingSpace s ∧ NoTrailingSpace s ∧ NoDoubleSpace s ∧
    ∀ c ∈ s, isspace c = true → c = Char.ofNat 32

instance (s : List Char) : Decidable (NoLeadingSpace s) :=
  decidable_of_iff (s.head?.all (fun c => !isspace c) = true) (by
    unfold NoLeadingSpace
    cases s.head? <;> simp)

instance (s : List Char) : Decidable (NoTrailingSpace s) :=
  decidable_of_iff (s.getLast?.all (fun c => !isspace c) = true) (by
    unfold NoTrailingSpace
    cases s.getLast? <;> simp)

instance (s : List Char) : Decidable (NoDoubleSpace s) :=
  inferInstanceAs (Decidable (hasDoubleSpace s = false))

instance (s : List Char) : Decidable (SingleSpaced s) :=
  inferInstanceAs (Decidable (NoLeadingSpace s ∧ NoTrailingSpace s ∧ NoDoubleSpace s ∧
    ∀ c ∈ s, isspace c = true → c = Char.ofNat 32))

/-- The first occurrence of `option` in `s`, letter case ignored, if there is
one, is followed by a byte that is neither white space nor `=` (so it is not
followed by the end of the string either). -/
def FirstOccurrenceContinues (s option : List Char) : Prop :=
  ∀ i, strcasestr s option = some i →
    ∃ c, s.get? (i + option.length) = some c ∧ isspace c = false ∧ c ≠ Char.ofNat 61

instance (s option : List Char) : Decidable (FirstOccurrenceContinues s option) :=
  decidable_of_iff
    ((strcasestr s option).all (fun i =>
      (s.get? (i + option.length)).any (fun c => !isspace c && c != Char.ofNat 61)) = true) (by
    unfold FirstOccurrenceContinues
    cases strcasestr s option with
    | none => simp
    | some i =>
      simp only [Option.all_some, Option.some.injEq, forall_eq']
      generalize s.get? (i + option.length) = g
      cases g <;> simp)

/-! ## Waiting for the child processes (`main`, after the forks) -/

/-- The signal number of `SIGTERM`. -/
def SIGTERM : Nat := 15

/-- The macro `WTERMSIG(status)` of `<sys/wait.h>`: `status & 0x7f`. -/
def WTERMSIG (status : Nat) : Nat := status % 128

/-- The macro `WIFEXITED(status)` of `<sys/wait.h>`: `WTERMSIG(status) == 0`. -/
def WIFEXITED (status : Nat) : Bool := WTERMSIG status == 0

/-- The macro `WEXITSTATUS(status)` of `<sys/wait.h>`: `(status & 0xff00) >> 8`. -/
def WEXITSTATUS (status : Nat) : Nat := (status / 256) % 256

/-- The way a child process ended. -/
inductive ChildEnd where
  /-- The child called `exit(code)` or returned `code` from `main`. -/
  | exited (code : Nat)
  /-- The child was killed by signal `sig`, with or without a core dump. -/
  | signaled (sig : Nat) (core : Bool)
deriving DecidableEq

/-- The value that `wait` stores in `wait_status` for a child that ended so. -/
def ChildEnd.status : ChildEnd → Nat
  | .exited code => code * 256
  | .signaled sig core => sig + (if core then 128 else 0)

/-- Exit codes are bytes, signal numbers go from 1 to 64. -/
def ChildEnd.Valid : ChildEnd → Prop
  | .exited code => code < 256
  | .signaled sig _ => 1 ≤ sig ∧ sig ≤ 64

/-- What happens while `main` is in its wait loop. -/
inductive Event where
  /-- A `SIGTERM` is delivered and the handler `cancel_job` runs. -/
  | sigterm
  /-- The call `wait(&wait_status)` returns `pid`, a child that ended. -/
  | waitReaped (pid : Nat) (how : ChildEnd)
  /-- The call `wait` returns -1 with `errno == EINTR`. -/
  | waitEintr
  /-- The call `wait` returns -1 with another `errno`. -/
  | waitError
deriving DecidableEq

/-- The variables of `main` that the wait loop reads and writes, with the
signals it has sent and the children it has reported on `stderr`. -/
structure WaitState where
  /-- The global `job_canceled`. -/
  job_canceled : Nat
  /-- The number of child processes left. -/
  wait_children : Nat
  /-- The exit status of `main`. -/
  exit_status : Nat
  /-- The process ids that were sent `SIGTERM` with `kill`, in order. -/
  killed : List Nat
  /-- The children reaped so far, in order. -/
  reaped : List (Nat × ChildEnd)
deriving DecidableEq

/-- The process ids of the children and the flag `need_post_proc` (0 or 1). -/
structure Children where
  /-- The process id of `pdftops` or `gs`. -/
  pdf_pid : Nat
  /-- The process id of the post-processing child, 0 when there is none. -/
  post_proc_pid : Nat
  /-- The process id of `pstops`. -/
  pstops_pid : Nat
  /-- Whether the post-processing child exists. -/
  need_post_proc : Nat
deriving DecidableEq

/-- The handler `cancel_job`. -/
def cancel_job (st : WaitState) : WaitState :=
  { st with job_canceled := 1 }

/-- The body of the inner loop `while (wait(...) < 0 && errno == EINTR)`. -/
def onEintr (ch : Children) (st : WaitState) : WaitState :=
  if st.job_canceled ≠ 0 then
    { st with
      killed := st.killed ++ [ch.pdf_pid] ++
        (if ch.need_post_proc ≠ 0 then [ch.post_proc_pid] else []) ++ [ch.pstops_pid],
      job_canceled := 0 }
  else st

/-- The rest of the outer loop body once `wait` has returned a child. -/
def onReaped (st : WaitState) (pid : Nat) (how : ChildEnd) : WaitState :=
  let wait_status := how.status
  { st with
    wait_children := st.wait_children - 1,
    exit_status :=
      if wait_status ≠ 0 then
        if WIFEXITED wait_status then WEXITSTATUS wait_status
        else if WTERMSIG wait_status = SIGTERM then st.exit_status
        else WTERMSIG wait_status
      else st.exit_status,
    reaped := st.reaped ++ [(pid, how)] }

/-- The loop `while (wait_children > 0)` run against the events that happen;
`none` means that `main` is still blocked in `wait` when the events end. -/
def waitLoop (ch : Children) : List Event → WaitState → Option WaitState
  | [], st => if st.wait_children > 0 then none else some st
  | ev :: evs, st =>
    if st.wait_children > 0 then
      match ev with
      | .sigterm => waitLoop ch evs (cancel_job st)
      | .waitEintr => waitLoop ch evs (onEintr ch st)
      | .waitError => some st
      | .waitReaped pid how => waitLoop ch evs (onReaped st pid how)
    else some st

/-- The state of `main` when it enters the wait loop. -/
def waitStart (ch : Children) (job_canceled : Nat) : WaitState :=
  { job_canceled := job_canceled, wait_children := 2 + ch.need_post_proc, exit_status := 0,
    killed := [], reaped := [] }

/-- The classification of a reaped child that is recorded in `exit_status`:
the exit code when it is not zero, the signal number when the signal is not
`SIGTERM`, nothing for a clean exit or a termination by `SIGTERM`. -/
def classification : ChildEnd → Option Nat
  | .exited code => if code ≠ 0 then some code else none
  | .signaled sig _ => if sig ≠ SIGTERM then some sig else none

/-- The last non-zero classification among the children in the order in which
they were reaped, 0 when there is none. -/
def lastClassification (ends : List ChildEnd) : Nat :=
  ((ends.filterMap classification).getLast?).getD 0

/-- The children that the events hand to `wait`, in order. -/
def reapedEnds : List Event → List ChildEnd
  | [] => []
  | .waitReaped _ how :: evs => how :: reapedEnds evs
  | _ :: evs => reapedEnds evs

/-! ## Starting the child processes (`main`, from `need_post_proc` to the end) -/

/-- The value of `need_post_proc`: always 0 when the filter is built with
`HAVE_PDFTOPS`, else 1 for a PPD file whose manufacturer begins with `Kyocera`
or `Brother`. -/
def need_post_proc (have_pdftops : Bool) (manufacturer : Option (List Char)) : Nat :=
  if have_pdftops then 0
  else
    match manufacturer with
    | none => 0
    | some m =>
      if strncasecmp_eq m (lit "Kyocera") 7 || strncasecmp_eq m (lit "Brother") 7 then 1 else 0

/-- What the system calls of `main` return in one run, and what happens while
`main` waits. -/
structure Sys where
  /-- The result of `pipe(pstops_pipe)`. -/
  pstops_pipe : Int
  /-- The result of `pipe(post_proc_pipe)`, when it is called. -/
  post_proc_pipe : Int
  /-- The result of the first `fork`. -/
  pdf_fork : Int
  /-- The result of the `fork` for the post-processing, when it is called. -/
  post_proc_fork : Int
  /-- The result of the last `fork`. -/
  pstops_fork : Int
  /-- The value of `job_canceled` when the wait loop is entered. -/
  job_canceled : Nat
  /-- The events during the wait loop. -/
  events : List Event

/-- The three stages of the pipeline. -/
inductive Stage where
  /-- The program `pdftops` or `gs`. -/
  | pdf
  /-- The post-processing of the PostScript. -/
  | post_proc
  /-- The filter `pstops`. -/
  | pstops
deriving DecidableEq

/-- What `main` has done when it returns. -/
structure MainResult where
  /-- The process ids of the children that were started, in order. -/
  started : List Nat
  /-- The state of the wait loop when it ended, `none` when `main` never
  entered it. -/
  waited : Option WaitState
  /-- The file that was removed with `unlink`. -/
  unlinked : Option (List Char)
  /-- The value returned by `main`. -/
  exit_status : Nat
deriving DecidableEq

/-- How a run of `main` goes on from the creation of the pipes. -/
inductive Outcome where
  /-- The call `fork` returned 0: this process is the child for a stage. -/
  | child (stage : Stage)
  /-- The parent process returned from `main`. -/
  | returned (r : MainResult)
  /-- The parent process is still blocked in `wait`. -/
  | blocked
deriving DecidableEq

/-- The code after the label `error:`; `tempfile` is the buffer of that name. -/
def cleanup (tempfile : List Char) (started : List Nat) (waited : Option WaitState)
    (exit_status : Nat) : MainResult :=
  { started := started, waited := waited,
    unlinked := if cstr tempfile ≠ [] then some (cstr tempfile) else none,
    exit_status := exit_status }

/-- The function `main` from the creation of the pipes on. -/
def mainRun (have_pdftops : Bool) (manufacturer : Option (List Char)) (tempfile : List Char)
    (sys : Sys) : Outcome :=
  let npp := need_post_proc have_pdftops manufacturer
  if sys.pstops_pipe ≠ 0 then .returned (cleanup tempfile [] none 1)
  else if npp ≠ 0 ∧ sys.post_proc_pipe ≠ 0 then .returned (cleanup tempfile [] none 1)
  else if sys.pdf_fork = 0 then .child .pdf
  else if sys.pdf_fork < 0 then .returned (cleanup tempfile [] none 1)
  else if npp ≠ 0 ∧ sys.post_proc_fork = 0 then .child .post_proc
  else if npp ≠ 0 ∧ sys.post_proc_fork < 0 then
    .returned (cleanup tempfile [sys.pdf_fork.toNat] none 1)
  else
    let post_proc_pid := if npp ≠ 0 then sys.post_proc_fork.toNat else 0
    let started := [sys.pdf_fork.toNat] ++ (if npp ≠ 0 then [post_proc_pid] else [])
    if sys.pstops_fork = 0 then .child .pstops
    else if sys.pstops_fork < 0 then .returned (cleanup tempfile started none 1)
    else
      let ch : Children :=
        { pdf_pid := sys.pdf_fork.toNat, post_proc_pid := post_proc_pid,
          pstops_pid := sys.pstops_fork.toNat, need_post_proc := npp }
      match waitLoop ch sys.events (waitStart ch sys.job_canceled) with
      | none => .blocked
      | some st =>
        .returned (cleanup tempfile (started ++ [sys.pstops_fork.toNat]) (some st) st.exit_status)

/-- The children that `main` has waited for. -/
def MainResult.reaped (r : MainResult) : List (Nat × ChildEnd) :=
  match r.waited with
  | none => []
  | some st => st.reaped

/-- The process ids of the stages of the pipeline. -/
def stagePids (ch : Children) : List Nat :=
  [ch.pdf_pid] ++ (if ch.need_post_proc ≠ 0 then [ch.post_proc_pid] else []) ++ [ch.pstops_pid]

/-! ## The page size given to `pdftops` or `gs` (`main`, "Set output page size")

The job options are modelled as the array that `cupsParseOptions` of libcups
builds, a list of pairs of a name and a value; the numbers of type `int` are
integers, which is exact as long as `atoi(val) - 3` does not overflow. -/

/-- The test `strcasecmp(a, b) == 0`. -/
def strcasecmp_eq (a b : List Char) : Bool :=
  (cstr a).map tolower == (cstr b).map tolower

/-- The call `cupsGetOption(name, num_options, options)` of libcups: the value
of the option of that name, letter case ignored, `none` for `NULL`. -/
def cupsGetOption (name : List Char) (options : List (List Char × List Char)) :
    Option (List Char) :=
  match options.find? (fun o => strcasecmp_eq o.1 name) with
  | none => none
  | some o => some o.2

/-- The value of the decimal digits at the start of a string, after the value
`acc` of the digits before them. -/
def digitsValue : List Char → Nat → Nat
  | [], acc => acc
  | c :: cs, acc =>
    if 48 ≤ c.toNat ∧ c.toNat ≤ 57 then digitsValue cs (acc * 10 + (c.toNat - 48)) else acc

/-- The function `atoi`: white space, an optional sign, decimal digits. -/
def atoi (nptr : List Char) : Int :=
  match (cstr nptr).dropWhile isspace with
  | [] => 0
  | c :: cs =>
    if c = Char.ofNat 45 then -(digitsValue cs 0 : Int)
    else if c = Char.ofNat 43 then (digitsValue cs 0 : Int)
    else (digitsValue (c :: cs) 0 : Int)

/-- The test `strcasecmp(val, "no") && strcasecmp(val, "off") &&
strcasecmp(val, "false")` on the value of a boolean option. -/
def notFalseValue (val : List Char) : Bool :=
  !strcasecmp_eq val (lit "no") && !strcasecmp_eq val (lit "off") &&
    !strcasecmp_eq val (lit "false")

/-- The value that `main` assigns to the variable `fit`; the assignment is in
the block `if (ppd)`. -/
def fit (options : List (List Char × List Char)) : Bool :=
  match (match cupsGetOption (lit "fitplot") options with
    | none => cupsGetOption (lit "fit-to-page") options
    | some val => some val) with
  | some val => notFalseValue val
  | none => false

/-- The lines `orientation = atoi(val) - 3; if (orientation >= 2)
orientation ^= 1;` for `atoi(val) = code`. -/
def rotationOfCode (code : Int) : Int :=
  let orientation := code - 3
  if orientation ≥ 2 then Int.xor orientation 1 else orientation

/-- The variable `orientation` after the options `landscape` and
`orientation-requested` have been looked at. -/
def orientation (options : List (List Char × List Char)) : Int :=
  match cupsGetOption (lit "landscape") options with
  | some val => if notFalseValue val then 1 else 0
  | none =>
    match cupsGetOption (lit "orientation-requested") options with
    | some val => rotationOfCode (atoi val)
    | none => 0

/-- The page size `ppd_size_t` of the PPD file; `α` stands for `float`. -/
structure ppd_size_t (α : Type) where
  /-- The width in points. -/
  width : α
  /-- The length in points. -/
  length : α

/-- The values printed into `pdf_width` and `pdf_height`: length and width
change places when `orientation & 1` is not zero. -/
def pdfDimensions {α : Type} (size : ppd_size_t α) (orientation : Int) : α × α :=
  if Int.land orientation 1 ≠ 0 then (size.length, size.width) else (size.width, size.length)

/-- The variable `fit` after the block `if (ppd)`; `ppd` says whether there is
a PPD file. The variable is declared without a value and assigned in that
block only, so without a PPD file it has no value, `none`. -/
def fitVar (ppd : Bool) (options : List (List Char × List Char)) : Option Bool :=
  if ppd then some (fit options) else none

/-- The arguments about the page size that are added to `pdf_argv`, all of
them in the block `if (ppd)`; `ppd` says whether there is a PPD file, `fmt x`
is the text that the conversion `%.0f` prints for `x`, `size` is the result of
`ppdPageSize(ppd, NULL)`, `origpagesizes` says whether
`HAVE_PDFTOPS_WITH_ORIGPAGESIZES` is defined. -/
def sizeArgs {α : Type} (have_pdftops origpagesizes : Bool) (fmt : α → List Char)
    (options : List (List Char × List Char)) (ppd : Bool) (size : Option (ppd_size_t α)) :
    List (List Char) :=
  if ppd then
    match size, fit options with
    | some sz, true =>
      let d := pdfDimensions sz (orientation options)
      if have_pdftops then [lit "-paperw", fmt d.1, lit "-paperh", fmt d.2, lit "-expand"]
      else [lit "-dDEVICEWIDTHPOINTS=" ++ fmt d.1, lit "-dDEVICEHEIGHTPOINTS=" ++ fmt d.2]
    | _, _ => if have_pdftops && origpagesizes then [lit "-origpagesizes"] else []
  else []

/-- The rotation that the specification gives for an orientation code: with
`r = (code - 3) mod 4`, `r` when `r < 2` and `r xor 1` when `r ≥ 2`. -/
def specRotation (code : Int) : Int :=
  if (code - 3) % 4 < 2 then (code - 3) % 4 else Int.xor ((code - 3) % 4) 1

/-! ## `parsePDFTOPDFComment`

The function reads the file with `fgets` into `char buf[4096]`. A step that
dereferences an invalid pointer has no defined result; the model gives `none`
for it. -/

/-- The number of lines that are looked at after the `%PDF` line. -/
def MAX_CHECK_COMMENT_LINES : Nat := 20

/-- The copying loop of `fgets`: at most `room` bytes, up to and including the
first line feed; the result is the bytes read and the unread rest of the file. -/
def fgetsLoop : Nat → List Char → List Char × List Char
  | 0, inp => ([], inp)
  | _ + 1, [] => ([], [])
  | room + 1, c :: cs =>
    if c = LF then ([c], cs)
    else
      let r := fgetsLoop room cs
      (c :: r.1, r.2)

/-- The call `fgets(buf, size, fp)` on a file whose unread part is `inp`: the
bytes put in `buf` and the unread rest, `none` for `NULL` at the end of the
file. -/
def fgets (size : Nat) (inp : List Char) : Option (List Char × List Char) :=
  if (fgetsLoop (size - 1) inp).1 = [] then none else some (fgetsLoop (size - 1) inp)

/-- The globals that `parsePDFTOPDFComment` sets. -/
structure Globals where
  /-- The global `pdftopdfapplied`. -/
  pdftopdfapplied : Nat
  /-- The string that the global `deviceCopies` points to. -/
  deviceCopies : List Char
  /-- The global `deviceCollate`. -/
  deviceCollate : Nat
deriving DecidableEq

/-- The values the globals are initialised with. -/
def initialGlobals : Globals :=
  { pdftopdfapplied := 0, deviceCopies := lit "1", deviceCollate := 0 }

/-- The call `strchr(s, c)` for a byte `c` other than NUL: the string from the
first `c` on, `none` for `NULL`. -/
def strchr (s : List Char) (c : Char) : Option (List Char) :=
  match (cstr s).dropWhile (fun x => x != c) with
  | [] => none
  | x :: r => some (x :: r)

/-- The test `strcmp(a, b) == 0`. -/
def strcmp_eq (a b : List Char) : Bool :=
  cstr a == cstr b

/-- The lines `p = strchr(buf + n, ':') + 1; while (*p == ' ' || *p == '\t')
p++;`: the string at `p`, `none` when `strchr` returns `NULL`, since `p` is
then not a valid pointer and is dereferenced. -/
def directiveValue (buf : List Char) (n : Nat) : Option (List Char) :=
  match strchr (buf.drop n) (Char.ofNat 58) with
  | none => none
  | some r => some ((r.drop 1).dropWhile (fun c => c == Char.ofNat 32 || c == Char.ofNat 9))

/-- The body of the `for` loop for the line in `buf`. -/
def commentLine (buf : List Char) (g : Globals) : Option Globals :=
  if strncmp_eq buf (lit "%%PDFTOPDFNumCopies") 19 then
    match directiveValue buf 19 with
    | none => none
    | some p => some { g with deviceCopies := p, pdftopdfapplied := 1 }
  else if strncmp_eq buf (lit "%%PDFTOPDFCollate") 17 then
    match directiveValue buf 17 with
    | none => none
    | some p =>
      some { g with
        deviceCollate := if strncasecmp_eq p (lit "true") 4 then 1 else 0,
        pdftopdfapplied := 1 }
  else if strcmp_eq buf (lit "% This file was generated by pdftopdf") then
    some { g with pdftopdfapplied := 1 }
  else some g

/-- The loop `while (fgets(...) != 0)` that skips to the line after the first
line starting with `%PDF`: the unread rest of the file. -/
def skipToHeader : Nat → List Char → List Char
  | 0, inp => inp
  | fuel + 1, inp =>
    match fgets 4096 inp with
    | none => inp
    | some r => if strncmp_eq r.1 (lit "%PDF") 4 then r.2 else skipToHeader fuel r.2

/-- The loop `for (i = 0; i < MAX_CHECK_COMMENT_LINES; i++)`, with `n` rounds
left. -/
def scanComments : Nat → List Char → Globals → Option Globals
  | 0, _, g => some g
  | n + 1, inp, g =>
    match fgets 4096 inp with
    | none => some g
    | some r =>
      match commentLine r.1 g with
      | none => none
      | some g' => scanComments n r.2 g'

/-- The function `parsePDFTOPDFComment` on the contents of the file, `none`
for a file that cannot be opened; the result is `none` when the call has no
defined result: `fclose` on the null pointer, or a directive without `:`. -/
def parsePDFTOPDFComment (file : Option (List Char)) (g : Globals) : Option Globals :=
  match file with
  | none => none
  | some inp => scanComments MAX_CHECK_COMMENT_LINES (skipToHeader inp.length inp) g

/-! ## Notions used to state the properties of `parsePDFTOPDFComment` -/

/-- The first line of a text, with its line feed, and the rest of the text. -/
def splitLine : List Char → List Char × List Char
  | [] => ([], [])
  | c :: cs =>
    if c = LF then ([c], cs)
    else
      let r := splitLine cs
      (c :: r.1, r.2)

/-- The lines of a text, each with its line feed; `fuel` bounds their number. -/
def textLinesFuel : Nat → List Char → List (List Char)
  | 0, _ => []
  | fuel + 1, inp =>
    if (splitLine inp).1 = [] then [] else (splitLine inp).1 :: textLinesFuel fuel (splitLine inp).2

/-- The lines of a text, each with its line feed. -/
def textLines (inp : List Char) : List (List Char) :=
  textLinesFuel inp.length inp

/-- Every line of the text is shorter than the buffer of 4096 bytes. -/
def ShortLines (inp : List Char) : Prop :=
  ∀ l ∈ textLines inp, l.length < 4096

instance (inp : List Char) : Decidable (ShortLines inp) :=
  inferInstanceAs (Decidable (∀ l ∈ textLines inp, l.length < 4096))

/-- The scan window of a file: the at most 20 lines that follow the first line
starting with `%PDF`. -/
def scanWindow (file : List Char) : List (List Char) :=
  (((textLines file).dropWhile (fun l => !(lit "%PDF").isPrefixOf l)).drop 1).take
    MAX_CHECK_COMMENT_LINES

/-- The body of the `for` loop applied to the lines of a list in turn. -/
def scanLines : List (List Char) → Globals → Option Globals
  | [], g => some g
  | l :: ls, g =>
    match commentLine l g with
    | none => none
    | some g' => scanLines ls g'

/-! ## The arguments of `pstops` (`main`, "Strip options which pstops does not need") -/

/-- The copies argument that `main` passes to `pstops` (`pstops_argv[4]`):
`deviceCopies` when `pdftopdfapplied` is set, else `argv[4]`. -/
def pstopsCopies (argv4 : List Char) (g : Globals) : List Char :=
  if g.pdftopdfapplied ≠ 0 then g.deviceCopies else argv4

end Pdftops

/-! # The `driverless` utility (`utils/driverless.c`)

The function `list_printers` starts up to two `ippfind` children and waits for
them. The embedding keeps the control flow of the function: the results of
`pipe` and `fork`, the process ids, the wait loop and the exit status. The
call of `listPrintersInArray`, which reads the output of a child and prints
the list, takes no part in it. Process ids are integers, as in the source,
where 0 is the initial value of both `ippfind_ipps_pid` and `ippfind_ipp_pid`. -/

namespace Driverless

open Pdftops (Event ChildEnd SIGTERM WTERMSIG WIFEXITED WEXITSTATUS)

/-- The variables that the wait loop of `list_printers` reads and writes, with
the process ids it has passed to `kill`. -/
structure WaitState where
  /-- The global `job_canceled`. -/
  job_canceled : Nat
  /-- The number of child processes left. -/
  wait_children : Nat
  /-- The exit status of `list_printers`. -/
  exit_status : Nat
  /-- The first arguments of the calls `kill(pid, SIGTERM)`, in order. -/
  killed : List Int
deriving DecidableEq

/-- The handler `cancel_job`. -/
def cancel_job (st : WaitState) : WaitState :=
  { st with job_canceled := 1 }

/-- The body of the inner loop `while (wait(...) < 0 && errno == EINTR)`. -/
def onEintr (ippfind_ipps_pid ippfind_ipp_pid : Int) (st : WaitState) : WaitState :=
  if st.job_canceled ≠ 0 then
    { st with
      killed := st.killed ++ [ippfind_ipps_pid, ippfind_ipp_pid],
      job_canceled := 0 }
  else st

/-- The rest of the outer loop body once `wait` has returned the child
`wait_pid`. -/
def onReaped (mode ippfind_ipps_pid : Int) (st : WaitState) (wait_pid : Nat) (how : ChildEnd) :
    WaitState :=
  let wait_status := how.status
  { st with
    wait_children := st.wait_children - 1,
    exit_status :=
      if wait_status ≠ 0 then
        if WIFEXITED wait_status then
          if mode ≠ 0 ∧ (wait_pid : Int) = ippfind_ipps_pid ∧ WEXITSTATUS wait_status ≤ 2 then 0
          else WEXITSTATUS wait_status
        else if WTERMSIG wait_status = SIGTERM then st.exit_status
        else WTERMSIG wait_status
      else st.exit_status }

/-- The loop `while (wait_children > 0)` run against the events that happen;
`none` means that `list_printers` is still blocked in `wait` when the events
end. -/
def waitLoop (mode ippfind_ipps_pid ippfind_ipp_pid : Int) :
    List Event → WaitState → Option WaitState
  | [], st => if st.wait_children > 0 then none else some st
  | ev :: evs, st =>
    if st.wait_children > 0 then
      match ev with
      | .sigterm => waitLoop mode ippfind_ipps_pid ippfind_ipp_pid evs (cancel_job st)
      | .waitEintr =>
        waitLoop mode ippfind_ipps_pid ippfind_ipp_pid evs
          (onEintr ippfind_ipps_pid ippfind_ipp_pid st)
      | .waitError => some st
      | .waitReaped pid how =>
        waitLoop mode ippfind_ipps_pid ippfind_ipp_pid evs (onReaped mode ippfind_ipps_pid st pid how)
    else some st

/-- What the system calls of `list_printers` return in one run, and what
happens while it waits. -/
structure Sys where
  /-- The result of `pipe(post_proc_pipe_ipps)`. -/
  pipe_ipps : Int
  /-- The result of the `fork` for the IPPS `ippfind`, when it is called. -/
  fork_ipps : Int
  /-- The result of `pipe(post_proc_pipe_ipp)`. -/
  pipe_ipp : Int
  /-- The result of the `fork` for the IPP `ippfind`, when it is called. -/
  fork_ipp : Int
  /-- The value of `job_canceled` when the wait loop is entered. -/
  job_canceled : Nat
  /-- The events during the wait loop. -/
  events : List Event

/-- The two `ippfind` children. -/
inductive Child where
  /-- The child that runs `ippfind _ipps._tcp`. -/
  | ipps
  /-- The child that runs `ippfind _ipp._tcp`. -/
  | ipp
deriving DecidableEq

/-- What `list_printers` has done when it returns. -/
structure Result where
  /-- The process ids that `fork` has returned to the parent, in order. -/
  forked : List Int
  /-- The first arguments of the calls `kill(pid, SIGTERM)`, in order. -/
  killed : List Int
  /-- The value returned. -/
  exit_status : Nat
deriving DecidableEq

/-- How a run of `list_printers` goes on. -/
inductive Outcome where
  /-- The call `fork` returned 0: this process is an `ippfind` child. -/
  | child (c : Child)
  /-- The parent process returned from `list_printers`. -/
  | returned (r : Result)
  /-- The parent process is still blocked in `wait`. -/
  | blocked
deriving DecidableEq

/-- The function `list_printers(mode, reg_type_no, isFax)`; the argument
`isFax` only changes the arguments of `ippfind` and the text printed. -/
def list_printers (mode reg_type_no : Int) (sys : Sys) : Outcome :=
  if sys.pipe_ipps ≠ 0 then .returned { forked := [], killed := [], exit_status := 1 }
  else if reg_type_no ≥ 1 ∧ sys.fork_ipps = 0 then .child .ipps
  else if reg_type_no ≥ 1 ∧ sys.fork_ipps < 0 then
    .returned { forked := [], killed := [], exit_status := 1 }
  else
    let ippfind_ipps_pid : Int := if reg_type_no ≥ 1 then sys.fork_ipps else 0
    let forked_ipps : List Int := if reg_type_no ≥ 1 then [sys.fork_ipps] else []
    if sys.pipe_ipp ≠ 0 then .returned { forked := forked_ipps, killed := [], exit_status := 1 }
    else if reg_type_no ≤ 1 ∧ sys.fork_ipp = 0 then .child .ipp
    else if reg_type_no ≤ 1 ∧ sys.fork_ipp < 0 then
      .returned { forked := forked_ipps, killed := [], exit_status := 1 }
    else
      let ippfind_ipp_pid : Int := if reg_type_no ≤ 1 then sys.fork_ipp else 0
      let forked : List Int := forked_ipps ++ (if reg_type_no ≤ 1 then [sys.fork_ipp] else [])
      match waitLoop mode ippfind_ipps_pid ippfind_ipp_pid sys.events
          { job_canceled := sys.job_canceled, wait_children := 2, exit_status := 0,
            killed := [] } with
      | none => .blocked
      | some st => .returned { forked := forked, killed := st.killed, exit_status := st.exit_status }

end Driverless

namespace Pdftops

set_option maxRecDepth 100000

/-! ## Facts about the C library primitives -/

theorem cstr_eq_self {buf : List Char} (h : NUL ∉ buf) : cstr buf = buf := by
  unfold cstr
  rw [List.takeWhile_eq_self_iff]
  intro x hx
  have : x ≠ NUL := fun e => h (e ▸ hx)
  simpa using this

theorem cstr_initial (buf : List Char) : cstr buf <+: buf :=
  List.takeWhile_prefix _

theorem nul_not_mem_cstr (buf : List Char) : NUL ∉ cstr buf := by
  intro h
  have := List.mem_takeWhile_imp h
  simp at this

/-- Comparing the first `p.length` bytes of a buffer with a NUL-free literal
`p` tests whether the buffer starts with `p`. -/
theorem take_cstr_eq_iff (p : List Char) (hp : NUL ∉ p) (buf : List Char) :
    (cstr buf ++ [NUL]).take p.length = p ↔ p <+: buf := by
  induction p generalizing buf with
  | nil => simp
  | cons a p ih =>
    have ha : a ≠ NUL := fun e => hp (by simp [e])
    have hp' : NUL ∉ p := fun h => hp (List.mem_cons_of_mem _ h)
    cases buf with
    | nil =>
      simp [cstr]
      intro h
      exact absurd h.symm ha
    | cons b bs =>
      by_cases hb : b = NUL
      · subst hb
        simp [cstr]
        constructor
        · intro h; exact absurd h.1.symm ha
        · intro h; exact absurd h.1 ha
      · have : cstr (b :: bs) = b :: cstr bs := by simp [cstr, hb]
        rw [this]
        simp only [List.cons_append, List.length_cons, List.take_succ_cons, List.cons.injEq,
          List.cons_prefix_cons]
        rw [ih hp' bs]
        constructor
        · rintro ⟨h1, h2⟩; exact ⟨h1.symm, h2⟩
        · rintro ⟨h1, h2⟩; exact ⟨h1.symm, h2⟩

theorem strncmp_eq_iff_prefix (buf p : List Char) (hp : NUL ∉ p) :
    strncmp_eq buf p p.length = true ↔ p <+: buf := by
  unfold strncmp_eq
  rw [cstr_eq_self hp]
  simp only [beq_iff_eq, List.take_left']
  exact take_cstr_eq_iff p hp buf

/-! ## Facts about the line reader -/

theorem LF_ne_CR : LF ≠ CR := by decide

theorem getLineLoop_append (room : Nat) (inp : List Char) :
    (getLineLoop room inp).1 ++ (getLineLoop room inp).2 = inp := by
  induction room generalizing inp with
  | zero => simp [getLineLoop]
  | succ n ih =>
    cases inp with
    | nil => simp [getLineLoop]
    | cons c cs =>
      unfold getLineLoop
      by_cases h1 : c = CR
      · cases cs with
        | nil => simp [h1]
        | cons d ds => by_cases h2 : d = LF <;> simp [h1, h2]
      · by_cases h2 : c = LF
        · rw [if_neg h1, if_pos h2]; simp
        · rw [if_neg h1, if_neg h2]; simp [ih cs]

theorem getLineLoop_ne_nil (room : Nat) (c : Char) (cs : List Char) :
    (getLineLoop (room + 1) (c :: cs)).1 ≠ [] := by
  unfold getLineLoop
  by_cases h1 : c = CR
  · cases cs with
    | nil => simp [h1]
    | cons d ds => by_cases h2 : d = LF <;> simp [h1, h2]
  · by_cases h2 : c = LF
    · rw [if_neg h1, if_pos h2]; simp
    · rw [if_neg h1, if_neg h2]; simp

theorem cupsFileGetLine_append (inp : List Char) :
    (cupsFileGetLine BUFSIZE inp).1 ++ (cupsFileGetLine BUFSIZE inp).2 = inp := by
  unfold cupsFileGetLine
  split
  · simp
  · exact getLineLoop_append _ _

theorem cupsFileGetLine_nil : cupsFileGetLine BUFSIZE [] = ([], []) := by
  simp [cupsFileGetLine, BUFSIZE, getLineLoop]

theorem cupsFileGetLine_ne_nil (c : Char) (cs : List Char) :
    (cupsFileGetLine BUFSIZE (c :: cs)).1 ≠ [] := by
  have : cupsFileGetLine BUFSIZE (c :: cs) = getLineLoop (8189 + 1) (c :: cs) := by
    simp [cupsFileGetLine, BUFSIZE]
  rw [this]
  exact getLineLoop_ne_nil _ _ _

theorem cupsFileGetLine_rest_length (c : Char) (cs : List Char) :
    (cupsFileGetLine BUFSIZE (c :: cs)).2.length ≤ cs.length := by
  have h1 := cupsFileGetLine_append (c :: cs)
  have h2 := cupsFileGetLine_ne_nil c cs
  have h3 := congrArg List.length h1
  have h4 : 0 < (cupsFileGetLine BUFSIZE (c :: cs)).1.length := List.length_pos.mpr h2
  simp only [List.length_append, List.length_cons] at h3
  omega

theorem fileLinesFuel_congr (f1 f2 : Nat) (inp : List Char) (h1 : inp.length ≤ f1)
    (h2 : inp.length ≤ f2) : fileLinesFuel f1 inp = fileLinesFuel f2 inp := by
  induction f1 generalizing f2 inp with
  | zero =>
    have : inp = [] := List.length_eq_zero.mp (by omega)
    subst this
    cases f2 <;> simp [fileLinesFuel, cupsFileGetLine_nil]
  | succ n ih =>
    cases inp with
    | nil => cases f2 <;> simp [fileLinesFuel, cupsFileGetLine_nil]
    | cons c cs =>
      have hlen := cupsFileGetLine_rest_length c cs
      simp only [List.length_cons] at h1 h2
      cases f2 with
      | zero => omega
      | succ m =>
        simp only [fileLinesFuel]
        rw [ih m _ (by omega) (by omega)]

/-- More fuel than the length of the file changes nothing for `fileLinesFuel`. -/
theorem fileLinesFuel_eq (fuel : Nat) (inp : List Char) (h : inp.length ≤ fuel) :
    fileLinesFuel fuel inp = fileLines inp :=
  fileLinesFuel_congr _ _ _ h (Nat.le_refl _)

theorem fileLines_nil : fileLines [] = [] := rfl

theorem fileLines_cons (c : Char) (cs : List Char) :
    fileLines (c :: cs) =
      (cupsFileGetLine BUFSIZE (c :: cs)).1 :: fileLines (cupsFileGetLine BUFSIZE (c :: cs)).2 := by
  have hlen := cupsFileGetLine_rest_length c cs
  have hne := cupsFileGetLine_ne_nil c cs
  show fileLinesFuel (cs.length + 1) (c :: cs) = _
  simp only [fileLinesFuel]
  rw [if_pos (List.length_pos.mpr hne), fileLinesFuel_eq _ _ hlen]

/-- Putting the lines of a file together gives the file back. -/
theorem flatten_fileLines (inp : List Char) : (fileLines inp).flatten = inp := by
  suffices h : ∀ n (inp : List Char), inp.length ≤ n → (fileLines inp).flatten = inp from
    h _ inp (Nat.le_refl _)
  intro n
  induction n with
  | zero =>
    intro inp h
    have : inp = [] := List.length_eq_zero.mp (by omega)
    subst this; rfl
  | succ n ih =>
    intro inp h
    cases inp with
    | nil => rfl
    | cons c cs =>
      rw [fileLines_cons, List.flatten_cons, ih]
      · exact cupsFileGetLine_append _
      · have := cupsFileGetLine_rest_length c cs
        simp only [List.length_cons] at h
        omega

theorem not_mem_fileLines_nil (inp : List Char) : [] ∉ fileLines inp := by
  suffices h : ∀ n (inp : List Char), inp.length ≤ n → [] ∉ fileLines inp from
    h _ inp (Nat.le_refl _)
  intro n
  induction n with
  | zero =>
    intro inp h
    have : inp = [] := List.length_eq_zero.mp (by omega)
    subst this; simp [fileLines_nil]
  | succ n ih =>
    intro inp h
    cases inp with
    | nil => simp [fileLines_nil]
    | cons c cs =>
      rw [fileLines_cons, List.mem_cons, not_or]
      refine ⟨fun e => cupsFileGetLine_ne_nil c cs e.symm, ih _ ?_⟩
      have := cupsFileGetLine_rest_length c cs
      simp only [List.length_cons] at h
      omega

/-! ## The first loop of the post-processing child -/

theorem notMarker_eq_true_iff (l : List Char) : notMarker l = true ↔ ¬StartsWithMarker l := by
  have h1 := strncmp_eq_iff_prefix l (lit "%%BeginProlog") (by decide)
  have h2 := strncmp_eq_iff_prefix l (lit "%%EndProlog") (by decide)
  have h3 := strncmp_eq_iff_prefix l (lit "%%BeginSetup") (by decide)
  have h4 := strncmp_eq_iff_prefix l (lit "%%Page:") (by decide)
  have e1 : (lit "%%BeginProlog").length = 13 := by decide
  have e2 : (lit "%%EndProlog").length = 11 := by decide
  have e3 : (lit "%%BeginSetup").length = 12 := by decide
  have e4 : (lit "%%Page:").length = 7 := by decide
  rw [e1] at h1; rw [e2] at h2; rw [e3] at h3; rw [e4] at h4
  unfold notMarker StartsWithMarker
  simp only [Bool.and_eq_true, Bool.not_eq_true', not_or, ← h1, ← h2, ← h3, ← h4,
    Bool.not_eq_true, and_assoc]

theorem notMarker_eq_false_iff (l : List Char) : notMarker l = false ↔ StartsWithMarker l := by
  rw [← Bool.not_eq_true, notMarker_eq_true_iff, not_not]

theorem beginProlog_test (l : List Char) :
    strncmp_eq l (lit "%%BeginProlog") 13 = true ↔ lit "%%BeginProlog" <+: l :=
  strncmp_eq_iff_prefix l (lit "%%BeginProlog") (by decide)

theorem endProlog_test (l : List Char) :
    strncmp_eq l (lit "%%EndProlog") 11 = true ↔ lit "%%EndProlog" <+: l :=
  strncmp_eq_iff_prefix l (lit "%%EndProlog") (by decide)

theorem copyHeader_congr (f1 f2 : Nat) (inp : List Char) (h1 : inp.length ≤ f1)
    (h2 : inp.length ≤ f2) : copyHeader f1 inp = copyHeader f2 inp := by
  induction f1 generalizing f2 inp with
  | zero =>
    have : inp = [] := List.length_eq_zero.mp (by omega)
    subst this
    cases f2 <;> simp [copyHeader, cupsFileGetLine_nil]
  | succ n ih =>
    cases inp with
    | nil => cases f2 <;> simp [copyHeader, cupsFileGetLine_nil]
    | cons c cs =>
      have hlen := cupsFileGetLine_rest_length c cs
      simp only [List.length_cons] at h1 h2
      cases f2 with
      | zero => omega
      | succ m =>
        simp only [copyHeader]
        rw [ih m _ (by omega) (by omega)]

theorem copyHeader_nil : copyHeader ([] : List Char).length [] = ([], none) := rfl

/-- One iteration of the copy loop on a file that is not at its end. -/
theorem copyHeader_cons (c : Char) (cs : List Char) :
    copyHeader (c :: cs).length (c :: cs) =
      if notMarker (cupsFileGetLine BUFSIZE (c :: cs)).1 then
        (printf_s (cupsFileGetLine BUFSIZE (c :: cs)).1 ::
          (copyHeader (cupsFileGetLine BUFSIZE (c :: cs)).2.length
            (cupsFileGetLine BUFSIZE (c :: cs)).2).1,
         (copyHeader (cupsFileGetLine BUFSIZE (c :: cs)).2.length
            (cupsFileGetLine BUFSIZE (c :: cs)).2).2)
      else ([], some ((cupsFileGetLine BUFSIZE (c :: cs)).1, (cupsFileGetLine BUFSIZE (c :: cs)).2)) := by
  have hlen := cupsFileGetLine_rest_length c cs
  have hne := cupsFileGetLine_ne_nil c cs
  simp only [List.length_cons, copyHeader]
  rw [if_pos (List.length_pos.mpr hne), copyHeader_congr cs.length _ _ hlen (Nat.le_refl _)]

/-- The copy loop stops at the first line that starts with a marker: the lines
before it have been printed and the marker line is left in the buffer. -/
theorem copyHeader_found (pre : List (List Char)) (l : List Char) (post : List (List Char))
    (inp : List Char) (hlines : fileLines inp = pre ++ l :: post)
    (hpre : ∀ p ∈ pre, ¬StartsWithMarker p) (hl : StartsWithMarker l) :
    copyHeader inp.length inp = (pre.map printf_s, some (l, post.flatten)) := by
  induction pre generalizing inp with
  | nil =>
    cases inp with
    | nil => simp [fileLines_nil] at hlines
    | cons c cs =>
      rw [fileLines_cons] at hlines
      simp only [List.nil_append, List.cons.injEq] at hlines
      rw [copyHeader_cons, hlines.1, if_neg]
      · rw [← hlines.2, flatten_fileLines]; rfl
      · rw [Bool.not_eq_true, notMarker_eq_false_iff]; exact hl
  | cons p pre ih =>
    cases inp with
    | nil => simp [fileLines_nil] at hlines
    | cons c cs =>
      rw [fileLines_cons] at hlines
      simp only [List.cons_append, List.cons.injEq] at hlines
      have hp : notMarker p = true := (notMarker_eq_true_iff p).mpr (hpre p (by simp))
      rw [copyHeader_cons, hlines.1, if_pos hp,
        ih _ hlines.2 (fun q hq => hpre q (List.mem_cons_of_mem _ hq))]
      rfl

/-- Without a marker line the copy loop prints every line and stops at the end
of the file. -/
theorem copyHeader_none (inp : List Char) (h : ∀ p ∈ fileLines inp, ¬StartsWithMarker p) :
    copyHeader inp.length inp = ((fileLines inp).map printf_s, none) := by
  suffices hs : ∀ n (inp : List Char), inp.length ≤ n →
      (∀ p ∈ fileLines inp, ¬StartsWithMarker p) →
      copyHeader inp.length inp = ((fileLines inp).map printf_s, none) from
    hs _ inp (Nat.le_refl _) h
  intro n
  induction n with
  | zero =>
    intro inp hlen _
    have : inp = [] := List.length_eq_zero.mp (by omega)
    subst this; rfl
  | succ n ih =>
    intro inp hlen h
    cases inp with
    | nil => rfl
    | cons c cs =>
      have hrest := cupsFileGetLine_rest_length c cs
      simp only [List.length_cons] at hlen
      rw [fileLines_cons] at h
      have hp : notMarker (cupsFileGetLine BUFSIZE (c :: cs)).1 = true :=
        (notMarker_eq_true_iff _).mpr (h _ (by simp))
      rw [copyHeader_cons, if_pos hp, fileLines_cons,
        ih _ (by omega) (fun q hq => h q (List.mem_cons_of_mem _ hq))]
      rfl

theorem postProcess_found (m : Option (List Char)) (pre : List (List Char)) (l : List Char)
    (post : List (List Char)) (inp : List Char) (hlines : fileLines inp = pre ++ l :: post)
    (hpre : ∀ p ∈ pre, ¬StartsWithMarker p) (hl : StartsWithMarker l) :
    postProcess m inp =
      { written := pre.map printf_s ++ injected m l, tail := post.flatten, status := 0 } := by
  unfold postProcess
  rw [copyHeader_found pre l post inp hlines hpre hl]

theorem postProcess_none (m : Option (List Char)) (inp : List Char)
    (h : ∀ p ∈ fileLines inp, ¬StartsWithMarker p) :
    postProcess m inp = { written := (fileLines inp).map printf_s, tail := [], status := 0 } := by
  unfold postProcess
  rw [copyHeader_none inp h]

theorem map_printf_s_eq (ls : List (List Char)) (h : ∀ p ∈ ls, NUL ∉ p) :
    ls.map printf_s = ls := by
  induction ls with
  | nil => rfl
  | cons a ls ih =>
    rw [List.map_cons, ih (fun p hp => h p (List.mem_cons_of_mem _ hp))]
    unfold printf_s
    rw [cstr_eq_self (h a (by simp))]

theorem injected_beginProlog (m : Option (List Char)) (l : List Char)
    (hl : lit "%%BeginProlog" <+: l) : injected m l = printf_s l :: fixLines m := by
  have h := (beginProlog_test l).mpr hl
  simp [injected, h]

theorem not_beginProlog_of_other (l : List Char)
    (hl : lit "%%EndProlog" <+: l ∨ lit "%%BeginSetup" <+: l ∨ lit "%%Page:" <+: l) :
    ¬lit "%%BeginProlog" <+: l := by
  intro hb
  rcases hl with h | h | h
  · exact absurd (List.prefix_of_prefix_length_le h hb (by decide)) (by decide)
  · exact absurd (List.prefix_of_prefix_length_le h hb (by decide)) (by decide)
  · exact absurd (List.prefix_of_prefix_length_le h hb (by decide)) (by decide)

theorem injected_other (m : Option (List Char)) (l : List Char)
    (hl : ¬lit "%%BeginProlog" <+: l) :
    injected m l = puts "%%BeginProlog" :: (fixLines m ++
      ((if lit "%%EndProlog" <+: l then [] else [puts "%%EndProlog"]) ++ [printf_s l])) := by
  have h : strncmp_eq l (lit "%%BeginProlog") 13 = false := by
    rw [← Bool.not_eq_true, beginProlog_test]; exact hl
  by_cases he : lit "%%EndProlog" <+: l
  · have h2 := (endProlog_test l).mpr he
    simp [injected, h, h2, he]
  · have h2 : strncmp_eq l (lit "%%EndProlog") 11 = false := by
      rw [← Bool.not_eq_true, endProlog_test]; exact he
    simp [injected, h, h2, he]

/-! ## The properties of the post-processing child -/

theorem output_beginProlog (m : Option (List Char)) (inp : List Char)
    (pre : List (List Char)) (l : List Char) (post : List (List Char))
    (hlines : fileLines inp = pre ++ l :: post)
    (hpre : ∀ p ∈ pre, ¬StartsWithMarker p)
    (hl : lit "%%BeginProlog" <+: l)
    (hnul : ∀ p ∈ pre ++ [l], NUL ∉ p) :
    (postProcess m inp).output =
      pre.flatten ++ l ++ (fixLines m).flatten ++ post.flatten := by
  rw [postProcess_found m pre l post inp hlines hpre (Or.inl hl)]
  have h1 : pre.map printf_s = pre := map_printf_s_eq pre (fun p hp => hnul p (by simp [hp]))
  have h2 : printf_s l = l := cstr_eq_self (hnul l (by simp))
  simp [Rewritten.output, injected_beginProlog m l hl, h1, h2]

/-- C1, the code at the failing input: the first marker line of the input
starts with `%%BeginProlog` and the line before it holds a NUL byte. The loop
that copies the lines before the marker writes each with
`printf("%s", buffer)`, which stops at the NUL, so the output is not the lines
before the marker line unchanged, that line, the fix and the rest: the bytes
of the first line from the NUL on are lost. -/
theorem postProcess_beginProlog_nul :
    fileLines (lit "a\x00b\n%%BeginProlog\n") = [lit "a\x00b\n"] ++ lit "%%BeginProlog\n" :: [] ∧
    (∀ p ∈ [lit "a\x00b\n"], ¬StartsWithMarker p) ∧
    lit "%%BeginProlog" <+: lit "%%BeginProlog\n" ∧
    (postProcess (some (lit "Kyocera")) (lit "a\x00b\n%%BeginProlog\n")).output ≠
      [lit "a\x00b\n"].flatten ++ lit "%%BeginProlog\n" ++
        (fixLines (some (lit "Kyocera"))).flatten ++ ([] : List (List Char)).flatten ∧
    (postProcess (some (lit "Kyocera")) (lit "a\x00b\n%%BeginProlog\n")).output =
      lit "a" ++ lit "%%BeginProlog\n" ++ (fixLines (some (lit "Kyocera"))).flatten := by
  refine ⟨by decide, by decide, by decide, by decide, by decide⟩

theorem output_otherMarker (m : Option (List Char)) (inp : List Char)
    (pre : List (List Char)) (l : List Char) (post : List (List Char))
    (hlines : fileLines inp = pre ++ l :: post)
    (hpre : ∀ p ∈ pre, ¬StartsWithMarker p)
    (hl : lit "%%EndProlog" <+: l ∨ lit "%%BeginSetup" <+: l ∨ lit "%%Page:" <+: l)
    (hnul : ∀ p ∈ pre ++ [l], NUL ∉ p) :
    (postProcess m inp).output =
      pre.flatten ++ puts "%%BeginProlog" ++ (fixLines m).flatten ++
        (if lit "%%EndProlog" <+: l then [] else puts "%%EndProlog") ++ l ++ post.flatten := by
  rw [postProcess_found m pre l post inp hlines hpre (Or.inr hl)]
  have h1 : pre.map printf_s = pre := map_printf_s_eq pre (fun p hp => hnul p (by simp [hp]))
  have h2 : printf_s l = l := cstr_eq_self (hnul l (by simp))
  rw [Rewritten.output, injected_other m l (not_beginProlog_of_other l hl), h1, h2]
  by_cases he : lit "%%EndProlog" <+: l <;> simp [he]

/-- C2, the code at the failing input: the first marker line of the input
starts with `%%Page:` and holds a NUL byte. The line found is written back
with `printf("%s", buffer)`, which stops at the NUL, so the output is not the
`%%BeginProlog` line, the fix, the `%%EndProlog` line, the line found and the
rest: the line found has lost its bytes from the NUL on, its line end
included. -/
theorem postProcess_otherMarker_nul :
    fileLines (lit "%%Page: 1\x00 1\nshowpage\n") =
      [] ++ lit "%%Page: 1\x00 1\n" :: [lit "showpage\n"] ∧
    lit "%%Page:" <+: lit "%%Page: 1\x00 1\n" ∧
    (postProcess (some (lit "Brother")) (lit "%%Page: 1\x00 1\nshowpage\n")).output ≠
      ([] : List (List Char)).flatten ++ puts "%%BeginProlog" ++
        (fixLines (some (lit "Brother"))).flatten ++
        (if lit "%%EndProlog" <+: lit "%%Page: 1\x00 1\n" then [] else puts "%%EndProlog") ++
        lit "%%Page: 1\x00 1\n" ++ [lit "showpage\n"].flatten ∧
    (postProcess (some (lit "Brother")) (lit "%%Page: 1\x00 1\nshowpage\n")).output =
      puts "%%BeginProlog" ++ (fixLines (some (lit "Brother"))).flatten ++
        puts "%%EndProlog" ++ lit "%%Page: 1" ++ lit "showpage\n" := by
  refine ⟨by decide, by decide, by decide, by decide⟩

theorem mem_fileLines_nul (inp : List Char) (hnul : NUL ∉ inp) :
    ∀ p ∈ fileLines inp, NUL ∉ p := by
  intro p hp h
  apply hnul
  rw [← flatten_fileLines inp]
  exact List.mem_flatten.mpr ⟨p, hp, h⟩

theorem output_noMarker (m : Option (List Char)) (inp : List Char)
    (h : ∀ p ∈ fileLines inp, ¬StartsWithMarker p) (hnul : NUL ∉ inp) :
    (postProcess m inp).written = fileLines inp ∧ (postProcess m inp).tail = [] ∧
      (postProcess m inp).output = inp ∧ (postProcess m inp).status = 0 := by
  rw [postProcess_none m inp h, map_printf_s_eq _ (mem_fileLines_nul inp hnul)]
  simp [Rewritten.output, flatten_fileLines]

/-- C5, the code at the failing input: no line of the input starts with one
of the four markers and the first line holds a NUL byte. Every line is written
with `printf("%s", buffer)`, which stops at the NUL, so the output is not the
input: the bytes of the first line from the NUL on, its line end included, are
lost. -/
theorem postProcess_noMarker_nul :
    (∀ p ∈ fileLines (lit "a\x00b\nshowpage\n"), ¬StartsWithMarker p) ∧
    (postProcess (some (lit "Kyocera")) (lit "a\x00b\nshowpage\n")).output ≠
      lit "a\x00b\nshowpage\n" ∧
    (postProcess (some (lit "Kyocera")) (lit "a\x00b\nshowpage\n")).output =
      lit "ashowpage\n" := by
  refine ⟨by decide, by decide, by decide⟩

/-! ## The manufacturer tests -/

theorem tolower_NUL : tolower NUL = NUL := by decide

theorem map_take_cstr_eq_iff (q : List Char) (hq : NUL ∉ q) (s : List Char) :
    ((cstr s ++ [NUL]).take q.length).map tolower = q ↔ (s.take q.length).map tolower = q := by
  induction q generalizing s with
  | nil => simp
  | cons a q ih =>
    have ha : a ≠ NUL := fun e => hq (by simp [e])
    have hq' : NUL ∉ q := fun h => hq (List.mem_cons_of_mem _ h)
    cases s with
    | nil =>
      simp [cstr, tolower_NUL]
      intro h
      exact absurd h.symm ha
    | cons b bs =>
      by_cases hb : b = NUL
      · subst hb
        simp [cstr, tolower_NUL]
        intro h
        exact absurd h.symm ha
      · have : cstr (b :: bs) = b :: cstr bs := by simp [cstr, hb]
        rw [this]
        simp only [List.cons_append, List.length_cons, List.take_succ_cons, List.map_cons,
          List.cons.injEq]
        rw [ih hq' bs]

theorem strncasecmp_eq_iff (s p : List Char) (hp : NUL ∉ p) (hq : NUL ∉ p.map tolower) :
    strncasecmp_eq s p p.length = true ↔ HasPrefixNoCase p s := by
  unfold strncasecmp_eq HasPrefixNoCase
  rw [cstr_eq_self hp]
  simp only [beq_iff_eq, List.take_left']
  have := map_take_cstr_eq_iff (p.map tolower) hq s
  simpa using this

theorem kyocera_test (s : List Char) :
    strncasecmp_eq s (lit "Kyocera") 7 = true ↔ HasPrefixNoCase (lit "Kyocera") s :=
  strncasecmp_eq_iff s (lit "Kyocera") (by decide) (by decide)

theorem brother_test (s : List Char) :
    strncasecmp_eq s (lit "Brother") 7 = true ↔ HasPrefixNoCase (lit "Brother") s :=
  strncasecmp_eq_iff s (lit "Brother") (by decide) (by decide)

theorem fixLines_of_hasQuirk (m : Option (List Char)) (h : HasQuirk m) :
    fixLines m = kyoceraFix ∨ fixLines m = brotherFix := by
  obtain ⟨s, rfl, hs⟩ := h
  unfold fixLines
  by_cases hk : strncasecmp_eq s (lit "Kyocera") 7 = true
  · left; simp [hk]
  · right
    have hb : strncasecmp_eq s (lit "Brother") 7 = true := by
      rcases hs with h | h
      · exact absurd ((kyocera_test s).mpr h) hk
      · exact (brother_test s).mpr h
    simp [hk, hb]

/-! ## The place of the fix in the output -/

theorem getLineLoop_LF_last (room : Nat) (inp u v : List Char)
    (h : (getLineLoop room inp).1 = u ++ LF :: v) : v = [] := by
  induction room generalizing inp u with
  | zero => simp [getLineLoop] at h
  | succ n ih =>
    cases inp with
    | nil => simp [getLineLoop] at h
    | cons c cs =>
      unfold getLineLoop at h
      by_cases h1 : c = CR
      · rw [if_pos h1] at h
        have hne : CR ≠ LF := by decide
        cases cs with
        | nil =>
          cases u with
          | nil => simp [h1, hne] at h
          | cons x u => simp at h
        | cons d ds =>
          by_cases h2 : d = LF
          · simp only [h2, if_true] at h
            cases u with
            | nil => simp [h1, hne] at h
            | cons x u =>
              cases u with
              | nil =>
                simp only [List.cons_append, List.nil_append, List.cons.injEq] at h
                exact h.2.2.symm
              | cons y u => simp at h
          · simp only [h2, if_false] at h
            cases u with
            | nil => simp [h1, hne] at h
            | cons x u => simp at h
      · by_cases h2 : c = LF
        · rw [if_neg h1, if_pos h2] at h
          cases u with
          | nil =>
            simp only [List.nil_append, List.cons.injEq] at h
            exact h.2.symm
          | cons x u => simp at h
        · rw [if_neg h1, if_neg h2] at h
          cases u with
          | nil => simp [h2] at h
          | cons x u =>
            simp only [List.cons_append, List.cons.injEq] at h
            exact ih cs u h.2

theorem fileLines_LF_last (inp p : List Char) (hp : p ∈ fileLines inp) (u v : List Char)
    (h : p = u ++ LF :: v) : v = [] := by
  suffices hs : ∀ n (inp : List Char), inp.length ≤ n → p ∈ fileLines inp → v = [] from
    hs _ inp (Nat.le_refl _) hp
  intro n
  induction n with
  | zero =>
    intro inp hlen hp
    have : inp = [] := List.length_eq_zero.mp (by omega)
    subst this; simp [fileLines_nil] at hp
  | succ n ih =>
    intro inp hlen hp
    cases inp with
    | nil => simp [fileLines_nil] at hp
    | cons c cs =>
      rw [fileLines_cons, List.mem_cons] at hp
      rcases hp with hp | hp
      · have hg : cupsFileGetLine BUFSIZE (c :: cs) = getLineLoop 8190 (c :: cs) := by
          simp [cupsFileGetLine, BUFSIZE]
        rw [hg] at hp
        exact getLineLoop_LF_last _ _ u v (by rw [← hp, h])
      · have := cupsFileGetLine_rest_length c cs
        simp only [List.length_cons] at hlen
        exact ih _ (by omega) hp

theorem fileLines_suffix (pre post : List (List Char)) (inp : List Char)
    (h : fileLines inp = pre ++ post) : fileLines post.flatten = post := by
  induction pre generalizing inp with
  | nil =>
    simp only [List.nil_append] at h
    rw [← h, flatten_fileLines]
  | cons p pre ih =>
    cases inp with
    | nil => simp [fileLines_nil] at h
    | cons c cs =>
      rw [fileLines_cons] at h
      simp only [List.cons_append, List.cons.injEq] at h
      exact ih _ h.2

theorem exists_first_marker (ls : List (List Char)) (h : ∃ p ∈ ls, StartsWithMarker p) :
    ∃ pre l post, ls = pre ++ l :: post ∧ (∀ p ∈ pre, ¬StartsWithMarker p) ∧
      StartsWithMarker l := by
  induction ls with
  | nil => simp at h
  | cons a ls ih =>
    by_cases ha : StartsWithMarker a
    · exact ⟨[], a, ls, rfl, by simp, ha⟩
    · have h' : ∃ p ∈ ls, StartsWithMarker p := by
        obtain ⟨p, hp, hm⟩ := h
        rcases List.mem_cons.mp hp with e | hp
        · exact absurd (e ▸ hm) ha
        · exact ⟨p, hp, hm⟩
      obtain ⟨pre, l, post, e, h1, h2⟩ := ih h'
      refine ⟨a :: pre, l, post, by rw [e]; rfl, ?_, h2⟩
      intro p hp
      rcases List.mem_cons.mp hp with e | hp
      · exact e ▸ ha
      · exact h1 p hp

theorem prefix_cstr (p l : List Char) (hp : NUL ∉ p) (h : p <+: l) : p <+: cstr l := by
  obtain ⟨t, rfl⟩ := h
  unfold cstr
  rw [List.takeWhile_append_of_pos]
  · exact List.prefix_append _ _
  · intro a ha
    have : a ≠ NUL := fun e => hp (e ▸ ha)
    simpa using this

theorem startsWithMarker_cstr (l : List Char) (h : StartsWithMarker l) :
    StartsWithMarker (cstr l) := by
  rcases h with h | h | h | h
  · exact Or.inl (prefix_cstr _ _ (by decide) h)
  · exact Or.inr (Or.inl (prefix_cstr _ _ (by decide) h))
  · exact Or.inr (Or.inr (Or.inl (prefix_cstr _ _ (by decide) h)))
  · exact Or.inr (Or.inr (Or.inr (prefix_cstr _ _ (by decide) h)))

theorem startsWithMarker_of_cstr (l : List Char) (h : StartsWithMarker (cstr l)) :
    StartsWithMarker l := by
  rcases h with h | h | h | h
  · exact Or.inl (h.trans (cstr_initial l))
  · exact Or.inr (Or.inl (h.trans (cstr_initial l)))
  · exact Or.inr (Or.inr (Or.inl (h.trans (cstr_initial l))))
  · exact Or.inr (Or.inr (Or.inr (h.trans (cstr_initial l))))

theorem fix_facts (S : List (List Char)) (h : S = kyoceraFix ∨ S = brotherFix) :
    S.Nodup ∧ S ≠ [] ∧ (∀ s ∈ S, ¬StartsWithMarker s) ∧ (∀ s ∈ S, s.getLast? = some LF) ∧
      puts "%%BeginProlog" ∉ S ∧ puts "%%EndProlog" ∉ S := by
  rcases h with rfl | rfl
  · refine ⟨by decide, by decide, by decide, by decide, by decide, by decide⟩
  · refine ⟨by decide, by decide, by decide, by decide, by decide, by decide⟩

/-- A line of the input that is not a line of the fix is not printed as one:
`printf` can only shorten it, and a line of the fix ends with a line feed. -/
theorem printf_s_ne_fix (inp p s : List Char) (hp : p ∈ fileLines inp) (hps : p ≠ s)
    (hs : s.getLast? = some LF) : printf_s p ≠ s := by
  intro e
  obtain ⟨t, ht⟩ := cstr_initial p
  unfold printf_s at e
  rw [e] at ht
  have hs' : s.dropLast ++ [LF] = s := List.dropLast_append_getLast? LF (by simp [hs])
  cases t with
  | nil => exact hps (by simpa using ht.symm)
  | cons x t =>
    have : x :: t = [] :=
      fileLines_LF_last inp p hp s.dropLast (x :: t) (by rw [← ht, ← hs']; simp)
    simp at this

theorem unique_block {α : Type} (a b a' b' S : List α) (s0 : α) (S' : List α)
    (hS : S = s0 :: S') (ha : s0 ∉ a) (hb : s0 ∉ S' ++ b)
    (h : a ++ S ++ b = a' ++ S ++ b') : a' = a ∧ b' = b := by
  subst hS
  have h' : a ++ s0 :: (S' ++ b) = a' ++ s0 :: (S' ++ b') := by simpa using h
  have := (List.append_cons_inj_of_not_mem ha hb).mp h'
  exact ⟨this.1.symm, (List.append_cancel_left this.2.2).symm⟩

/-- The writes of the child, one per line read or line of the fix, followed by
the lines of the part it copies: for a manufacturer with a registered
workaround and an input that has a marker line and none of the lines of the
fix, the lines of the fix are written exactly once, the write just before them
starts with `%%BeginProlog`, and no write up to the end of the fix starts with
`%%Page:`. A write need not be a line of the output, since `printf` may write
a line without its line end. -/
theorem outputLines_fix_once (m : Option (List Char)) (inp : List Char) (hq : HasQuirk m)
    (hm : ∃ p ∈ fileLines inp, StartsWithMarker p)
    (hs : ∀ p ∈ fileLines inp, p ∉ fixLines m) :
    ∃ a b, (postProcess m inp).outputLines = a ++ fixLines m ++ b ∧
      (∀ a' b', (postProcess m inp).outputLines = a' ++ fixLines m ++ b' → a' = a ∧ b' = b) ∧
      (∃ a0 bp, a = a0 ++ [bp] ∧ lit "%%BeginProlog" <+: bp) ∧
      (∀ x ∈ a ++ fixLines m, ¬lit "%%Page:" <+: x) := by
  obtain ⟨pre, l, post, hlines, hpre, hl⟩ := exists_first_marker _ hm
  obtain ⟨hnd, hne, hnm, hlf, hbp, hep⟩ := fix_facts (fixLines m) (fixLines_of_hasQuirk m hq)
  have hpost : fileLines post.flatten = post :=
    fileLines_suffix (pre ++ [l]) post inp (by simpa using hlines)
  have hmem : ∀ p, p ∈ pre ∨ p = l ∨ p ∈ post → p ∈ fileLines inp := by
    intro p hp
    rw [hlines]
    simp only [List.mem_append, List.mem_cons]
    tauto
  -- no printed header line is a line of the fix
  have hA0 : ∀ s ∈ fixLines m, s ∉ pre.map printf_s := by
    intro s hsS hmem'
    obtain ⟨p, hp, e⟩ := List.mem_map.mp hmem'
    have hpin := hmem p (Or.inl hp)
    exact printf_s_ne_fix inp p s hpin (fun e' => hs p hpin (e' ▸ hsS)) (hlf s hsS) e
  have hl' : ∀ s ∈ fixLines m, s ≠ printf_s l := by
    intro s hsS e
    subst e
    exact hnm _ hsS (startsWithMarker_cstr l hl)
  have hpostS : ∀ s ∈ fixLines m, s ∉ post := fun s hsS hp => hs s (hmem s (Or.inr (Or.inr hp))) hsS
  have hpg0 : ∀ x ∈ pre.map printf_s, ¬lit "%%Page:" <+: x := by
    intro x hx hpg
    obtain ⟨p, hp, e⟩ := List.mem_map.mp hx
    subst e
    exact hpre p hp (startsWithMarker_of_cstr p (Or.inr (Or.inr (Or.inr hpg))))
  have hpgS : ∀ x ∈ fixLines m, ¬lit "%%Page:" <+: x :=
    fun x hx hpg => hnm x hx (Or.inr (Or.inr (Or.inr hpg)))
  have hpgB : ∀ x : List Char, lit "%%BeginProlog" <+: x → ¬lit "%%Page:" <+: x :=
    fun x hb hpg => not_beginProlog_of_other x (Or.inr (Or.inr hpg)) hb
  obtain ⟨s0, S', hS⟩ := List.exists_cons_of_ne_nil hne
  have hs0 : s0 ∈ fixLines m := by rw [hS]; simp
  have hs0S' : s0 ∉ S' := by
    rw [hS] at hnd
    exact (List.nodup_cons.mp hnd).1
  rw [postProcess_found m pre l post inp hlines hpre hl]
  simp only [Rewritten.outputLines, hpost]
  by_cases hb : lit "%%BeginProlog" <+: l
  · have hbc : lit "%%BeginProlog" <+: printf_s l := prefix_cstr _ _ (by decide) hb
    refine ⟨pre.map printf_s ++ [printf_s l], post, ?_, ?_, ⟨_, _, rfl, hbc⟩, ?_⟩
    · rw [injected_beginProlog m l hb]; simp
    · intro a' b' h
      refine unique_block _ _ a' b' _ s0 S' hS ?_ ?_ ?_
      · simp only [List.mem_append, List.mem_singleton, not_or]
        exact ⟨hA0 s0 hs0, hl' s0 hs0⟩
      · simp only [List.mem_append, not_or]
        exact ⟨hs0S', hpostS s0 hs0⟩
      · rw [← h, injected_beginProlog m l hb]; simp
    · intro x hx
      simp only [List.mem_append, List.mem_singleton] at hx
      rcases hx with (hx | hx) | hx
      · exact hpg0 x hx
      · exact hx ▸ hpgB _ hbc
      · exact hpgS x hx
  · have hbc : lit "%%BeginProlog" <+: puts "%%BeginProlog" := by decide
    refine ⟨pre.map printf_s ++ [puts "%%BeginProlog"],
      (if lit "%%EndProlog" <+: l then [] else [puts "%%EndProlog"]) ++ [printf_s l] ++ post,
      ?_, ?_, ⟨_, _, rfl, hbc⟩, ?_⟩
    · rw [injected_other m l hb]; simp
    · intro a' b' h
      refine unique_block _ _ a' b' _ s0 S' hS ?_ ?_ ?_
      · simp only [List.mem_append, List.mem_singleton, not_or]
        exact ⟨hA0 s0 hs0, fun e => hbp (e ▸ hs0)⟩
      · simp only [List.mem_append, List.mem_singleton, not_or]
        refine ⟨hs0S', ⟨⟨?_, hl' s0 hs0⟩, hpostS s0 hs0⟩⟩
        split
        · simp
        · simp only [List.mem_singleton]
          exact fun e => hep (e ▸ hs0)
      · rw [← h, injected_other m l hb]; simp
    · intro x hx
      simp only [List.mem_append, List.mem_singleton] at hx
      rcases hx with (hx | hx) | hx
      · exact hpg0 x hx
      · exact hx ▸ hpgB _ hbc
      · exact hpgS x hx

theorem outputLines_fix_once_witness :
    ∃ a b, (postProcess (some (lit "KYOCERA Mita")) (lit "%!PS\n%%Page: 1\n")).outputLines =
        a ++ fixLines (some (lit "KYOCERA Mita")) ++ b ∧
      (∀ a' b', (postProcess (some (lit "KYOCERA Mita")) (lit "%!PS\n%%Page: 1\n")).outputLines =
        a' ++ fixLines (some (lit "KYOCERA Mita")) ++ b' → a' = a ∧ b' = b) ∧
      (∃ a0 bp, a = a0 ++ [bp] ∧ lit "%%BeginProlog" <+: bp) ∧
      (∀ x ∈ a ++ fixLines (some (lit "KYOCERA Mita")), ¬lit "%%Page:" <+: x) :=
  outputLines_fix_once (some (lit "KYOCERA Mita")) (lit "%!PS\n%%Page: 1\n")
    ⟨lit "KYOCERA Mita", rfl, Or.inl (by decide)⟩
    ⟨lit "%%Page: 1\n", by decide, by decide⟩ (by decide)

/-- C3, the code at the failing inputs: the manufacturer is `Kyocera` and the
input has a marker line and none of the lines of the fix. In the first input
the `%%BeginProlog` line holds a NUL byte before its line end; it is written
with `printf("%s", buffer)`, which stops at the NUL, so the line end is lost
and the first line of the fix is written onto the end of the marker line. In
the second input, which has no NUL byte, the `%%BeginProlog` line is the last
line and has no line end, with the same result. Read back line by line, the
output holds the lines of the fix nowhere: its first line is not a line of
the output. -/
theorem postProcess_fix_glued :
    HasQuirk (some (lit "Kyocera")) ∧
    ((∃ p ∈ fileLines (lit "%!PS\n%%BeginProlog\x00\n"), StartsWithMarker p) ∧
      (∀ p ∈ fileLines (lit "%!PS\n%%BeginProlog\x00\n"), p ∉ fixLines (some (lit "Kyocera"))) ∧
      fileLines (postProcess (some (lit "Kyocera")) (lit "%!PS\n%%BeginProlog\x00\n")).output =
        [lit "%!PS\n",
          lit "%%BeginProlog% ===== Workaround insertion by pdftops CUPS filter =====\n",
          lit "% Kyocera\x27s PostScript interpreter crashes on early name binding,\n",
          lit "% so eliminate all \"bind\"s by redifining \"bind\" to no-op\n",
          lit "/bind \x7b\x7d bind def\n",
          lit "% =====\n"] ∧
      ¬fixLines (some (lit "Kyocera")) <:+:
        fileLines (postProcess (some (lit "Kyocera")) (lit "%!PS\n%%BeginProlog\x00\n")).output) ∧
    ((∃ p ∈ fileLines (lit "%!PS\n%%BeginProlog"), StartsWithMarker p) ∧
      (∀ p ∈ fileLines (lit "%!PS\n%%BeginProlog"), p ∉ fixLines (some (lit "Kyocera"))) ∧
      NUL ∉ lit "%!PS\n%%BeginProlog" ∧
      fileLines (postProcess (some (lit "Kyocera")) (lit "%!PS\n%%BeginProlog")).output =
        [lit "%!PS\n",
          lit "%%BeginProlog% ===== Workaround insertion by pdftops CUPS filter =====\n",
          lit "% Kyocera\x27s PostScript interpreter crashes on early name binding,\n",
          lit "% so eliminate all \"bind\"s by redifining \"bind\" to no-op\n",
          lit "/bind \x7b\x7d bind def\n",
          lit "% =====\n"] ∧
      ¬fixLines (some (lit "Kyocera")) <:+:
        fileLines (postProcess (some (lit "Kyocera")) (lit "%!PS\n%%BeginProlog")).output) := by
  have hsub : ∀ ls : List (List Char),
      puts "% ===== Workaround insertion by pdftops CUPS filter =====" ∉ ls →
      ¬fixLines (some (lit "Kyocera")) <:+: ls := by
    intro ls hn hin
    exact hn (hin.subset (by decide))
  refine ⟨⟨lit "Kyocera", rfl, Or.inl (by decide)⟩, ⟨?_, by decide, by decide, ?_⟩,
    ⟨?_, by decide, by decide, by decide, ?_⟩⟩
  · exact ⟨lit "%%BeginProlog\x00\n", by decide, by decide⟩
  · apply hsub
    decide
  · exact ⟨lit "%%BeginProlog", by decide, by decide⟩
  · apply hsub
    decide

/-! ## Running the child on its own output -/

/-- The line that is read does not depend on what follows it, as long as the
next byte stays the same. -/
theorem getLineLoop_stable (room : Nat) (a r r' : List Char)
    (h : getLineLoop room (a ++ r) = (a, r)) (hr : r ≠ []) (hh : r'.head? = r.head?) :
    getLineLoop room (a ++ r') = (a, r') := by
  induction room generalizing a with
  | zero =>
    simp only [getLineLoop, Prod.mk.injEq] at h
    rw [← h.1]; simp [getLineLoop]
  | succ n ih =>
    cases a with
    | nil =>
      cases r with
      | nil => exact absurd rfl hr
      | cons c cs =>
        have := getLineLoop_ne_nil n c cs
        simp only [List.nil_append] at h
        rw [h] at this
        exact absurd rfl this
    | cons c a =>
      simp only [List.cons_append] at h ⊢
      unfold getLineLoop at h ⊢
      by_cases h1 : c = CR
      · rw [if_pos h1] at h ⊢
        cases a with
        | nil =>
          cases r with
          | nil => exact absurd rfl hr
          | cons d ds =>
            cases r' with
            | nil => simp at hh
            | cons d' ds' =>
              simp only [List.head?_cons, Option.some.injEq] at hh
              subst hh
              simp only [List.nil_append] at h ⊢
              by_cases h2 : d' = LF
              · simp [h2] at h
              · simp [h2]
        | cons d a =>
          simp only [List.cons_append] at h ⊢
          by_cases h2 : d = LF
          · simp only [h2, if_true, Prod.mk.injEq, List.cons.injEq, true_and] at h ⊢
            obtain ⟨h3, h4⟩ := h
            have ha : a = [] := by
              have := congrArg List.length h4
              simp at this
              cases a with
              | nil => rfl
              | cons x a => simp at h3
            subst ha
            simp
          · simp [h2] at h
      · by_cases h2 : c = LF
        · rw [if_neg h1, if_pos h2] at h ⊢
          simp only [Prod.mk.injEq, List.cons.injEq, true_and] at h ⊢
          have ha : a = [] := h.1.symm
          subst ha
          simp
        · rw [if_neg h1, if_neg h2] at h ⊢
          simp only [Prod.mk.injEq, List.cons.injEq, true_and] at h ⊢
          have hrec : getLineLoop n (a ++ r) = (a, r) := Prod.ext h.1 h.2
          rw [ih a hrec]
          exact ⟨rfl, rfl⟩

/-- A line starts with the bytes that come before the first line terminator,
as far as they fit. -/
theorem getLineLoop_prefix (q t : List Char) (room : Nat) (hq : ∀ c ∈ q, c ≠ CR ∧ c ≠ LF) :
    q <+: (getLineLoop (q.length + room) (q ++ t)).1 := by
  induction q with
  | nil => simp
  | cons c q ih =>
    have hc := hq c (by simp)
    have e : (c :: q).length + room = (q.length + room) + 1 := by simp; omega
    rw [e, List.cons_append]
    unfold getLineLoop
    rw [if_neg hc.1, if_neg hc.2]
    simp only [List.cons_prefix_cons, true_and]
    exact ih (fun x hx => hq x (List.mem_cons_of_mem _ hx))

theorem stable_read (a r r' : List Char) (h : cupsFileGetLine BUFSIZE (a ++ r) = (a, r))
    (hr : r ≠ []) (hh : r'.head? = r.head?) : cupsFileGetLine BUFSIZE (a ++ r') = (a, r') := by
  have hg : ∀ x, cupsFileGetLine BUFSIZE x = getLineLoop 8190 x := by
    intro x; simp [cupsFileGetLine, BUFSIZE]
  rw [hg] at h ⊢
  exact getLineLoop_stable _ _ _ _ h hr hh

theorem fileLines_eq_nil_iff (inp : List Char) : fileLines inp = [] ↔ inp = [] := by
  cases inp with
  | nil => simp [fileLines_nil]
  | cons c cs => simp [fileLines_cons]

theorem head?_flatten_append (ls : List (List Char)) (l x y : List Char) (hl : l ≠ [])
    (hls : [] ∉ ls) (h : y.head? = l.head?) :
    (ls.flatten ++ y).head? = ((ls ++ l :: [x]).flatten).head? := by
  cases ls with
  | nil =>
    cases l with
    | nil => exact absurd rfl hl
    | cons a l => simpa using h
  | cons p ls =>
    cases p with
    | nil => simp at hls
    | cons a p => simp

/-- Replacing what follows the lines `pre` of a file by bytes that start like
the next line leaves the lines `pre` as they are. -/
theorem fileLines_replace_tail (pre : List (List Char)) (l : List Char)
    (post : List (List Char)) (inp T : List Char) (hlines : fileLines inp = pre ++ l :: post)
    (hT : T.head? = l.head?) : fileLines (pre.flatten ++ T) = pre ++ fileLines T := by
  induction pre generalizing inp with
  | nil => simp
  | cons p pre ih =>
    cases inp with
    | nil => simp [fileLines_nil] at hlines
    | cons c cs =>
      have hnil := not_mem_fileLines_nil (c :: cs)
      have happ := cupsFileGetLine_append (c :: cs)
      rw [fileLines_cons] at hlines hnil
      simp only [List.cons_append, List.cons.injEq] at hlines
      obtain ⟨hp, hrest⟩ := hlines
      simp only [List.mem_cons, not_or] at hnil
      rw [hp] at happ
      have hr : (cupsFileGetLine BUFSIZE (c :: cs)).2 ≠ [] := by
        intro e
        rw [e, fileLines_nil] at hrest
        simp at hrest
      have hflat := flatten_fileLines (cupsFileGetLine BUFSIZE (c :: cs)).2
      rw [hrest] at hflat hnil
      have hl : l ≠ [] := fun e => hnil.2 (by simp [e])
      have hpre : [] ∉ pre := fun hm => hnil.2 (by simp [hm])
      have hhead : (pre.flatten ++ T).head? = (cupsFileGetLine BUFSIZE (c :: cs)).2.head? := by
        rw [← hflat]
        have := head?_flatten_append pre l post.flatten T hl hpre hT
        simpa using this
      have hread : cupsFileGetLine BUFSIZE (p ++ (cupsFileGetLine BUFSIZE (c :: cs)).2) =
          (p, (cupsFileGetLine BUFSIZE (c :: cs)).2) := by
        rw [happ]; exact Prod.ext hp rfl
      have hst := stable_read p _ (pre.flatten ++ T) hread hr hhead
      have hpne : p ≠ [] := fun e => hnil.1 (by rw [hp, e])
      obtain ⟨x, p', rfl⟩ := List.exists_cons_of_ne_nil hpne
      rw [List.flatten_cons, List.append_assoc]
      show fileLines (x :: (p' ++ (pre.flatten ++ T))) = _
      rw [fileLines_cons]
      have hst' : cupsFileGetLine BUFSIZE (x :: (p' ++ (pre.flatten ++ T))) =
          (x :: p', pre.flatten ++ T) := hst
      rw [hst', ih _ hrest]
      rfl

/-- A file that starts with `%%BeginProlog` has a first line that starts with
it. -/
theorem first_line_beginProlog (T : List Char) (h : lit "%%BeginProlog" <+: T) :
    ∃ l' post', fileLines T = l' :: post' ∧ lit "%%BeginProlog" <+: l' := by
  obtain ⟨t, rfl⟩ := h
  have hne : lit "%%BeginProlog" ++ t ≠ [] := by
    intro e
    have := congrArg List.length e
    simp [lit] at this
  obtain ⟨c, cs, e⟩ := List.exists_cons_of_ne_nil hne
  refine ⟨_, _, by rw [e, fileLines_cons], ?_⟩
  rw [← e]
  have hg : cupsFileGetLine BUFSIZE (lit "%%BeginProlog" ++ t) =
      getLineLoop ((lit "%%BeginProlog").length + 8177) (lit "%%BeginProlog" ++ t) := by
    simp [cupsFileGetLine, BUFSIZE, lit]
  rw [hg]
  exact getLineLoop_prefix _ _ _ (by decide)

theorem fixLines_cases (m : Option (List Char)) :
    fixLines m = [] ∨ fixLines m = kyoceraFix ∨ fixLines m = brotherFix := by
  unfold fixLines
  cases m with
  | none => exact Or.inl rfl
  | some s =>
    simp only
    split
    · exact Or.inr (Or.inl rfl)
    · split
      · exact Or.inr (Or.inr rfl)
      · exact Or.inl rfl

theorem nul_not_mem_fix (m : Option (List Char)) : NUL ∉ (fixLines m).flatten := by
  rcases fixLines_cases m with h | h | h <;> rw [h] <;> decide

theorem flatten_fix_eq_nil (m : Option (List Char)) (h : (fixLines m).flatten = []) :
    fixLines m = [] := by
  rcases fixLines_cases m with e | e | e
  · exact e
  · rw [e] at h; exact absurd h (by decide)
  · rw [e] at h; exact absurd h (by decide)

theorem head?_of_startsWithMarker (l : List Char) (h : StartsWithMarker l) :
    l.head? = some (Char.ofNat 37) := by
  rcases h with h | h | h | h <;> obtain ⟨t, rfl⟩ := h <;> rfl

/-- The second run: when the output of a first run is the unchanged header
lines `pre` followed by bytes `T` that start with `%%BeginProlog`, the first
marker line of that output starts with `%%BeginProlog`, and a second run
writes the lines of the fix once more, right after it. -/
theorem second_pass (m : Option (List Char)) (pre : List (List Char)) (l : List Char)
    (post : List (List Char)) (inp T : List Char) (hlines : fileLines inp = pre ++ l :: post)
    (hpre : ∀ p ∈ pre, ¬StartsWithMarker p) (hT : T.head? = l.head?)
    (hb : lit "%%BeginProlog" <+: T) (hnul : NUL ∉ pre.flatten ++ T) :
    ∃ l' post', fileLines (pre.flatten ++ T) = pre ++ l' :: post' ∧
      lit "%%BeginProlog" <+: l' ∧
      (postProcess m (pre.flatten ++ T)).output =
        pre.flatten ++ l' ++ (fixLines m).flatten ++ post'.flatten := by
  have h1 := fileLines_replace_tail pre l post inp T hlines hT
  obtain ⟨l', post', h2, h3⟩ := first_line_beginProlog T hb
  rw [h2] at h1
  have hn : ∀ p ∈ pre ++ [l'], NUL ∉ p := by
    intro p hp
    apply mem_fileLines_nul _ hnul
    rw [h1]
    simp only [List.mem_append, List.mem_singleton, List.mem_cons] at hp ⊢
    tauto
  exact ⟨l', post', h1, h3, output_beginProlog m _ pre l' post' h1 hpre h3 hn⟩

/-- The output of a first run on an input without NUL bytes that has a marker
line: the header lines, then bytes that start with `%%BeginProlog`. -/
theorem first_pass (m : Option (List Char)) (inp : List Char) (hnul : NUL ∉ inp)
    (pre : List (List Char)) (l : List Char) (post : List (List Char))
    (hlines : fileLines inp = pre ++ l :: post)
    (hpre : ∀ p ∈ pre, ¬StartsWithMarker p) (hl : StartsWithMarker l) :
    ∃ T, (postProcess m inp).output = pre.flatten ++ T ∧ T.head? = l.head? ∧
      lit "%%BeginProlog" <+: T ∧ NUL ∉ pre.flatten ++ T := by
  have hflat := flatten_fileLines inp
  rw [hlines] at hflat
  simp only [List.flatten_append, List.flatten_cons] at hflat
  have hn : ∀ p ∈ pre ++ [l], NUL ∉ p := by
    intro p hp
    apply mem_fileLines_nul _ hnul
    rw [hlines]
    simp only [List.mem_append, List.mem_singleton, List.mem_cons] at hp ⊢
    tauto
  have hparts : NUL ∉ pre.flatten ∧ NUL ∉ l ∧ NUL ∉ post.flatten := by
    rw [← hflat] at hnul
    simp only [List.mem_append, not_or] at hnul
    exact ⟨hnul.1, hnul.2.1, hnul.2.2⟩
  have hfix := nul_not_mem_fix m
  have hhead := head?_of_startsWithMarker l hl
  by_cases hb : lit "%%BeginProlog" <+: l
  · refine ⟨l ++ (fixLines m).flatten ++ post.flatten, ?_, ?_, ?_, ?_⟩
    · rw [output_beginProlog m inp pre l post hlines hpre hb hn]; simp
    · obtain ⟨t, rfl⟩ := hb; rfl
    · exact hb.trans (by simp [List.append_assoc])
    · simp only [List.mem_append, not_or]
      exact ⟨hparts.1, ⟨hparts.2.1, hfix⟩, hparts.2.2⟩
  · have ho : lit "%%EndProlog" <+: l ∨ lit "%%BeginSetup" <+: l ∨ lit "%%Page:" <+: l := by
      rcases hl with h | h
      · exact absurd h hb
      · exact h
    refine ⟨puts "%%BeginProlog" ++ (fixLines m).flatten ++
      (if lit "%%EndProlog" <+: l then [] else puts "%%EndProlog") ++ l ++ post.flatten,
      ?_, ?_, ?_, ?_⟩
    · rw [output_otherMarker m inp pre l post hlines hpre ho hn]; simp
    · rw [hhead]; rfl
    · exact ⟨[LF] ++ (fixLines m).flatten ++
        (if lit "%%EndProlog" <+: l then [] else puts "%%EndProlog") ++ l ++ post.flatten,
        by simp [puts]⟩
    · have h1 : NUL ∉ puts "%%BeginProlog" := by decide
      have h2 : NUL ∉ (if lit "%%EndProlog" <+: l then [] else puts "%%EndProlog") := by
        split
        · simp
        · decide
      simp only [List.mem_append, not_or]
      exact ⟨hparts.1, ⟨⟨⟨h1, hfix⟩, h2⟩, hparts.2.1⟩, hparts.2.2⟩

/-- C4 (amended): on an input without NUL bytes that has a marker line, the
first marker line of the output of the child starts with `%%BeginProlog`, and
a second run of the child on that output writes the lines of the fix once
more, right after that line; the second run leaves the output of the first
run unchanged exactly when the input has no marker line or the manufacturer
has no fix. -/
theorem postProcess_twice (m : Option (List Char)) (inp : List Char) (hnul : NUL ∉ inp) :
    ((∃ p ∈ fileLines inp, StartsWithMarker p) →
      ∃ pre l post, fileLines (postProcess m inp).output = pre ++ l :: post ∧
        (∀ p ∈ pre, ¬StartsWithMarker p) ∧ lit "%%BeginProlog" <+: l ∧
        (postProcess m (postProcess m inp).output).output =
          pre.flatten ++ l ++ (fixLines m).flatten ++ post.flatten) ∧
    ((postProcess m (postProcess m inp).output).output = (postProcess m inp).output ↔
      ((∀ p ∈ fileLines inp, ¬StartsWithMarker p) ∨ fixLines m = [])) := by
  have key : (∃ p ∈ fileLines inp, StartsWithMarker p) →
      ∃ pre l post, fileLines (postProcess m inp).output = pre ++ l :: post ∧
        (∀ p ∈ pre, ¬StartsWithMarker p) ∧ lit "%%BeginProlog" <+: l ∧
        (postProcess m (postProcess m inp).output).output =
          pre.flatten ++ l ++ (fixLines m).flatten ++ post.flatten := by
    intro hm
    obtain ⟨pre, l, post, hlines, hpre, hl⟩ := exists_first_marker _ hm
    obtain ⟨T, hy, hT, hb, hn⟩ := first_pass m inp hnul pre l post hlines hpre hl
    rw [hy]
    obtain ⟨l', post', h1, h2, h3⟩ := second_pass m pre l post inp T hlines hpre hT hb hn
    exact ⟨pre, l', post', h1, hpre, h2, h3⟩
  refine ⟨key, ?_⟩
  by_cases hm : ∃ p ∈ fileLines inp, StartsWithMarker p
  · obtain ⟨pre, l, post, h1, _, _, h2⟩ := key hm
    have hy := flatten_fileLines (postProcess m inp).output
    rw [h1] at hy
    simp only [List.flatten_append, List.flatten_cons] at hy
    rw [h2]
    constructor
    · intro h
      right
      apply flatten_fix_eq_nil
      have := congrArg List.length (h.trans hy.symm)
      simp only [List.length_append] at this
      exact List.length_eq_zero.mp (by omega)
    · rintro (h | h)
      · obtain ⟨p, hp, hs⟩ := hm
        exact absurd hs (h p hp)
      · rw [← hy]; simp [h]
  · have hno : ∀ p ∈ fileLines inp, ¬StartsWithMarker p := fun p hp hs => hm ⟨p, hp, hs⟩
    have h1 := (output_noMarker m inp hno hnul).2.2.1
    rw [h1, h1]
    exact ⟨fun _ => Or.inl hno, fun _ => rfl⟩

theorem postProcess_twice_witness :
    ((∃ p ∈ fileLines (lit "%!PS\n%%Page: 1\n"), StartsWithMarker p) →
      ∃ pre l post,
        fileLines (postProcess (some (lit "Brother")) (lit "%!PS\n%%Page: 1\n")).output =
          pre ++ l :: post ∧
        (∀ p ∈ pre, ¬StartsWithMarker p) ∧ lit "%%BeginProlog" <+: l ∧
        (postProcess (some (lit "Brother"))
          (postProcess (some (lit "Brother")) (lit "%!PS\n%%Page: 1\n")).output).output =
          pre.flatten ++ l ++ (fixLines (some (lit "Brother"))).flatten ++ post.flatten) ∧
    ((postProcess (some (lit "Brother"))
        (postProcess (some (lit "Brother")) (lit "%!PS\n%%Page: 1\n")).output).output =
        (postProcess (some (lit "Brother")) (lit "%!PS\n%%Page: 1\n")).output ↔
      ((∀ p ∈ fileLines (lit "%!PS\n%%Page: 1\n"), ¬StartsWithMarker p) ∨
        fixLines (some (lit "Brother")) = [])) :=
  postProcess_twice (some (lit "Brother")) (lit "%!PS\n%%Page: 1\n") (by decide)

/-- C4 as stated fails: run on its own output, the child finds the
`%%BeginProlog` line again and writes the lines of the fix a second time. -/
theorem postProcess_twice_counterexample :
    (postProcess (some (lit "Kyocera"))
        (postProcess (some (lit "Kyocera")) (lit "%%BeginProlog\n")).output).output ≠
      (postProcess (some (lit "Kyocera")) (lit "%%BeginProlog\n")).output ∧
    (postProcess (some (lit "Kyocera")) (lit "%%BeginProlog\n")).outputLines =
      lit "%%BeginProlog\n" :: kyoceraFix ∧
    (postProcess (some (lit "Kyocera"))
        (postProcess (some (lit "Kyocera")) (lit "%%BeginProlog\n")).output).outputLines =
      lit "%%BeginProlog\n" :: (kyoceraFix ++ kyoceraFix) := by
  refine ⟨by decide, by decide, by decide⟩

/-! ## The lines of the output -/

/-- A line that ends with a line feed is read the same whatever follows it. -/
theorem getLineLoop_stable_LF (room : Nat) (a r r' : List Char)
    (h : getLineLoop room (a ++ r) = (a, r)) (ha : a.getLast? = some LF) :
    getLineLoop room (a ++ r') = (a, r') := by
  induction room generalizing a with
  | zero =>
    simp only [getLineLoop, Prod.mk.injEq] at h
    rw [← h.1] at ha
    simp at ha
  | succ n ih =>
    cases a with
    | nil => simp at ha
    | cons c a =>
      simp only [List.cons_append] at h ⊢
      unfold getLineLoop at h ⊢
      by_cases h1 : c = CR
      · rw [if_pos h1] at h ⊢
        cases a with
        | nil =>
          subst h1
          simp only [List.getLast?_singleton, Option.some.injEq] at ha
          exact absurd ha.symm LF_ne_CR
        | cons d a =>
          simp only [List.cons_append] at h ⊢
          by_cases h2 : d = LF
          · simp only [h2, if_true, Prod.mk.injEq, List.cons.injEq, true_and] at h ⊢
            obtain ⟨h3, _⟩ := h
            have ha' : a = [] := by
              cases a with
              | nil => rfl
              | cons x a => simp at h3
            subst ha'
            simp
          · simp [h2] at h
      · by_cases h2 : c = LF
        · rw [if_neg h1, if_pos h2] at h ⊢
          simp only [Prod.mk.injEq, List.cons.injEq, true_and] at h ⊢
          have ha' : a = [] := h.1.symm
          subst ha'
          simp
        · rw [if_neg h1, if_neg h2] at h ⊢
          simp only [Prod.mk.injEq, List.cons.injEq, true_and] at h ⊢
          have hrec : getLineLoop n (a ++ r) = (a, r) := Prod.ext h.1 h.2
          have hne : a ≠ [] := by
            intro e
            subst e
            simp only [List.getLast?_singleton, Option.some.injEq] at ha
            exact h2 ha
          have ha' : a.getLast? = some LF := by
            cases a with
            | nil => exact absurd rfl hne
            | cons x a => rw [← ha, List.getLast?_cons_cons]
          rw [ih a hrec ha']
          exact ⟨rfl, rfl⟩

theorem stable_read_LF (a r r' : List Char) (h : cupsFileGetLine BUFSIZE (a ++ r) = (a, r))
    (ha : a.getLast? = some LF) : cupsFileGetLine BUFSIZE (a ++ r') = (a, r') := by
  have hg : ∀ x, cupsFileGetLine BUFSIZE x = getLineLoop 8190 x := by
    intro x; simp [cupsFileGetLine, BUFSIZE]
  rw [hg] at h ⊢
  exact getLineLoop_stable_LF _ _ _ _ h ha

/-- The lines of a text that starts with a line that is read whole and ends
with a line feed. -/
theorem fileLines_line_append (w r X : List Char) (h : cupsFileGetLine BUFSIZE (w ++ r) = (w, r))
    (hw : w.getLast? = some LF) : fileLines (w ++ X) = w :: fileLines X := by
  cases w with
  | nil => simp at hw
  | cons c w =>
    have := stable_read_LF (c :: w) r X h hw
    rw [List.cons_append, fileLines_cons, ← List.cons_append, this]

/-- The lines of a text that starts with lines that are each read whole and
end with a line feed. -/
theorem fileLines_lines_append (W : List (List Char)) (X : List Char)
    (hW : ∀ w ∈ W, cupsFileGetLine BUFSIZE w = (w, []) ∧ w.getLast? = some LF) :
    fileLines (W.flatten ++ X) = W ++ fileLines X := by
  induction W with
  | nil => simp
  | cons w W ih =>
    obtain ⟨h1, h2⟩ := hW w (by simp)
    rw [List.flatten_cons, List.append_assoc,
      fileLines_line_append w [] (W.flatten ++ X) (by simpa using h1) h2,
      ih (fun x hx => hW x (List.mem_cons_of_mem _ hx))]
    simp

theorem fix_read (m : Option (List Char)) :
    ∀ w ∈ puts "%%BeginProlog" :: puts "%%EndProlog" :: fixLines m,
      cupsFileGetLine BUFSIZE w = (w, []) ∧ w.getLast? = some LF := by
  rcases fixLines_cases m with e | e | e <;> rw [e] <;> decide

/-- When no line up to the marker line holds a NUL byte and a marker line that
starts with `%%BeginProlog` ends with a line feed, the output read back line
by line is the writes of the child followed by the lines of the part it
copies. -/
theorem fileLines_output (m : Option (List Char)) (inp : List Char)
    (pre : List (List Char)) (l : List Char) (post : List (List Char))
    (hlines : fileLines inp = pre ++ l :: post)
    (hpre : ∀ p ∈ pre, ¬StartsWithMarker p) (hl : StartsWithMarker l)
    (hnul : ∀ p ∈ pre ++ [l], NUL ∉ p)
    (hend : lit "%%BeginProlog" <+: l → l.getLast? = some LF) :
    fileLines (postProcess m inp).output = (postProcess m inp).outputLines := by
  have hpost : fileLines post.flatten = post :=
    fileLines_suffix (pre ++ [l]) post inp (by simpa using hlines)
  have hlpost : fileLines (l ++ post.flatten) = l :: post := by
    have := fileLines_suffix pre (l :: post) inp hlines
    simpa using this
  have hprint : pre.map printf_s = pre :=
    map_printf_s_eq pre (fun p hp => hnul p (by simp [hp]))
  have hlp : printf_s l = l := cstr_eq_self (hnul l (by simp))
  have hhead := head?_of_startsWithMarker l hl
  have hfix := fix_read m
  rw [postProcess_found m pre l post inp hlines hpre hl]
  simp only [Rewritten.output, Rewritten.outputLines, hpost, hprint, List.flatten_append,
    List.append_assoc]
  by_cases hb : lit "%%BeginProlog" <+: l
  · rw [injected_beginProlog m l hb, hlp]
    have hT : ((l :: fixLines m).flatten ++ post.flatten).head? = l.head? := by
      cases l with
      | nil => simp at hhead
      | cons c l => simp
    have h1 := fileLines_replace_tail pre l post inp
      ((l :: fixLines m).flatten ++ post.flatten) hlines hT
    rw [h1]
    congr 1
    have hread : cupsFileGetLine BUFSIZE (l ++ post.flatten) = (l, post.flatten) := by
      cases l with
      | nil => simp at hhead
      | cons c l =>
        have e := fileLines_cons c (l ++ post.flatten)
        rw [← List.cons_append, hlpost] at e
        simp only [List.cons.injEq] at e
        have happ := cupsFileGetLine_append ((c :: l) ++ post.flatten)
        rw [← e.1] at happ
        exact Prod.ext e.1.symm (List.append_cancel_left happ)
    rw [List.flatten_cons, List.append_assoc,
      fileLines_line_append l post.flatten _ hread (hend hb),
      fileLines_lines_append (fixLines m) post.flatten
        (fun w hw => hfix w (by simp [hw])), hpost]
    simp
  · rw [injected_other m l hb, hlp]
    have hW : ∀ w ∈ puts "%%BeginProlog" :: (fixLines m ++
        (if lit "%%EndProlog" <+: l then [] else [puts "%%EndProlog"])),
        cupsFileGetLine BUFSIZE w = (w, []) ∧ w.getLast? = some LF := by
      intro w hw
      apply hfix w
      simp only [List.mem_cons, List.mem_append] at hw ⊢
      rcases hw with e | e | e
      · exact Or.inl e
      · exact Or.inr (Or.inr e)
      · split at e
        · simp at e
        · simp only [List.mem_singleton] at e
          exact Or.inr (Or.inl e)
    have hsplit : puts "%%BeginProlog" :: (fixLines m ++
        ((if lit "%%EndProlog" <+: l then [] else [puts "%%EndProlog"]) ++ [l])) =
        (puts "%%BeginProlog" :: (fixLines m ++
          (if lit "%%EndProlog" <+: l then [] else [puts "%%EndProlog"]))) ++ [l] := by
      simp
    rw [hsplit]
    have hT : (((puts "%%BeginProlog" :: (fixLines m ++
        (if lit "%%EndProlog" <+: l then [] else [puts "%%EndProlog"]))) ++ [l]).flatten ++
        post.flatten).head? = l.head? := by
      rw [hhead]
      rfl
    have h1 := fileLines_replace_tail pre l post inp _ hlines hT
    rw [h1]
    congr 1
    rw [List.flatten_append, List.append_assoc, fileLines_lines_append _ _ hW]
    simp only [List.flatten_cons, List.flatten_nil, List.append_nil, List.append_assoc]
    rw [hlpost]
    simp

/-- The lines of the output, read back from its bytes: for a manufacturer with
a registered workaround and an input that has a marker line and none of the
lines of the fix, when no line up to the marker line holds a NUL byte and a
marker line that starts with `%%BeginProlog` ends with a line feed, the lines
of the output hold the lines of the fix exactly once (there is one and only
one way to cut the lines around them), the line just before them starts with
`%%BeginProlog`, and no line up to the end of the fix starts with `%%Page:`. -/
theorem fileLines_fix_once (m : Option (List Char)) (inp : List Char)
    (pre : List (List Char)) (l : List Char) (post : List (List Char)) (hq : HasQuirk m)
    (hlines : fileLines inp = pre ++ l :: post)
    (hpre : ∀ p ∈ pre, ¬StartsWithMarker p) (hl : StartsWithMarker l)
    (hnul : ∀ p ∈ pre ++ [l], NUL ∉ p)
    (hend : lit "%%BeginProlog" <+: l → l.getLast? = some LF)
    (hs : ∀ p ∈ fileLines inp, p ∉ fixLines m) :
    ∃ a b, fileLines (postProcess m inp).output = a ++ fixLines m ++ b ∧
      (∀ a' b', fileLines (postProcess m inp).output = a' ++ fixLines m ++ b' →
        a' = a ∧ b' = b) ∧
      (∃ a0 bp, a = a0 ++ [bp] ∧ lit "%%BeginProlog" <+: bp) ∧
      (∀ x ∈ a ++ fixLines m, ¬lit "%%Page:" <+: x) := by
  rw [fileLines_output m inp pre l post hlines hpre hl hnul hend]
  exact outputLines_fix_once m inp hq ⟨l, by rw [hlines]; simp, hl⟩ hs

/-! ## Facts about `remove_options` -/

theorem strcasestr_bound (s o : List Char) (i : Nat) (h : strcasestr s o = some i) :
    i + o.length ≤ s.length := by
  induction s generalizing i with
  | nil =>
    unfold strcasestr at h
    split at h
    · rename_i ho
      simp only [Option.some.injEq] at h
      subst h; subst ho; simp
    · simp at h
  | cons c cs ih =>
    unfold strcasestr at h
    split at h
    · rename_i hp
      simp only [Option.some.injEq] at h
      subst h
      have := ( List.isPrefixOf_iff_prefix.mp hp).length_le
      simpa using this
    · cases hr : strcasestr cs o with
      | none => rw [hr] at h; simp at h
      | some j =>
        rw [hr] at h
        simp only [Option.map_some', Option.some.injEq] at h
        have := ih j hr
        simp only [List.length_cons]
        omega

theorem stripAt_length (s o : List Char) (i : Nat) (h : strcasestr s o = some i) :
    (stripAt s o i).length + o.length ≤ s.length := by
  have hb := strcasestr_bound s o i h
  have h1 : ((List.drop (i + o.length) s).dropWhile (fun c => !isspace c)).dropWhile isspace
      <:+ s :=
    ((List.dropWhile_suffix _).trans (List.dropWhile_suffix _)).trans (List.drop_suffix _ _)
  have h2 : (((List.drop (i + o.length) s).dropWhile (fun c => !isspace c)).dropWhile
      isspace).length ≤ s.length - (i + o.length) := by
    have hsuf : ((List.drop (i + o.length) s).dropWhile (fun c => !isspace c)).dropWhile
        isspace <:+ List.drop (i + o.length) s :=
      (List.dropWhile_suffix _).trans (List.dropWhile_suffix _)
    have := hsuf.length_le
    simpa using this
  unfold stripAt
  simp only [List.length_append, List.length_take]
  split <;> omega

/-- An invariant of the loop body is an invariant of the loop, and the loop
ends when the option name is not empty. -/
theorem stripOption_ind (P : List Char → Prop) (o : List Char) (ho : o ≠ [])
    (hP : ∀ s i, P s → strcasestr s o = some i → P (stripAt s o i)) :
    ∀ (fuel : Nat) (s : List Char), s.length < fuel → P s →
      ∃ r, stripOption o fuel s = some r ∧ P r ∧ r.length ≤ s.length := by
  intro fuel
  induction fuel with
  | zero => intro s h; omega
  | succ n ih =>
    intro s hlen hs
    unfold stripOption
    cases hf : strcasestr s o with
    | none => exact ⟨s, rfl, hs, Nat.le_refl _⟩
    | some i =>
      simp only
      split
      · have hl := stripAt_length s o i hf
        have hpos : 0 < o.length := List.length_pos.mpr ho
        obtain ⟨r, h1, h2, h3⟩ := ih (stripAt s o i) (by omega) (hP s i hs hf)
        exact ⟨r, h1, h2, by omega⟩
      · exact ⟨s, rfl, hs, Nat.le_refl _⟩

theorem remove_options_ind (P : List Char → Prop) (L : List (List Char)) (hL : ∀ o ∈ L, o ≠ [])
    (hP : ∀ o ∈ L, ∀ s i, P s → strcasestr s o = some i → P (stripAt s o i)) :
    ∀ s : List Char, P s → ∃ r, remove_options s L = some r ∧ P r ∧ r.length ≤ s.length := by
  induction L with
  | nil => intro s hs; exact ⟨s, rfl, hs, Nat.le_refl _⟩
  | cons o L ih =>
    intro s hs
    obtain ⟨r, h1, h2, h3⟩ := stripOption_ind P o (hL o (by simp)) (hP o (by simp))
      (s.length + 1) s (by omega) hs
    obtain ⟨r', h4, h5, h6⟩ := ih (fun o' ho' => hL o' (List.mem_cons_of_mem _ ho'))
      (fun o' ho' => hP o' (List.mem_cons_of_mem _ ho')) r h2
    refine ⟨r', ?_, h5, by omega⟩
    unfold remove_options
    rw [h1]
    exact h4

theorem noLeadingSpace_dropWhile (l : List Char) : NoLeadingSpace (l.dropWhile isspace) := by
  induction l with
  | nil => simp [NoLeadingSpace]
  | cons c l ih =>
    by_cases hc : isspace c = true
    · rw [List.dropWhile_cons_of_pos hc]; exact ih
    · rw [List.dropWhile_cons_of_neg hc]
      intro x hx
      simp only [List.head?_cons, Option.some.injEq] at hx
      subst hx
      simpa using hc

theorem noDoubleSpace_iff_chain (s : List Char) :
    NoDoubleSpace s ↔ s.Chain' (fun a b => ¬(isspace a = true ∧ isspace b = true)) := by
  unfold NoDoubleSpace
  induction s with
  | nil => simp [hasDoubleSpace]
  | cons a s ih =>
    cases s with
    | nil => simp [hasDoubleSpace]
    | cons b t =>
      rw [List.chain'_cons, ← ih]
      simp only [hasDoubleSpace, Bool.or_eq_false_iff, Bool.and_eq_false_imp, not_and,
        Bool.not_eq_true]

/-- The loop body keeps a string free of leading and of repeated white space. -/
theorem stripAt_spaces (s o : List Char) (i : Nat)
    (h : NoLeadingSpace s ∧ NoDoubleSpace s) :
    NoLeadingSpace (stripAt s o i) ∧ NoDoubleSpace (stripAt s o i) := by
  obtain ⟨h1, h2⟩ := h
  unfold stripAt
  simp only
  generalize (if (i ≥ 2 && strncasecmp_eq (List.drop (i - 2) s) (lit "no") 2) = true
    then i - 2 else i) = k
  generalize hR : ((List.drop (i + o.length) s).dropWhile (fun c => !isspace c)) = R0
  have hsuf : R0.dropWhile isspace <:+ s := by
    rw [← hR]
    exact ((List.dropWhile_suffix _).trans (List.dropWhile_suffix _)).trans
      (List.drop_suffix _ _)
  have hR1 := noLeadingSpace_dropWhile R0
  generalize R0.dropWhile isspace = R at hsuf hR1
  constructor
  · cases s with
    | nil => simpa using hR1
    | cons c cs =>
      cases k with
      | zero => simpa using hR1
      | succ k =>
        intro x hx
        exact h1 x (by simpa using hx)
  · rw [noDoubleSpace_iff_chain] at h2 ⊢
    refine List.Chain'.append ( List.Chain'.prefix h2 ( List.take_prefix _ _)) (h2.suffix hsuf) ?_
    intro x _ y hy
    have := hR1 y hy
    simp [this]

/-! ## The properties of `remove_options` -/

/-- C6, the code at the failing input: `number-up` is looked for first, its
first occurrence lies inside `number-up-layout` and is followed by `-`, so the
loop for `number-up` ends at once; the token `number-up=2` is still there
after the call, although `number-up` is a listed name. -/
theorem remove_options_keeps_number_up :
    lit "number-up" ∈ pstops_exclude_page_management ∧
    remove_options (lit "number-up-layout=btlr number-up=2") pstops_exclude_page_management =
      some (lit "number-up=2") := by
  refine ⟨by decide, by decide⟩

/-- C7: for the options `fit-to-page landscape Collate gamma=1.2` and
`pdftopdfapplied` set, the two calls of `remove_options` take out all four
options and leave the empty string, and the string passed to `pstops` holds
` Collate` if and only if `deviceCollate` is set; the 9 bytes of ` Collate`
fit in the block that `realloc` returns, for a pointer of any size but 0. -/
theorem pstopsOptions_scenario (sizeof_ptr pdftopdfapplied deviceCollate : Nat)
    (hp : 0 < sizeof_ptr) (h : pdftopdfapplied ≠ 0) :
    remove_options (lit "fit-to-page landscape Collate gamma=1.2") pstops_exclude_general =
      some (lit "Collate gamma=1.2") ∧
    remove_options (lit "Collate gamma=1.2") pstops_exclude_page_management = some [] ∧
    ∃ r, pstopsOptions sizeof_ptr (lit "fit-to-page landscape Collate gamma=1.2")
        pdftopdfapplied deviceCollate = some r ∧
      r = (if deviceCollate ≠ 0 then lit " Collate" else []) ∧
      (lit " Collate" <:+: r ↔ deviceCollate ≠ 0) := by
  have h1 : remove_options (lit "fit-to-page landscape Collate gamma=1.2")
      pstops_exclude_general = some (lit "Collate gamma=1.2") := by decide
  have h2 : remove_options (lit "Collate gamma=1.2") pstops_exclude_page_management =
      some [] := by decide
  have hfits : collateEnd [] ≤ reallocSize sizeof_ptr := by
    have : collateEnd [] = 9 := by decide
    rw [this]
    unfold reallocSize
    omega
  refine ⟨h1, h2, ?_⟩
  unfold pstopsOptions
  rw [h1]
  simp only [h, ne_eq, not_false_eq_true, if_true, h2, true_and]
  by_cases hc : deviceCollate = 0
  · refine ⟨[], by simp [hc], by simp [hc], ?_⟩
    simp only [hc, not_true_eq_false, iff_false]
    decide
  · refine ⟨lit " Collate", by simp [hc, hfits], by simp [hc], ?_⟩
    simp only [hc, not_false_eq_true, iff_true]
    exact List.infix_refl _

theorem pstopsOptions_scenario_witness :
    remove_options (lit "fit-to-page landscape Collate gamma=1.2") pstops_exclude_general =
      some (lit "Collate gamma=1.2") ∧
    remove_options (lit "Collate gamma=1.2") pstops_exclude_page_management = some [] ∧
    ∃ r, pstopsOptions 8 (lit "fit-to-page landscape Collate gamma=1.2") 1 1 = some r ∧
      r = (if 1 ≠ 0 then lit " Collate" else []) ∧
      (lit " Collate" <:+: r ↔ 1 ≠ 0) :=
  pstopsOptions_scenario 8 1 1 (by decide) (by decide)

theorem exclude_general_ne_nil : ∀ o ∈ pstops_exclude_general, o ≠ [] := by decide

theorem exclude_page_management_ne_nil : ∀ o ∈ pstops_exclude_page_management, o ≠ [] := by
  decide

/-- C8 (amended): for an options string made of tokens separated by single
spaces and each of the two exclusion lists, `remove_options` returns, and its
result has no leading white space and no two white space bytes in a row. -/
theorem remove_options_spaces (s : List Char) (hs : SingleSpaced s) (L : List (List Char))
    (hL : L = pstops_exclude_general ∨ L = pstops_exclude_page_management) :
    ∃ r, remove_options s L = some r ∧ NoLeadingSpace r ∧ NoDoubleSpace r := by
  have hne : ∀ o ∈ L, o ≠ [] := by
    rcases hL with rfl | rfl
    · exact exclude_general_ne_nil
    · exact exclude_page_management_ne_nil
  obtain ⟨r, h1, h2, _⟩ := remove_options_ind (fun t => NoLeadingSpace t ∧ NoDoubleSpace t) L hne
    (fun o _ t i ht _ => stripAt_spaces t o i ht) s ⟨hs.1, hs.2.2.1⟩
  exact ⟨r, h1, h2.1, h2.2⟩

theorem remove_options_spaces_witness :
    ∃ r, remove_options (lit "a landscape b") pstops_exclude_general = some r ∧
      NoLeadingSpace r ∧ NoDoubleSpace r :=
  remove_options_spaces (lit "a landscape b") (by decide) pstops_exclude_general (Or.inl rfl)

/-- C8 as stated fails: when the last token is removed, the space before it
stays and the result ends with white space. -/
theorem remove_options_spaces_counterexample :
    SingleSpaced (lit "a landscape") ∧
    remove_options (lit "a landscape") pstops_exclude_general = some (lit "a ") ∧
    ¬NoTrailingSpace (lit "a ") := by
  refine ⟨by decide, by decide, by decide⟩

/-- C9: when, for every listed name, the first occurrence of the name in the
options string (letter case ignored) is missing or is followed by a byte that
is not the end of the string, white space or `=`, `remove_options` returns the
string unchanged. -/
theorem remove_options_prefix_guard (s : List Char) (L : List (List Char))
    (h : ∀ o ∈ L, FirstOccurrenceContinues s o) : remove_options s L = some s := by
  induction L with
  | nil => rfl
  | cons o L ih =>
    have ho := h o (by simp)
    have hstrip : stripOption o (s.length + 1) s = some s := by
      unfold stripOption
      cases hf : strcasestr s o with
      | none => rfl
      | some i =>
        obtain ⟨c, hg, h1, h2⟩ := ho i hf
        have : optionEnds s o i = false := by
          unfold optionEnds
          rw [hg]
          simp [h1, h2]
        simp only [this]
        rfl
    unfold remove_options
    rw [hstrip]
    exact ih (fun o' ho' => h o' (List.mem_cons_of_mem _ ho'))

theorem remove_options_prefix_guard_witness :
    remove_options (lit "landscapes=1 fit-to-pagex") pstops_exclude_general =
      some (lit "landscapes=1 fit-to-pagex") :=
  remove_options_prefix_guard (lit "landscapes=1 fit-to-pagex") pstops_exclude_general
    (by decide)

/-! ## The exit status of `main` -/

/-- The last element of a list with one more element in front, with a default. -/
theorem getLast?_cons_getD (c e0 : Nat) (rest : List Nat) :
    ((c :: rest).getLast?).getD e0 = (rest.getLast?).getD c := by
  cases rest with
  | nil => rfl
  | cons r rs =>
    obtain ⟨x, hx⟩ : ∃ x, (r :: rs).getLast? = some x :=
      ⟨_, List.getLast?_eq_getLast _ (by simp)⟩
    rw [List.getLast?_cons_cons, hx]
    rfl

theorem onReaped_exit_status (st : WaitState) (pid : Nat) (o : ChildEnd) (hv : o.Valid) :
    (onReaped st pid o).exit_status = (classification o).getD st.exit_status := by
  cases o with
  | exited code =>
    simp only [ChildEnd.Valid] at hv
    by_cases hc : code = 0
    · simp [onReaped, ChildEnd.status, classification, hc]
    · have h1 : code * 256 ≠ 0 := by omega
      have h2 : code * 256 % 128 = 0 := by omega
      have h3 : code * 256 / 256 % 256 = code := by omega
      simp only [onReaped, ChildEnd.status, classification, WIFEXITED, WTERMSIG, WEXITSTATUS]
      rw [if_pos h1, h2, h3, if_pos hc]
      rfl
  | signaled sig core =>
    simp only [ChildEnd.Valid] at hv
    have h1 : sig + (if core = true then 128 else 0) ≠ 0 := by split <;> omega
    have h2 : (sig + (if core = true then 128 else 0)) % 128 = sig := by split <;> omega
    have h3 : (sig == 0) = false := by
      rw [beq_eq_false_iff_ne]; omega
    simp only [onReaped, ChildEnd.status, classification, WIFEXITED, WTERMSIG]
    rw [if_pos h1, h2, h3]
    by_cases hs : sig = SIGTERM
    · simp [hs]
    · simp [hs]

/-- What the wait loop leaves behind when it ends: the children it reaped are
the first children that `wait` returned, and `exit_status` is the last
classification among them, or the value it had before. -/
theorem waitLoop_exit_status (ch : Children) (evs : List Event) :
    ∀ (st st' : WaitState), (∀ o ∈ reapedEnds evs, o.Valid) → waitLoop ch evs st = some st' →
      ∃ os : List (Nat × ChildEnd), st'.reaped = st.reaped ++ os ∧
        os.map Prod.snd <+: reapedEnds evs ∧
        st'.exit_status =
          (((os.map Prod.snd).filterMap classification).getLast?).getD st.exit_status := by
  induction evs with
  | nil =>
    intro st st' _ h
    unfold waitLoop at h
    split at h
    · simp at h
    · simp only [Option.some.injEq] at h
      subst h
      exact ⟨[], by simp, by simp, by simp⟩
  | cons ev evs ih =>
    intro st st' hv h
    unfold waitLoop at h
    split at h
    · cases ev with
      | sigterm =>
        simp only at h
        obtain ⟨os, h1, h2, h3⟩ := ih (cancel_job st) st' (by simpa [reapedEnds] using hv) h
        exact ⟨os, h1, by simpa [reapedEnds] using h2, h3⟩
      | waitEintr =>
        simp only at h
        obtain ⟨os, h1, h2, h3⟩ := ih (onEintr ch st) st' (by simpa [reapedEnds] using hv) h
        have e1 : (onEintr ch st).reaped = st.reaped := by unfold onEintr; split <;> rfl
        have e2 : (onEintr ch st).exit_status = st.exit_status := by
          unfold onEintr; split <;> rfl
        rw [e1] at h1
        rw [e2] at h3
        exact ⟨os, h1, by simpa [reapedEnds] using h2, h3⟩
      | waitError =>
        simp only [Option.some.injEq] at h
        subst h
        exact ⟨[], by simp, by simp, by simp⟩
      | waitReaped pid how =>
        simp only at h
        have hv' : ∀ o ∈ reapedEnds evs, o.Valid := fun o ho => hv o (by simp [reapedEnds, ho])
        have hhow : how.Valid := hv how (by simp [reapedEnds])
        obtain ⟨os, h1, h2, h3⟩ := ih (onReaped st pid how) st' hv' h
        refine ⟨(pid, how) :: os, ?_, ?_, ?_⟩
        · rw [h1]; simp [onReaped]
        · simpa [reapedEnds] using h2
        · rw [h3, onReaped_exit_status st pid how hhow]
          simp only [List.map_cons, List.filterMap_cons]
          cases hc : classification how with
          | none => simp
          | some c => simp only [Option.getD_some]; rw [getLast?_cons_getD]
    · simp only [Option.some.injEq] at h
      subst h
      exact ⟨[], by simp, by simp, by simp⟩

/-- The wait loop ends when `wait` fails or has returned every child. -/
theorem waitLoop_returns (ch : Children) (evs : List Event) :
    ∀ st : WaitState, (Event.waitError ∈ evs ∨ st.wait_children ≤ (reapedEnds evs).length) →
      ∃ st', waitLoop ch evs st = some st' := by
  induction evs with
  | nil =>
    intro st h
    simp only [List.not_mem_nil, reapedEnds, List.length_nil, Nat.le_zero_eq, false_or] at h
    exact ⟨st, by simp [waitLoop, h]⟩
  | cons ev evs ih =>
    intro st h
    unfold waitLoop
    split
    · cases ev with
      | sigterm =>
        simp only
        apply ih
        simpa [reapedEnds, cancel_job] using h
      | waitEintr =>
        simp only
        apply ih
        have e : (onEintr ch st).wait_children = st.wait_children := by
          unfold onEintr; split <;> rfl
        rw [e]
        simpa [reapedEnds] using h
      | waitError => exact ⟨st, rfl⟩
      | waitReaped pid how =>
        simp only
        apply ih
        rcases h with h | h
        · left; simpa using h
        · right
          simp only [reapedEnds, List.length_cons] at h
          simp only [onReaped]
          omega
    · exact ⟨st, rfl⟩

/-- The children that the wait loop reaps are those that `wait` returns before
it fails, as many as there are children left to wait for. -/
theorem waitLoop_reaped (ch : Children) (evs : List Event) :
    ∀ (st st' : WaitState), waitLoop ch evs st = some st' →
      st'.reaped.map Prod.snd = st.reaped.map Prod.snd ++
        (reapedEnds (evs.takeWhile (fun e => e != Event.waitError))).take st.wait_children := by
  induction evs with
  | nil =>
    intro st st' h
    unfold waitLoop at h
    split at h
    · simp at h
    · simp only [Option.some.injEq] at h
      subst h
      simp [reapedEnds]
  | cons ev evs ih =>
    intro st st' h
    unfold waitLoop at h
    by_cases hw : st.wait_children > 0
    · rw [if_pos hw] at h
      cases ev with
      | sigterm =>
        simp only at h
        have := ih (cancel_job st) st' h
        rw [this, List.takeWhile_cons_of_pos (by decide)]
        simp [reapedEnds, cancel_job]
      | waitEintr =>
        simp only at h
        have := ih (onEintr ch st) st' h
        have e1 : (onEintr ch st).reaped = st.reaped := by unfold onEintr; split <;> rfl
        have e2 : (onEintr ch st).wait_children = st.wait_children := by
          unfold onEintr; split <;> rfl
        rw [this, List.takeWhile_cons_of_pos (by decide), e1, e2]
        simp [reapedEnds]
      | waitError =>
        simp only [Option.some.injEq] at h
        subst h
        rw [List.takeWhile_cons_of_neg (by decide)]
        simp [reapedEnds]
      | waitReaped pid how =>
        simp only at h
        have := ih (onReaped st pid how) st' h
        rw [this, List.takeWhile_cons_of_pos (by simp)]
        obtain ⟨n, hn⟩ : ∃ n, st.wait_children = n + 1 := ⟨st.wait_children - 1, by omega⟩
        simp [reapedEnds, onReaped, hn]
    · rw [if_neg hw] at h
      simp only [Option.some.injEq] at h
      subst h
      have h0 : st.wait_children = 0 := by omega
      simp [h0]

/-- C10: the events of a run fix the children that `main` reaps, those that
`wait` returns before it fails, at most as many as there are stages. When
`wait` fails or has returned that many children, `main` leaves the wait loop,
it has reaped exactly these children, and its exit status is the last non-zero
classification among them, in the order in which they were reaped: the exit
code of a child that exited with a code other than 0, the signal number of a
child killed by a signal other than `SIGTERM`; it is 0 when there is none, so
clean exits and terminations by `SIGTERM` leave it as it is. -/
theorem main_exit_status (ch : Children) (job_canceled : Nat) (evs : List Event)
    (hvalid : ∀ o ∈ reapedEnds evs, o.Valid)
    (hdone : Event.waitError ∈ evs ∨ 2 + ch.need_post_proc ≤ (reapedEnds evs).length) :
    ∃ st, waitLoop ch evs (waitStart ch job_canceled) = some st ∧
      st.reaped.map Prod.snd =
        (reapedEnds (evs.takeWhile (fun e => e != Event.waitError))).take
          (2 + ch.need_post_proc) ∧
      st.exit_status = lastClassification
        ((reapedEnds (evs.takeWhile (fun e => e != Event.waitError))).take
          (2 + ch.need_post_proc)) ∧
      ((∀ o ∈ (reapedEnds (evs.takeWhile (fun e => e != Event.waitError))).take
          (2 + ch.need_post_proc), classification o = none) → st.exit_status = 0) := by
  obtain ⟨st, hst⟩ := waitLoop_returns ch evs (waitStart ch job_canceled) hdone
  obtain ⟨os, h1, _, h3⟩ := waitLoop_exit_status ch evs _ st hvalid hst
  have hr : st.reaped = os := by simpa [waitStart] using h1
  have hR := waitLoop_reaped ch evs _ st hst
  simp only [waitStart, List.map_nil, List.nil_append] at hR
  have he : st.exit_status = lastClassification (st.reaped.map Prod.snd) := by
    rw [h3, hr]; rfl
  rw [hR] at he
  refine ⟨st, hst, hR, he, ?_⟩
  intro hall
  rw [he]
  unfold lastClassification
  rw [List.filterMap_eq_nil_iff.mpr hall]
  rfl

theorem main_exit_status_witness :
    ∃ st, waitLoop ⟨101, 102, 103, 1⟩
        [.waitReaped 101 (.exited 3), .sigterm, .waitEintr, .waitReaped 102 (.signaled 15 false),
          .waitReaped 103 (.signaled 11 true)] (waitStart ⟨101, 102, 103, 1⟩ 0) = some st ∧
      st.reaped.map Prod.snd =
        (reapedEnds (([.waitReaped 101 (.exited 3), .sigterm, .waitEintr,
          .waitReaped 102 (.signaled 15 false),
          .waitReaped 103 (.signaled 11 true)] : List Event).takeWhile
            (fun e => e != Event.waitError))).take (2 + (⟨101, 102, 103, 1⟩ : Children).need_post_proc) ∧
      st.exit_status = lastClassification
        ((reapedEnds (([.waitReaped 101 (.exited 3), .sigterm, .waitEintr,
          .waitReaped 102 (.signaled 15 false),
          .waitReaped 103 (.signaled 11 true)] : List Event).takeWhile
            (fun e => e != Event.waitError))).take
              (2 + (⟨101, 102, 103, 1⟩ : Children).need_post_proc)) ∧
      ((∀ o ∈ (reapedEnds (([.waitReaped 101 (.exited 3), .sigterm, .waitEintr,
          .waitReaped 102 (.signaled 15 false),
          .waitReaped 103 (.signaled 11 true)] : List Event).takeWhile
            (fun e => e != Event.waitError))).take
              (2 + (⟨101, 102, 103, 1⟩ : Children).need_post_proc),
          classification o = none) → st.exit_status = 0) :=
  main_exit_status ⟨101, 102, 103, 1⟩ 0
    [.waitReaped 101 (.exited 3), .sigterm, .waitEintr, .waitReaped 102 (.signaled 15 false),
      .waitReaped 103 (.signaled 11 true)]
    (by simp [reapedEnds, ChildEnd.Valid]) (Or.inr (by decide))

/-! ## Cancellation and the failure paths of `main` -/

theorem onEintr_canceled (ch : Children) (st : WaitState) (hc : st.job_canceled ≠ 0) :
    onEintr ch st =
      { st with killed := st.killed ++ stagePids ch, job_canceled := 0 } := by
  unfold onEintr stagePids
  rw [if_pos hc]
  simp [List.append_assoc]

/-- C11 (amended): when the wait loop finds `job_canceled` set after an
interrupted `wait`, it sends `SIGTERM` once to each stage of the pipeline
(`pdf_pid`, `post_proc_pid` when there is a post-processing, `pstops_pid`),
whether that stage has been reaped or not, clears the flag and goes on
waiting with everything else unchanged. -/
theorem waitLoop_cancel (ch : Children) (st : WaitState) (evs : List Event)
    (hw : st.wait_children > 0) (hc : st.job_canceled ≠ 0) :
    waitLoop ch (Event.waitEintr :: evs) st = waitLoop ch evs (onEintr ch st) ∧
    (onEintr ch st).killed = st.killed ++ stagePids ch ∧
    (onEintr ch st).job_canceled = 0 ∧
    (onEintr ch st).wait_children = st.wait_children ∧
    (onEintr ch st).reaped = st.reaped ∧
    (onEintr ch st).exit_status = st.exit_status ∧
    ((stagePids ch).Nodup → ∀ pid ∈ stagePids ch, (stagePids ch).count pid = 1) := by
  refine ⟨?_, ?_, ?_, ?_, ?_, ?_, ?_⟩
  · simp [waitLoop, hw]
  · rw [onEintr_canceled ch st hc]
  · rw [onEintr_canceled ch st hc]
  · rw [onEintr_canceled ch st hc]
  · rw [onEintr_canceled ch st hc]
  · rw [onEintr_canceled ch st hc]
  · intro hnd pid hpid
    exact List.count_eq_one_of_mem hnd hpid

theorem waitLoop_cancel_witness :
    waitLoop ⟨101, 102, 103, 1⟩ (Event.waitEintr :: [Event.waitError]) ⟨1, 3, 0, [], []⟩ =
      waitLoop ⟨101, 102, 103, 1⟩ [Event.waitError]
        (onEintr ⟨101, 102, 103, 1⟩ ⟨1, 3, 0, [], []⟩) ∧
    (onEintr ⟨101, 102, 103, 1⟩ ⟨1, 3, 0, [], []⟩).killed =
      ([] : List Nat) ++ stagePids ⟨101, 102, 103, 1⟩ ∧
    (onEintr ⟨101, 102, 103, 1⟩ ⟨1, 3, 0, [], []⟩).job_canceled = 0 ∧
    (onEintr ⟨101, 102, 103, 1⟩ ⟨1, 3, 0, [], []⟩).wait_children = 3 ∧
    (onEintr ⟨101, 102, 103, 1⟩ ⟨1, 3, 0, [], []⟩).reaped = [] ∧
    (onEintr ⟨101, 102, 103, 1⟩ ⟨1, 3, 0, [], []⟩).exit_status = 0 ∧
    ((stagePids ⟨101, 102, 103, 1⟩).Nodup →
      ∀ pid ∈ stagePids ⟨101, 102, 103, 1⟩, (stagePids ⟨101, 102, 103, 1⟩).count pid = 1) :=
  waitLoop_cancel ⟨101, 102, 103, 1⟩ ⟨1, 3, 0, [], []⟩ [Event.waitError] (by decide) (by decide)

/-- C11 as stated fails: the child 101 has been reaped when the `SIGTERM`
arrives, and `kill` is called for its process id all the same. -/
theorem waitLoop_cancel_counterexample :
    waitLoop ⟨101, 102, 103, 1⟩
        [Event.waitReaped 101 (ChildEnd.exited 0), Event.sigterm, Event.waitEintr,
          Event.waitError]
        (waitStart ⟨101, 102, 103, 1⟩ 0) =
      some ⟨0, 2, 0, [101, 102, 103], [(101, ChildEnd.exited 0)]⟩ := by
  decide

theorem need_post_proc_of_hasQuirk (m : Option (List Char)) (h : HasQuirk m) :
    need_post_proc false m = 1 := by
  obtain ⟨s, rfl, hs⟩ := h
  have : (strncasecmp_eq s (lit "Kyocera") 7 || strncasecmp_eq s (lit "Brother") 7) = true := by
    rcases hs with h | h
    · simp [(kyocera_test s).mpr h]
    · simp [(brother_test s).mpr h]
  simp [need_post_proc, this]

theorem need_post_proc_of_not_hasQuirk (b : Bool) (m : Option (List Char)) (h : ¬HasQuirk m) :
    need_post_proc b m = 0 := by
  unfold need_post_proc
  cases b with
  | true => rfl
  | false =>
    cases m with
    | none => rfl
    | some s =>
      have h1 : strncasecmp_eq s (lit "Kyocera") 7 = false := by
        rw [← Bool.not_eq_true, kyocera_test]
        exact fun hk => h ⟨s, rfl, Or.inl hk⟩
      have h2 : strncasecmp_eq s (lit "Brother") 7 = false := by
        rw [← Bool.not_eq_true, brother_test]
        exact fun hk => h ⟨s, rfl, Or.inr hk⟩
      simp [h1, h2]

/-- The wait loop keeps the sum of the children left and the children reaped,
and leaves no child behind when `wait` does not fail and returns enough
children. -/
theorem waitLoop_count (ch : Children) (evs : List Event) :
    ∀ (st st' : WaitState), waitLoop ch evs st = some st' →
      st'.wait_children + st'.reaped.length = st.wait_children + st.reaped.length ∧
      (Event.waitError ∉ evs → st'.wait_children = 0) ∧
      st.killed <+: st'.killed := by
  induction evs with
  | nil =>
    intro st st' h
    unfold waitLoop at h
    split at h
    · simp at h
    · rename_i hw
      simp only [Option.some.injEq] at h
      subst h
      exact ⟨rfl, fun _ => by omega, List.prefix_refl _⟩
  | cons ev evs ih =>
    intro st st' h
    unfold waitLoop at h
    split at h
    · rename_i hw
      cases ev with
      | sigterm =>
        obtain ⟨h1, h2, h3⟩ := ih _ _ h
        exact ⟨h1, fun hne => h2 (fun hm => hne (List.mem_cons_of_mem _ hm)), h3⟩
      | waitEintr =>
        obtain ⟨h1, h2, h3⟩ := ih _ _ h
        have e1 : (onEintr ch st).wait_children = st.wait_children := by
          unfold onEintr; split <;> rfl
        have e2 : (onEintr ch st).reaped = st.reaped := by unfold onEintr; split <;> rfl
        have e3 : st.killed <+: (onEintr ch st).killed := by
          unfold onEintr
          split
          · simp only [List.append_assoc]
            exact List.prefix_append _ _
          · exact List.prefix_refl _
        rw [e1, e2] at h1
        exact ⟨h1, fun hne => h2 (fun hm => hne (List.mem_cons_of_mem _ hm)), e3.trans h3⟩
      | waitError =>
        simp only [Option.some.injEq] at h
        subst h
        exact ⟨rfl, fun hne => absurd (List.mem_cons_self _ _) hne, List.prefix_refl _⟩
      | waitReaped pid how =>
        obtain ⟨h1, h2, h3⟩ := ih _ _ h
        refine ⟨?_, fun hne => h2 (fun hm => hne (List.mem_cons_of_mem _ hm)), h3⟩
        rw [h1]
        simp only [onReaped, List.length_append, List.length_singleton]
        omega
    · rename_i hw
      simp only [Option.some.injEq] at h
      subst h
      exact ⟨rfl, fun _ => by omega, List.prefix_refl _⟩

/-- The run of `main` when both pipes and all forks succeed. -/
theorem mainRun_spawned (b : Bool) (m : Option (List Char)) (tempfile : List Char) (sys : Sys)
    (hp1 : sys.pstops_pipe = 0) (hp2 : need_post_proc b m ≠ 0 → sys.post_proc_pipe = 0)
    (hf1 : 0 < sys.pdf_fork) (hf2 : need_post_proc b m ≠ 0 → 0 < sys.post_proc_fork)
    (hf3 : 0 < sys.pstops_fork) :
    mainRun b m tempfile sys =
      match waitLoop
        { pdf_pid := sys.pdf_fork.toNat,
          post_proc_pid := if need_post_proc b m ≠ 0 then sys.post_proc_fork.toNat else 0,
          pstops_pid := sys.pstops_fork.toNat, need_post_proc := need_post_proc b m }
        sys.events
        (waitStart
          { pdf_pid := sys.pdf_fork.toNat,
            post_proc_pid := if need_post_proc b m ≠ 0 then sys.post_proc_fork.toNat else 0,
            pstops_pid := sys.pstops_fork.toNat, need_post_proc := need_post_proc b m }
          sys.job_canceled) with
      | none => Outcome.blocked
      | some st =>
        Outcome.returned (cleanup tempfile
          ([sys.pdf_fork.toNat] ++
            (if need_post_proc b m ≠ 0 then
              [if need_post_proc b m ≠ 0 then sys.post_proc_fork.toNat else 0] else []) ++
            [sys.pstops_fork.toNat]) (some st) st.exit_status) := by
  unfold mainRun
  simp only
  have h1 : ¬sys.pdf_fork = 0 := by omega
  have h2 : ¬sys.pdf_fork < 0 := by omega
  have h3 : ¬sys.pstops_fork = 0 := by omega
  have h4 : ¬sys.pstops_fork < 0 := by omega
  rw [if_neg (by simp [hp1]), if_neg (fun h => h.2 (hp2 h.1)), if_neg h1, if_neg h2,
    if_neg (fun h => by have := hf2 h.1; omega), if_neg (fun h => by have := hf2 h.1; omega),
    if_neg h3, if_neg h4]

/-- C12 (amended): when the post-processing stage exists, a `SIGTERM` arrives
while all three stages are outstanding, and each stage is then reaped as
terminated by `SIGTERM`, `main` sends `SIGTERM` to the three stages, reaps all
three (no child is left), removes the temporary file when there is one, and
returns the exit status 0, which is the exit status of a run in which every
stage exited cleanly. -/
theorem mainRun_cancelled (m : Option (List Char)) (tempfile : List Char) (sys : Sys)
    (rest : List Event) (hq : HasQuirk m) (hp1 : sys.pstops_pipe = 0)
    (hp2 : sys.post_proc_pipe = 0) (hf1 : 0 < sys.pdf_fork) (hf2 : 0 < sys.post_proc_fork)
    (hf3 : 0 < sys.pstops_fork) (hev : sys.events = Event.sigterm :: Event.waitEintr :: rest)
    (hne : Event.waitError ∉ rest) (hlen : (reapedEnds rest).length = 3)
    (hterm : ∀ o ∈ reapedEnds rest, ∃ core, o = ChildEnd.signaled SIGTERM core) :
    ∃ r st, mainRun false m tempfile sys = Outcome.returned r ∧ r.waited = some st ∧
      [sys.pdf_fork.toNat, sys.post_proc_fork.toNat, sys.pstops_fork.toNat] <+: st.killed ∧
      st.wait_children = 0 ∧ r.reaped.length = 3 ∧
      r.reaped.map Prod.snd = reapedEnds rest ∧
      r.unlinked = (if cstr tempfile ≠ [] then some (cstr tempfile) else none) ∧
      r.exit_status = 0 := by
  have hn : need_post_proc false m = 1 := need_post_proc_of_hasQuirk m hq
  rw [mainRun_spawned false m tempfile sys hp1 (fun _ => hp2) hf1 (fun _ => hf2) hf3, hev]
  simp only [hn, ne_eq, one_ne_zero, not_false_eq_true, if_true]
  generalize hch : Children.mk sys.pdf_fork.toNat sys.post_proc_fork.toNat
    sys.pstops_fork.toNat 1 = ch
  have hstep : waitLoop ch (Event.sigterm :: Event.waitEintr :: rest)
      (waitStart ch sys.job_canceled) =
      waitLoop ch rest (WaitState.mk 0 3 0 (stagePids ch) []) := by
    subst hch
    simp [waitLoop, waitStart, cancel_job, onEintr, stagePids]
  rw [hstep]
  have hvalid : ∀ o ∈ reapedEnds rest, o.Valid := by
    intro o ho
    obtain ⟨core, rfl⟩ := hterm o ho
    simp [ChildEnd.Valid, SIGTERM]
  obtain ⟨st, hst⟩ := waitLoop_returns ch rest (WaitState.mk 0 3 0 (stagePids ch) [])
    (Or.inr (by simp [hlen]))
  obtain ⟨h1, h2, h3⟩ := waitLoop_count ch rest _ st hst
  obtain ⟨os, h4, h5, h6⟩ := waitLoop_exit_status ch rest _ st hvalid hst
  simp only [List.length_nil, Nat.add_zero, List.nil_append] at h1 h4
  have hw := h2 hne
  have hrl : st.reaped.length = 3 := by omega
  have hos : os.map Prod.snd = reapedEnds rest := by
    apply h5.eq_of_length
    rw [List.length_map, ← h4, hrl, hlen]
  have hex : st.exit_status = 0 := by
    rw [h6, hos]
    have : (reapedEnds rest).filterMap classification = [] := by
      rw [List.filterMap_eq_nil_iff]
      intro o ho
      obtain ⟨core, rfl⟩ := hterm o ho
      simp [classification]
    rw [this]
    rfl
  rw [hst]
  refine ⟨_, st, rfl, rfl, ?_, hw, ?_, ?_, rfl, hex⟩
  · have : stagePids ch = [sys.pdf_fork.toNat, sys.post_proc_fork.toNat,
        sys.pstops_fork.toNat] := by
      subst hch; simp [stagePids]
    rw [← this]
    exact h3
  · simp [MainResult.reaped, cleanup, hrl]
  · simp only [MainResult.reaped, cleanup]
    rw [h4, hos]

theorem mainRun_cancelled_witness :
    ∃ r st, mainRun false (some (lit "Kyocera")) (lit "/tmp/job")
        ⟨0, 0, 101, 102, 103, 0,
          [Event.sigterm, Event.waitEintr, Event.waitReaped 101 (ChildEnd.signaled 15 false),
            Event.waitReaped 103 (ChildEnd.signaled 15 false),
            Event.waitReaped 102 (ChildEnd.signaled 15 false)]⟩ = Outcome.returned r ∧
      r.waited = some st ∧
      [(101 : Int).toNat, (102 : Int).toNat, (103 : Int).toNat] <+: st.killed ∧
      st.wait_children = 0 ∧ r.reaped.length = 3 ∧
      r.reaped.map Prod.snd = reapedEnds
        [Event.waitReaped 101 (ChildEnd.signaled 15 false),
          Event.waitReaped 103 (ChildEnd.signaled 15 false),
          Event.waitReaped 102 (ChildEnd.signaled 15 false)] ∧
      r.unlinked = (if cstr (lit "/tmp/job") ≠ [] then some (cstr (lit "/tmp/job")) else none) ∧
      r.exit_status = 0 :=
  mainRun_cancelled (some (lit "Kyocera")) (lit "/tmp/job")
    ⟨0, 0, 101, 102, 103, 0,
      [Event.sigterm, Event.waitEintr, Event.waitReaped 101 (ChildEnd.signaled 15 false),
        Event.waitReaped 103 (ChildEnd.signaled 15 false),
        Event.waitReaped 102 (ChildEnd.signaled 15 false)]⟩
    [Event.waitReaped 101 (ChildEnd.signaled 15 false),
      Event.waitReaped 103 (ChildEnd.signaled 15 false),
      Event.waitReaped 102 (ChildEnd.signaled 15 false)]
    ⟨lit "Kyocera", rfl, Or.inl (by decide)⟩ rfl rfl (by decide) (by decide) (by decide) rfl
    (by decide) (by decide) (by
      intro o ho
      simp only [reapedEnds, List.mem_cons, List.mem_singleton, List.not_mem_nil, or_false,
        or_self] at ho
      exact ⟨false, ho⟩)

/-- C12 as stated fails: the run that is cancelled and whose three stages are
terminated by `SIGTERM` returns the exit status 0, as does the run in which
the three stages exit with code 0. -/
theorem mainRun_cancelled_counterexample :
    mainRun false (some (lit "Kyocera")) (lit "/tmp/job")
        ⟨0, 0, 101, 102, 103, 0,
          [Event.sigterm, Event.waitEintr, Event.waitReaped 101 (ChildEnd.signaled 15 false),
            Event.waitReaped 103 (ChildEnd.signaled 15 false),
            Event.waitReaped 102 (ChildEnd.signaled 15 false)]⟩ =
      Outcome.returned ⟨[101, 102, 103],
        some ⟨0, 0, 0, [101, 102, 103],
          [(101, ChildEnd.signaled 15 false), (103, ChildEnd.signaled 15 false),
            (102, ChildEnd.signaled 15 false)]⟩,
        some (lit "/tmp/job"), 0⟩ ∧
    mainRun false (some (lit "Kyocera")) (lit "/tmp/job")
        ⟨0, 0, 101, 102, 103, 0,
          [Event.waitReaped 101 (ChildEnd.exited 0), Event.waitReaped 102 (ChildEnd.exited 0),
            Event.waitReaped 103 (ChildEnd.exited 0)]⟩ =
      Outcome.returned ⟨[101, 102, 103],
        some ⟨0, 0, 0, [],
          [(101, ChildEnd.exited 0), (102, ChildEnd.exited 0), (103, ChildEnd.exited 0)]⟩,
        some (lit "/tmp/job"), 0⟩ := by
  refine ⟨by decide, by decide⟩

/-- A run of `main` that comes back from the wait loop had both pipes and all
its forks succeed. -/
theorem mainRun_waited (b : Bool) (m : Option (List Char)) (tempfile : List Char) (sys : Sys)
    (r : MainResult) (st : WaitState) (hr : mainRun b m tempfile sys = Outcome.returned r)
    (hw : r.waited = some st) :
    sys.pstops_pipe = 0 ∧ (need_post_proc b m ≠ 0 → sys.post_proc_pipe = 0) ∧
      0 < sys.pdf_fork ∧ (need_post_proc b m ≠ 0 → 0 < sys.post_proc_fork) ∧
      0 < sys.pstops_fork := by
  have hnone : ∀ l, Outcome.returned (cleanup tempfile l none 1) = Outcome.returned r → False := by
    intro l h
    simp only [Outcome.returned.injEq] at h
    subst h
    simp [cleanup] at hw
  unfold mainRun at hr
  simp only at hr
  by_cases c1 : sys.pstops_pipe ≠ 0
  · rw [if_pos c1] at hr; exact absurd hr (hnone _)
  rw [if_neg c1] at hr
  by_cases c2 : need_post_proc b m ≠ 0 ∧ sys.post_proc_pipe ≠ 0
  · rw [if_pos c2] at hr; exact absurd hr (hnone _)
  rw [if_neg c2] at hr
  by_cases c3 : sys.pdf_fork = 0
  · rw [if_pos c3] at hr; exact absurd hr (by simp)
  rw [if_neg c3] at hr
  by_cases c4 : sys.pdf_fork < 0
  · rw [if_pos c4] at hr; exact absurd hr (hnone _)
  rw [if_neg c4] at hr
  by_cases c5 : need_post_proc b m ≠ 0 ∧ sys.post_proc_fork = 0
  · rw [if_pos c5] at hr; exact absurd hr (by simp)
  rw [if_neg c5] at hr
  by_cases c6 : need_post_proc b m ≠ 0 ∧ sys.post_proc_fork < 0
  · rw [if_pos c6] at hr; exact absurd hr (hnone _)
  rw [if_neg c6] at hr
  by_cases c7 : sys.pstops_fork = 0
  · rw [if_pos c7] at hr; exact absurd hr (by simp)
  rw [if_neg c7] at hr
  by_cases c8 : sys.pstops_fork < 0
  · rw [if_pos c8] at hr; exact absurd hr (hnone _)
  refine ⟨by simpa using c1, fun h => ?_, by omega, fun h => ?_, by omega⟩
  · by_contra h2; exact c2 ⟨h, h2⟩
  · have h5 : ¬sys.post_proc_fork = 0 := fun e => c5 ⟨h, e⟩
    have h6 : ¬sys.post_proc_fork < 0 := fun e => c6 ⟨h, e⟩
    omega

/-- Without post-processing, no run of `main` is the post-processing child. -/
theorem mainRun_ne_post_proc (b : Bool) (m : Option (List Char)) (tempfile : List Char)
    (sys : Sys) (hn : need_post_proc b m = 0) :
    mainRun b m tempfile sys ≠ Outcome.child Stage.post_proc := by
  unfold mainRun
  simp only
  have c2 : ¬(need_post_proc b m ≠ 0 ∧ sys.post_proc_pipe ≠ 0) := fun h => h.1 hn
  have c5 : ¬(need_post_proc b m ≠ 0 ∧ sys.post_proc_fork = 0) := fun h => h.1 hn
  have c6 : ¬(need_post_proc b m ≠ 0 ∧ sys.post_proc_fork < 0) := fun h => h.1 hn
  by_cases c1 : sys.pstops_pipe ≠ 0
  · rw [if_pos c1]; simp
  rw [if_neg c1, if_neg c2]
  by_cases c3 : sys.pdf_fork = 0
  · rw [if_pos c3]; simp
  rw [if_neg c3]
  by_cases c4 : sys.pdf_fork < 0
  · rw [if_pos c4]; simp
  rw [if_neg c4, if_neg c5, if_neg c6]
  by_cases c7 : sys.pstops_fork = 0
  · rw [if_pos c7]; simp
  rw [if_neg c7]
  by_cases c8 : sys.pstops_fork < 0
  · rw [if_pos c8]; simp
  rw [if_neg c8]
  split <;> simp

/-- A run of `main` that comes back from the wait loop has started every stage
and has waited for as many children as it started. -/
theorem mainRun_started (b : Bool) (m : Option (List Char)) (tempfile : List Char) (sys : Sys)
    (r : MainResult) (st : WaitState) (hr : mainRun b m tempfile sys = Outcome.returned r)
    (hw : r.waited = some st) :
    r.started = [sys.pdf_fork.toNat] ++
        (if need_post_proc b m ≠ 0 then [sys.post_proc_fork.toNat] else []) ++
        [sys.pstops_fork.toNat] ∧
      st.wait_children + st.reaped.length = 2 + need_post_proc b m := by
  obtain ⟨hp1, hp2, hf1, hf2, hf3⟩ := mainRun_waited b m tempfile sys r st hr hw
  rw [mainRun_spawned b m tempfile sys hp1 hp2 hf1 hf2 hf3] at hr
  split at hr
  · simp at hr
  · rename_i st' hst'
    simp only [Outcome.returned.injEq] at hr
    subst hr
    simp only [cleanup, Option.some.injEq] at hw
    subst hw
    obtain ⟨h1, _, _⟩ := waitLoop_count _ _ _ _ hst'
    refine ⟨?_, ?_⟩
    · simp only [cleanup]
      split <;> rfl
    · rw [h1]; simp [waitStart]

/-- C14: for a manufacturer that is absent or begins neither with `Kyocera`
nor with `Brother`, `need_post_proc` is 0, the wait loop starts with two
children to wait for, and a run that reaches the wait loop has started two
children, `pdftops` or `gs` and `pstops`, and no post-processing; for a
manufacturer that begins with `Kyocera` or `Brother`, in the Ghostscript
build, `need_post_proc` is 1, the wait loop starts with three children, and
three children have been started. -/
theorem stage_count (b : Bool) (m : Option (List Char)) (tempfile : List Char) (sys : Sys)
    (ch : Children) (hch : ch.need_post_proc = need_post_proc b m) :
    (¬HasQuirk m →
      need_post_proc b m = 0 ∧ (waitStart ch sys.job_canceled).wait_children = 2 ∧
      mainRun b m tempfile sys ≠ Outcome.child Stage.post_proc ∧
      ∀ r st, mainRun b m tempfile sys = Outcome.returned r → r.waited = some st →
        r.started = [sys.pdf_fork.toNat, sys.pstops_fork.toNat] ∧
        st.wait_children + st.reaped.length = 2) ∧
    (HasQuirk m → b = false →
      need_post_proc b m = 1 ∧ (waitStart ch sys.job_canceled).wait_children = 3 ∧
      ∀ r st, mainRun b m tempfile sys = Outcome.returned r → r.waited = some st →
        r.started = [sys.pdf_fork.toNat, sys.post_proc_fork.toNat, sys.pstops_fork.toNat] ∧
        st.wait_children + st.reaped.length = 3) := by
  constructor
  · intro hq
    have hn := need_post_proc_of_not_hasQuirk b m hq
    refine ⟨hn, by simp [waitStart, hch, hn], mainRun_ne_post_proc b m tempfile sys hn, ?_⟩
    intro r st hr hw
    have := mainRun_started b m tempfile sys r st hr hw
    simpa [hn] using this
  · intro hq hb
    subst hb
    have hn := need_post_proc_of_hasQuirk m hq
    refine ⟨hn, by simp [waitStart, hch, hn], ?_⟩
    intro r st hr hw
    have := mainRun_started false m tempfile sys r st hr hw
    simpa [hn] using this

theorem stage_count_witness :
    (¬HasQuirk (some (lit "HP")) →
      need_post_proc false (some (lit "HP")) = 0 ∧
      (waitStart ⟨101, 0, 103, 0⟩ 0).wait_children = 2 ∧
      mainRun false (some (lit "HP")) [] ⟨0, 0, 101, 0, 103, 0, []⟩ ≠
        Outcome.child Stage.post_proc ∧
      ∀ r st, mainRun false (some (lit "HP")) [] ⟨0, 0, 101, 0, 103, 0, []⟩ =
          Outcome.returned r → r.waited = some st →
        r.started = [(101 : Int).toNat, (103 : Int).toNat] ∧
        st.wait_children + st.reaped.length = 2) ∧
    (HasQuirk (some (lit "HP")) → false = false →
      need_post_proc false (some (lit "HP")) = 1 ∧
      (waitStart ⟨101, 0, 103, 0⟩ 0).wait_children = 3 ∧
      ∀ r st, mainRun false (some (lit "HP")) [] ⟨0, 0, 101, 0, 103, 0, []⟩ =
          Outcome.returned r → r.waited = some st →
        r.started = [(101 : Int).toNat, (0 : Int).toNat, (103 : Int).toNat] ∧
        st.wait_children + st.reaped.length = 3) :=
  stage_count false (some (lit "HP")) [] ⟨0, 0, 101, 0, 103, 0, []⟩ ⟨101, 0, 103, 0⟩
    (by decide)

/-! ## The orientation -/

theorem int_xor_zero (d : Int) : Int.xor d 0 = d := by
  cases d with
  | ofNat n => show Int.xor (Int.ofNat n) (Int.ofNat 0) = _; simp [Int.xor]
  | negSucc n => show Int.xor (Int.negSucc n) (Int.ofNat 0) = _; simp [Int.xor]

theorem int_land_zero (d : Int) : Int.land d 0 = 0 := by
  cases d with
  | ofNat n => show Int.land (Int.ofNat n) (Int.ofNat 0) = _; simp [Int.land]
  | negSucc n => show Int.land (Int.negSucc n) (Int.ofNat 0) = _; simp [Int.land, Nat.ldiff]

/-- The operation `^ 1` switches the lowest bit. -/
theorem int_xor_one (o : Int) : Int.xor o 1 = if o % 2 = 0 then o + 1 else o - 1 := by
  have h := Int.bit_decomp o
  have h1 : (1 : Int) = Int.bit true 0 := by simp [Int.bit_val]
  have hx : Int.xor o 1 = Int.bit (xor (Int.bodd o) true) (Int.div2 o) := by
    conv_lhs => rw [← h, h1]
    rw [Int.lxor_bit, int_xor_zero]
  rw [hx]
  have hv := Int.bit_val (Int.bodd o) (Int.div2 o)
  rw [h] at hv
  rw [Int.bit_val]
  cases hb : Int.bodd o <;> simp [hb] at hv ⊢ <;> split <;> omega

/-- The operation `& 1` gives the lowest bit, also of a negative number. -/
theorem int_land_one (o : Int) : Int.land o 1 = o % 2 := by
  have h := Int.bit_decomp o
  have h1 : (1 : Int) = Int.bit true 0 := by simp [Int.bit_val]
  have hx : Int.land o 1 = Int.bit (Int.bodd o && true) 0 := by
    conv_lhs => rw [← h, h1]
    rw [Int.land_bit, int_land_zero]
  rw [hx]
  have hv := Int.bit_val (Int.bodd o) (Int.div2 o)
  rw [h] at hv
  rw [Int.bit_val]
  cases hb : Int.bodd o <;> simp [hb] at hv ⊢ <;> omega

theorem pdfDimensions_odd {α : Type} (size : ppd_size_t α) (o : Int) :
    pdfDimensions size o =
      if o % 2 = 1 then (size.length, size.width) else (size.width, size.length) := by
  unfold pdfDimensions
  rw [int_land_one]
  have : o % 2 = 0 ∨ o % 2 = 1 := by omega
  rcases this with h | h <;> simp [h]

theorem orientation_of_code (options : List (List Char × List Char)) (val : List Char)
    (hl : cupsGetOption (lit "landscape") options = none)
    (hv : cupsGetOption (lit "orientation-requested") options = some val) :
    orientation options = rotationOfCode (atoi val) := by
  unfold orientation
  rw [hl, hv]

/-- C15: with a PPD file, `fit` set, a known page size and no `landscape`
option, the values 3, 4, 5 and 6 of `orientation-requested` give the
orientations 0, 1, 3 and 2, and the arguments for the conversion carry length
and width in each other's place if and only if the orientation is odd. -/
theorem orientation_mapping {α : Type} (have_pdftops origpagesizes : Bool)
    (fmt : α → List Char) (options : List (List Char × List Char)) (size : ppd_size_t α)
    (val : List Char) (hfit : fit options = true)
    (hl : cupsGetOption (lit "landscape") options = none)
    (hv : cupsGetOption (lit "orientation-requested") options = some val) :
    (atoi (lit "3") = 3 ∧ atoi (lit "4") = 4 ∧ atoi (lit "5") = 5 ∧ atoi (lit "6") = 6) ∧
    (atoi val = 3 → orientation options = 0) ∧ (atoi val = 4 → orientation options = 1) ∧
    (atoi val = 5 → orientation options = 3) ∧ (atoi val = 6 → orientation options = 2) ∧
    sizeArgs have_pdftops origpagesizes fmt options true (some size) =
      (if orientation options % 2 = 1 then
        (if have_pdftops then
          [lit "-paperw", fmt size.length, lit "-paperh", fmt size.width, lit "-expand"]
        else [lit "-dDEVICEWIDTHPOINTS=" ++ fmt size.length,
          lit "-dDEVICEHEIGHTPOINTS=" ++ fmt size.width])
      else
        (if have_pdftops then
          [lit "-paperw", fmt size.width, lit "-paperh", fmt size.length, lit "-expand"]
        else [lit "-dDEVICEWIDTHPOINTS=" ++ fmt size.width,
          lit "-dDEVICEHEIGHTPOINTS=" ++ fmt size.length])) := by
  have ho := orientation_of_code options val hl hv
  refine ⟨⟨by decide, by decide, by decide, by decide⟩, ?_, ?_, ?_, ?_, ?_⟩
  · intro h; rw [ho, h]; decide
  · intro h; rw [ho, h]; decide
  · intro h; rw [ho, h]; decide
  · intro h; rw [ho, h]; decide
  · unfold sizeArgs
    rw [if_pos rfl, hfit]
    simp only
    rw [pdfDimensions_odd]
    by_cases hodd : orientation options % 2 = 1 <;> by_cases hp : have_pdftops = true <;>
      simp [hodd, hp]

theorem orientation_mapping_witness :
    (atoi (lit "3") = 3 ∧ atoi (lit "4") = 4 ∧ atoi (lit "5") = 5 ∧ atoi (lit "6") = 6) ∧
    (atoi (lit "5") = 3 →
      orientation [(lit "fit-to-page", lit "true"), (lit "orientation-requested", lit "5")] = 0) ∧
    (atoi (lit "5") = 4 →
      orientation [(lit "fit-to-page", lit "true"), (lit "orientation-requested", lit "5")] = 1) ∧
    (atoi (lit "5") = 5 →
      orientation [(lit "fit-to-page", lit "true"), (lit "orientation-requested", lit "5")] = 3) ∧
    (atoi (lit "5") = 6 →
      orientation [(lit "fit-to-page", lit "true"), (lit "orientation-requested", lit "5")] = 2) ∧
    sizeArgs false false (fun n : Nat => List.replicate n (Char.ofNat 49))
        [(lit "fit-to-page", lit "true"), (lit "orientation-requested", lit "5")]
        true (some ⟨2, 3⟩) =
      (if orientation [(lit "fit-to-page", lit "true"), (lit "orientation-requested", lit "5")]
          % 2 = 1 then
        (if false = true then
          [lit "-paperw", List.replicate 3 (Char.ofNat 49), lit "-paperh",
            List.replicate 2 (Char.ofNat 49), lit "-expand"]
        else [lit "-dDEVICEWIDTHPOINTS=" ++ List.replicate 3 (Char.ofNat 49),
          lit "-dDEVICEHEIGHTPOINTS=" ++ List.replicate 2 (Char.ofNat 49)])
      else
        (if false = true then
          [lit "-paperw", List.replicate 2 (Char.ofNat 49), lit "-paperh",
            List.replicate 3 (Char.ofNat 49), lit "-expand"]
        else [lit "-dDEVICEWIDTHPOINTS=" ++ List.replicate 2 (Char.ofNat 49),
          lit "-dDEVICEHEIGHTPOINTS=" ++ List.replicate 3 (Char.ofNat 49)])) :=
  orientation_mapping false false (fun n : Nat => List.replicate n (Char.ofNat 49))
    [(lit "fit-to-page", lit "true"), (lit "orientation-requested", lit "5")] ⟨2, 3⟩ (lit "5")
    (by decide) (by decide) (by decide)

/-- C16 (amended): for an orientation code from 3 to 6 the orientation is `r`
when `r < 2` and `r xor 1` when `r ≥ 2`, with `r = (code - 3) mod 4`, and lies
between 0 and 3; the code takes no remainder, so a code below 3 gives the
negative number `code - 3`, and a code above 6 gives `(code - 3) xor 1`, which
is above 3. -/
theorem rotationOfCode_spec (code : Int)
    (hrange : -2147483645 ≤ code ∧ code ≤ 2147483647) :
    (3 ≤ code ∧ code ≤ 6 →
      rotationOfCode code = specRotation code ∧ 0 ≤ rotationOfCode code ∧
        rotationOfCode code ≤ 3) ∧
    (code < 3 → rotationOfCode code = code - 3 ∧ rotationOfCode code < 0) ∧
    (6 < code → rotationOfCode code = Int.xor (code - 3) 1 ∧ 3 < rotationOfCode code) ∧
    (∀ options val, cupsGetOption (lit "landscape") options = none →
      cupsGetOption (lit "orientation-requested") options = some val → atoi val = code →
      orientation options = rotationOfCode code) := by
  refine ⟨?_, ?_, ?_, ?_⟩
  · rintro ⟨h1, h2⟩
    interval_cases code <;> decide
  · intro h
    have : ¬(code - 3 ≥ 2) := by omega
    have e : rotationOfCode code = code - 3 := by
      unfold rotationOfCode
      simp only
      rw [if_neg this]
    rw [e]
    exact ⟨rfl, by omega⟩
  · intro h
    have h2 : code - 3 ≥ 2 := by omega
    have e : rotationOfCode code = Int.xor (code - 3) 1 := by
      unfold rotationOfCode
      simp only
      rw [if_pos h2]
    rw [e]
    refine ⟨rfl, ?_⟩
    rw [int_xor_one]
    split <;> omega
  · intro options val hl hv ha
    rw [orientation_of_code options val hl hv, ha]

theorem rotationOfCode_spec_witness :
    (3 ≤ (5 : Int) ∧ (5 : Int) ≤ 6 →
      rotationOfCode 5 = specRotation 5 ∧ 0 ≤ rotationOfCode 5 ∧ rotationOfCode 5 ≤ 3) ∧
    ((5 : Int) < 3 → rotationOfCode 5 = 5 - 3 ∧ rotationOfCode 5 < 0) ∧
    (6 < (5 : Int) → rotationOfCode 5 = Int.xor (5 - 3) 1 ∧ 3 < rotationOfCode 5) ∧
    (∀ options val, cupsGetOption (lit "landscape") options = none →
      cupsGetOption (lit "orientation-requested") options = some val → atoi val = 5 →
      orientation options = rotationOfCode 5) :=
  rotationOfCode_spec 5 (by decide)

/-- C16 as stated fails: the code 7 gives the orientation 5, which is not
between 0 and 3, where the formula with the remainder gives 0; the code 2
gives -1, where the formula gives 2. -/
theorem rotationOfCode_spec_counterexample :
    rotationOfCode 7 = 5 ∧ specRotation 7 = 0 ∧ rotationOfCode 2 = -1 ∧ specRotation 2 = 2 ∧
    orientation [(lit "orientation-requested", lit "7")] = 5 := by
  refine ⟨by decide, by decide, by decide, by decide, by decide⟩

/-! ## Facts about reading a file with `fgets` -/

theorem splitLine_append (inp : List Char) :
    (splitLine inp).1 ++ (splitLine inp).2 = inp := by
  induction inp with
  | nil => rfl
  | cons c cs ih =>
    unfold splitLine
    by_cases h : c = LF
    · rw [if_pos h]; rfl
    · rw [if_neg h]; simp [ih]

theorem splitLine_ne_nil (c : Char) (cs : List Char) : (splitLine (c :: cs)).1 ≠ [] := by
  unfold splitLine
  by_cases h : c = LF
  · rw [if_pos h]; simp
  · rw [if_neg h]; simp

theorem splitLine_rest_length (c : Char) (cs : List Char) :
    (splitLine (c :: cs)).2.length ≤ cs.length := by
  have h1 := congrArg List.length (splitLine_append (c :: cs))
  have h2 : 0 < (splitLine (c :: cs)).1.length := List.length_pos.mpr (splitLine_ne_nil c cs)
  simp only [List.length_append, List.length_cons] at h1
  omega

theorem textLinesFuel_congr (f1 f2 : Nat) (inp : List Char) (h1 : inp.length ≤ f1)
    (h2 : inp.length ≤ f2) : textLinesFuel f1 inp = textLinesFuel f2 inp := by
  induction f1 generalizing f2 inp with
  | zero =>
    have : inp = [] := List.length_eq_zero.mp (by omega)
    subst this
    cases f2 <;> simp [textLinesFuel, splitLine]
  | succ n ih =>
    cases inp with
    | nil => cases f2 <;> simp [textLinesFuel, splitLine]
    | cons c cs =>
      have hlen := splitLine_rest_length c cs
      simp only [List.length_cons] at h1 h2
      cases f2 with
      | zero => omega
      | succ k =>
        simp only [textLinesFuel]
        rw [ih k _ (by omega) (by omega)]

theorem textLines_nil : textLines [] = [] := rfl

theorem textLines_cons (c : Char) (cs : List Char) :
    textLines (c :: cs) = (splitLine (c :: cs)).1 :: textLines (splitLine (c :: cs)).2 := by
  have hlen := splitLine_rest_length c cs
  show textLinesFuel (cs.length + 1) (c :: cs) = _
  simp only [textLinesFuel]
  rw [if_neg (splitLine_ne_nil c cs)]
  unfold textLines
  rw [textLinesFuel_congr cs.length _ _ hlen (Nat.le_refl _)]

/-- With room for the whole line, `fgets` reads exactly the first line. -/
theorem fgetsLoop_eq_splitLine (room : Nat) (inp : List Char)
    (h : (splitLine inp).1.length ≤ room) : fgetsLoop room inp = splitLine inp := by
  induction inp generalizing room with
  | nil => cases room <;> rfl
  | cons c cs ih =>
    cases room with
    | zero =>
      have := List.length_pos.mpr (splitLine_ne_nil c cs)
      omega
    | succ n =>
      unfold splitLine at h
      unfold fgetsLoop splitLine
      by_cases hc : c = LF
      · rw [if_pos hc, if_pos hc]
      · rw [if_neg hc] at h
        rw [if_neg hc, if_neg hc]
        simp only [List.length_cons] at h
        rw [ih n (by omega)]

theorem fgets_nil : fgets 4096 [] = none := by
  simp [fgets, fgetsLoop]

theorem fgets_cons (c : Char) (cs : List Char) (h : (splitLine (c :: cs)).1.length < 4096) :
    fgets 4096 (c :: cs) = some (splitLine (c :: cs)) := by
  unfold fgets
  rw [fgetsLoop_eq_splitLine (4096 - 1) (c :: cs) (by omega), if_neg (splitLine_ne_nil c cs)]

theorem shortLines_cons (c : Char) (cs : List Char) (h : ShortLines (c :: cs)) :
    (splitLine (c :: cs)).1.length < 4096 ∧ ShortLines (splitLine (c :: cs)).2 := by
  unfold ShortLines at h ⊢
  rw [textLines_cons] at h
  exact ⟨h _ (by simp), fun l hl => h l (List.mem_cons_of_mem _ hl)⟩

/-- The `for` loop looks at the first lines of what is left of the file. -/
theorem scanComments_eq (n : Nat) (inp : List Char) (g : Globals) (h : ShortLines inp) :
    scanComments n inp g = scanLines ((textLines inp).take n) g := by
  induction n generalizing inp g with
  | zero => simp [scanComments, scanLines]
  | succ n ih =>
    cases inp with
    | nil => simp [scanComments, fgets_nil, textLines_nil, scanLines]
    | cons c cs =>
      obtain ⟨h1, h2⟩ := shortLines_cons c cs h
      unfold scanComments
      rw [fgets_cons c cs h1, textLines_cons, List.take_succ_cons]
      simp only [scanLines]
      cases hc : commentLine (splitLine (c :: cs)).1 g with
      | none => rfl
      | some g' => exact ih _ g' h2

theorem header_test (l : List Char) :
    strncmp_eq l (lit "%PDF") 4 = (lit "%PDF").isPrefixOf l := by
  have h := strncmp_eq_iff_prefix l (lit "%PDF") (by decide)
  have e : (lit "%PDF").length = 4 := by decide
  rw [e] at h
  cases hb : (lit "%PDF").isPrefixOf l with
  | true => exact h.mpr ( List.isPrefixOf_iff_prefix.mp hb)
  | false =>
    rw [← Bool.not_eq_true, h]
    intro hp
    rw [List.isPrefixOf_iff_prefix.mpr hp] at hb
    exact absurd hb (by simp)

/-- The first loop leaves the file just after the first line starting with
`%PDF`, or at its end. -/
theorem skipToHeader_eq (fuel : Nat) (inp : List Char) (hlen : inp.length ≤ fuel)
    (h : ShortLines inp) :
    textLines (skipToHeader fuel inp) =
        ((textLines inp).dropWhile (fun l => !(lit "%PDF").isPrefixOf l)).drop 1 ∧
      ShortLines (skipToHeader fuel inp) := by
  induction fuel generalizing inp with
  | zero =>
    have : inp = [] := List.length_eq_zero.mp (by omega)
    subst this
    exact ⟨by simp [skipToHeader, textLines_nil], h⟩
  | succ n ih =>
    cases inp with
    | nil => exact ⟨by simp [skipToHeader, fgets_nil, textLines_nil], h⟩
    | cons c cs =>
      obtain ⟨h1, h2⟩ := shortLines_cons c cs h
      have hrest := splitLine_rest_length c cs
      simp only [List.length_cons] at hlen
      unfold skipToHeader
      rw [fgets_cons c cs h1, textLines_cons]
      simp only
      rw [header_test]
      cases hb : (lit "%PDF").isPrefixOf (splitLine (c :: cs)).1 with
      | true =>
        simp only [if_true]
        rw [List.dropWhile_cons_of_neg (by simp [hb])]
        exact ⟨rfl, h2⟩
      | false =>
        simp only [Bool.false_eq_true, if_false]
        rw [List.dropWhile_cons_of_pos (by simp [hb])]
        exact ih _ (by omega) h2

/-- On a file with short lines, `parsePDFTOPDFComment` is the loop body
applied to the lines of the scan window. -/
theorem parse_eq_scanLines (file : List Char) (g : Globals) (h : ShortLines file) :
    parsePDFTOPDFComment (some file) g = scanLines (scanWindow file) g := by
  obtain ⟨h1, h2⟩ := skipToHeader_eq file.length file (Nat.le_refl _) h
  unfold parsePDFTOPDFComment scanWindow
  simp only
  rw [scanComments_eq _ _ g h2, h1]

/-! ## The properties of `parsePDFTOPDFComment` -/

/-- C18: two files with lines shorter than the read buffer that have the same
scan window, the at most 20 lines after the first line starting with `%PDF`,
give the same copies string, collation flag and applied flag; a file without
a line starting with `%PDF` leaves the defaults, copies `1`, collation 0 and
applied 0. -/
theorem parse_scanWindow (f1 f2 : List Char) (h1 : ShortLines f1) (h2 : ShortLines f2) :
    (scanWindow f1 = scanWindow f2 →
      parsePDFTOPDFComment (some f1) initialGlobals =
        parsePDFTOPDFComment (some f2) initialGlobals) ∧
    ((∀ l ∈ textLines f1, ¬lit "%PDF" <+: l) →
      parsePDFTOPDFComment (some f1) initialGlobals =
        some { pdftopdfapplied := 0, deviceCopies := lit "1", deviceCollate := 0 }) := by
  constructor
  · intro hw
    rw [parse_eq_scanLines f1 _ h1, parse_eq_scanLines f2 _ h2, hw]
  · intro hno
    rw [parse_eq_scanLines f1 _ h1]
    have : (textLines f1).dropWhile (fun l => !(lit "%PDF").isPrefixOf l) = [] := by
      rw [List.dropWhile_eq_nil_iff]
      intro l hl
      have := hno l hl
      simp only [Bool.not_eq_true', ← Bool.not_eq_true]
      exact fun hp => this ( List.isPrefixOf_iff_prefix.mp hp)
    unfold scanWindow
    rw [this]
    rfl

theorem parse_scanWindow_witness :
    (scanWindow (lit "junk\n%PDF-1.5\n%%PDFTOPDFNumCopies : 3\n") =
        scanWindow (lit "%PDF-1.7 other\n%%PDFTOPDFNumCopies : 3\n") →
      parsePDFTOPDFComment (some (lit "junk\n%PDF-1.5\n%%PDFTOPDFNumCopies : 3\n"))
          initialGlobals =
        parsePDFTOPDFComment (some (lit "%PDF-1.7 other\n%%PDFTOPDFNumCopies : 3\n"))
          initialGlobals) ∧
    ((∀ l ∈ textLines (lit "junk\n%PDF-1.5\n%%PDFTOPDFNumCopies : 3\n"), ¬lit "%PDF" <+: l) →
      parsePDFTOPDFComment (some (lit "junk\n%PDF-1.5\n%%PDFTOPDFNumCopies : 3\n"))
          initialGlobals =
        some { pdftopdfapplied := 0, deviceCopies := lit "1", deviceCollate := 0 }) :=
  parse_scanWindow (lit "junk\n%PDF-1.5\n%%PDFTOPDFNumCopies : 3\n")
    (lit "%PDF-1.7 other\n%%PDFTOPDFNumCopies : 3\n") (by decide) (by decide)

/-- C17, the code at the failing input: the marker line of the file ends with
a line feed, `fgets` leaves that line feed in `buf`, and `strcmp` compares
`buf` with the marker without line feed, so `pdftopdfapplied` stays 0; the
marker is only seen on a last line that has no line feed. -/
theorem parse_marker_line_missed :
    parsePDFTOPDFComment (some (lit "%PDF-1.5\n% This file was generated by pdftopdf\n"))
        initialGlobals =
      some { pdftopdfapplied := 0, deviceCopies := lit "1", deviceCollate := 0 } ∧
    (∀ g, commentLine (lit "% This file was generated by pdftopdf\n") g = some g) ∧
    parsePDFTOPDFComment (some (lit "%PDF-1.5\n% This file was generated by pdftopdf"))
        initialGlobals =
      some { pdftopdfapplied := 1, deviceCopies := lit "1", deviceCollate := 0 } := by
  refine ⟨by decide, ?_, by decide⟩
  intro g
  have h1 : strncmp_eq (lit "% This file was generated by pdftopdf\n")
      (lit "%%PDFTOPDFNumCopies") 19 = false := by decide
  have h2 : strncmp_eq (lit "% This file was generated by pdftopdf\n")
      (lit "%%PDFTOPDFCollate") 17 = false := by decide
  have h3 : strcmp_eq (lit "% This file was generated by pdftopdf\n")
      (lit "% This file was generated by pdftopdf") = false := by decide
  simp [commentLine, h1, h2, h3]

/-- C19, the code at the failing input: the copies directive occurs twice in
the scan window, first without `:` and then with the value 2; at the first
one `strchr` returns `NULL` and the pointer `NULL + 1` is dereferenced, so no
value is recorded, whereas the same window with the first line well formed
records the value of the last directive. -/
theorem parse_repeated_directive_undefined :
    parsePDFTOPDFComment
        (some (lit "%PDF-1.5\n%%PDFTOPDFNumCopies\n%%PDFTOPDFNumCopies : 2\n"))
        initialGlobals = none ∧
    parsePDFTOPDFComment
        (some (lit "%PDF-1.5\n%%PDFTOPDFNumCopies : 3\n%%PDFTOPDFNumCopies : 2\n"))
        initialGlobals =
      some { pdftopdfapplied := 1, deviceCopies := lit "2\n", deviceCollate := 0 } := by
  refine ⟨by decide, by decide⟩

/-- C20, the code at the failing input: for a copies or collation directive
without `:` in the scan window `strchr` returns `NULL` and the pointer
`NULL + 1` is dereferenced, so the call has no defined result; for a directive
with `:` and no value the copies string becomes the rest of the line, a line
feed, and not the default `1`. -/
theorem parse_malformed_directive_undefined :
    parsePDFTOPDFComment (some (lit "%PDF-1.5\n%%PDFTOPDFNumCopies\n")) initialGlobals = none ∧
    parsePDFTOPDFComment (some (lit "%PDF-1.5\n%%PDFTOPDFCollate\n")) initialGlobals = none ∧
    parsePDFTOPDFComment (some (lit "%PDF-1.5\n%%PDFTOPDFNumCopies :\n")) initialGlobals =
      some { pdftopdfapplied := 1, deviceCopies := lit "\n", deviceCollate := 0 } := by
  refine ⟨by decide, by decide, by decide⟩

theorem strncmp_eq_isPrefixOf (l p : List Char) (hp : NUL ∉ p) :
    strncmp_eq l p p.length = p.isPrefixOf l := by
  have h := strncmp_eq_iff_prefix l p hp
  cases hb : p.isPrefixOf l with
  | true => exact h.mpr ( List.isPrefixOf_iff_prefix.mp hb)
  | false =>
    rw [← Bool.not_eq_true, h]
    intro hpre
    rw [List.isPrefixOf_iff_prefix.mpr hpre] at hb
    exact absurd hb (by simp)

theorem getLast?_filter_cons {α : Type} (p : α → Bool) (a : α) (l : List α) :
    ((a :: l).filter p).getLast? =
      match (l.filter p).getLast? with
      | none => if p a then some a else none
      | some x => some x := by
  by_cases ha : p a = true
  · rw [List.filter_cons_of_pos ha]
    cases hl : l.filter p with
    | nil => simp [ha]
    | cons b t =>
      rw [List.getLast?_cons_cons]
      obtain ⟨x, hx⟩ : ∃ x, (b :: t).getLast? = some x :=
        ⟨_, List.getLast?_eq_getLast _ (by simp)⟩
      rw [hx]
  · rw [List.filter_cons_of_neg ha]
    cases hl : (l.filter p).getLast? with
    | none => simp [ha]
    | some x => rfl

/-- When every line of the window that starts with `%%PDFTOPDFNumCopies` or
`%%PDFTOPDFCollate` has a `:` after the keyword, the loop body has a defined
result on the whole window, and the copies string and the collation flag are
those of the last directive of each kind, whatever the order of the lines. -/
theorem scanLines_last_wins (ws : List (List Char)) (g : Globals)
    (hwf : ∀ l ∈ ws,
      ((lit "%%PDFTOPDFNumCopies").isPrefixOf l = true → directiveValue l 19 ≠ none) ∧
      ((lit "%%PDFTOPDFCollate").isPrefixOf l = true → directiveValue l 17 ≠ none)) :
    ∃ g', scanLines ws g = some g' ∧
      g'.deviceCopies =
        (match (ws.filter (fun l => (lit "%%PDFTOPDFNumCopies").isPrefixOf l)).getLast? with
          | none => g.deviceCopies
          | some l => (directiveValue l 19).getD []) ∧
      g'.deviceCollate =
        (match (ws.filter (fun l => (lit "%%PDFTOPDFCollate").isPrefixOf l)).getLast? with
          | none => g.deviceCollate
          | some l =>
            if strncasecmp_eq ((directiveValue l 17).getD []) (lit "true") 4 then 1 else 0) := by
  induction ws generalizing g with
  | nil => exact ⟨g, rfl, rfl, rfl⟩
  | cons l ws ih =>
    have hl := hwf l (by simp)
    have hws : ∀ x ∈ ws,
        ((lit "%%PDFTOPDFNumCopies").isPrefixOf x = true → directiveValue x 19 ≠ none) ∧
        ((lit "%%PDFTOPDFCollate").isPrefixOf x = true → directiveValue x 17 ≠ none) :=
      fun x hx => hwf x (List.mem_cons_of_mem _ hx)
    have e1 : strncmp_eq l (lit "%%PDFTOPDFNumCopies") 19 =
        (lit "%%PDFTOPDFNumCopies").isPrefixOf l :=
      strncmp_eq_isPrefixOf l (lit "%%PDFTOPDFNumCopies") (by decide)
    have e2 : strncmp_eq l (lit "%%PDFTOPDFCollate") 17 =
        (lit "%%PDFTOPDFCollate").isPrefixOf l :=
      strncmp_eq_isPrefixOf l (lit "%%PDFTOPDFCollate") (by decide)
    have hdisj : (lit "%%PDFTOPDFNumCopies").isPrefixOf l = true →
        (lit "%%PDFTOPDFCollate").isPrefixOf l = false := by
      intro h1
      rw [← Bool.not_eq_true]
      intro h2
      have p1 := List.isPrefixOf_iff_prefix.mp h1
      have p2 := List.isPrefixOf_iff_prefix.mp h2
      exact absurd ( List.prefix_of_prefix_length_le p2 p1 (by decide)) (by decide)
    rw [getLast?_filter_cons, getLast?_filter_cons]
    unfold scanLines commentLine
    rw [e1, e2]
    cases h1 : (lit "%%PDFTOPDFNumCopies").isPrefixOf l with
    | true =>
      have h2 := hdisj h1
      obtain ⟨p, hp⟩ := Option.ne_none_iff_exists'.mp (hl.1 h1)
      simp only [if_true, hp, h2]
      obtain ⟨g', hg, hc, hd⟩ := ih
        { g with deviceCopies := p, pdftopdfapplied := 1 } hws
      refine ⟨g', hg, ?_, ?_⟩
      · rw [hc]
        cases (ws.filter (fun l => (lit "%%PDFTOPDFNumCopies").isPrefixOf l)).getLast? <;> simp [hp]
      · rw [hd]
        cases (ws.filter (fun l => (lit "%%PDFTOPDFCollate").isPrefixOf l)).getLast? <;> simp [hp]
    | false =>
      simp only [Bool.false_eq_true, if_false]
      cases h2 : (lit "%%PDFTOPDFCollate").isPrefixOf l with
      | true =>
        obtain ⟨p, hp⟩ := Option.ne_none_iff_exists'.mp (hl.2 h2)
        simp only [if_true, hp]
        obtain ⟨g', hg, hc, hd⟩ := ih
          { g with
            deviceCollate := if strncasecmp_eq p (lit "true") 4 then 1 else 0,
            pdftopdfapplied := 1 } hws
        refine ⟨g', hg, ?_, ?_⟩
        · rw [hc]
          cases (ws.filter (fun l => (lit "%%PDFTOPDFNumCopies").isPrefixOf l)).getLast? <;>
            simp [hp]
        · rw [hd]
          cases (ws.filter (fun l => (lit "%%PDFTOPDFCollate").isPrefixOf l)).getLast? <;>
            simp [hp]
      | false =>
        simp only [Bool.false_eq_true, if_false]
        by_cases h3 : strcmp_eq l (lit "% This file was generated by pdftopdf") = true
        · rw [if_pos h3]
          simp only
          obtain ⟨g', hg, hc, hd⟩ := ih { g with pdftopdfapplied := 1 } hws
          refine ⟨g', hg, ?_, ?_⟩
          · rw [hc]
            cases (ws.filter (fun l => (lit "%%PDFTOPDFNumCopies").isPrefixOf l)).getLast? <;>
              simp
          · rw [hd]
            cases (ws.filter (fun l => (lit "%%PDFTOPDFCollate").isPrefixOf l)).getLast? <;>
              simp
        · rw [if_neg h3]
          simp only
          obtain ⟨g', hg, hc, hd⟩ := ih g hws
          refine ⟨g', hg, ?_, ?_⟩
          · rw [hc]
            cases (ws.filter (fun l => (lit "%%PDFTOPDFNumCopies").isPrefixOf l)).getLast? <;>
              simp
          · rw [hd]
            cases (ws.filter (fun l => (lit "%%PDFTOPDFCollate").isPrefixOf l)).getLast? <;>
              simp

/-! ## The copies argument of `pstops` -/

/-- A line of the sniffer either leaves the globals alone or sets
`pdftopdfapplied`. -/
theorem commentLine_cases (l : List Char) (g g' : Globals) (h : commentLine l g = some g') :
    g' = g ∨ g'.pdftopdfapplied = 1 := by
  unfold commentLine at h
  by_cases h1 : strncmp_eq l (lit "%%PDFTOPDFNumCopies") 19 = true
  · rw [if_pos h1] at h
    cases hd : directiveValue l 19 with
    | none => rw [hd] at h; simp at h
    | some p =>
      rw [hd] at h
      simp only [Option.some.injEq] at h
      subst h
      exact Or.inr rfl
  · rw [if_neg h1] at h
    by_cases h2 : strncmp_eq l (lit "%%PDFTOPDFCollate") 17 = true
    · rw [if_pos h2] at h
      cases hd : directiveValue l 17 with
      | none => rw [hd] at h; simp at h
      | some p =>
        rw [hd] at h
        simp only [Option.some.injEq] at h
        subst h
        exact Or.inr rfl
    · rw [if_neg h2] at h
      by_cases h3 : strcmp_eq l (lit "% This file was generated by pdftopdf") = true
      · rw [if_pos h3] at h
        simp only [Option.some.injEq] at h
        subst h
        exact Or.inr rfl
      · rw [if_neg h3] at h
        simp only [Option.some.injEq] at h
        exact Or.inl h.symm

/-- A copies directive sets `pdftopdfapplied`. -/
theorem commentLine_copies (l : List Char) (g g' : Globals) (h : commentLine l g = some g')
    (hl : (lit "%%PDFTOPDFNumCopies").isPrefixOf l = true) : g'.pdftopdfapplied = 1 := by
  have e1 : strncmp_eq l (lit "%%PDFTOPDFNumCopies") 19 = true := by
    rw [show (19 : Nat) = (lit "%%PDFTOPDFNumCopies").length by decide,
      strncmp_eq_isPrefixOf l (lit "%%PDFTOPDFNumCopies") (by decide)]
    exact hl
  unfold commentLine at h
  rw [if_pos e1] at h
  cases hd : directiveValue l 19 with
  | none => rw [hd] at h; simp at h
  | some p =>
    rw [hd] at h
    simp only [Option.some.injEq] at h
    subst h
    rfl

/-- The flag `pdftopdfapplied` is set after the lines of a window that has a
copies directive, or when it was set before. -/
theorem scanLines_applied (ws : List (List Char)) (g g' : Globals)
    (h : scanLines ws g = some g')
    (hd : g.pdftopdfapplied = 1 ∨ ∃ l ∈ ws, (lit "%%PDFTOPDFNumCopies").isPrefixOf l = true) :
    g'.pdftopdfapplied = 1 := by
  induction ws generalizing g with
  | nil =>
    unfold scanLines at h
    simp only [Option.some.injEq] at h
    subst h
    rcases hd with hd | ⟨l, hl, _⟩
    · exact hd
    · simp at hl
  | cons l ws ih =>
    unfold scanLines at h
    cases hc : commentLine l g with
    | none => rw [hc] at h; simp at h
    | some g1 =>
      rw [hc] at h
      simp only at h
      apply ih g1 h
      rcases hd with hd | ⟨x, hx, hp⟩
      · left
        rcases commentLine_cases l g g1 hc with e | e
        · rw [e]; exact hd
        · exact e
      · rcases List.mem_cons.mp hx with e | e
        · left
          subst e
          exact commentLine_copies x g g1 hc hp
        · exact Or.inr ⟨x, e, hp⟩

/-- The value of a copies directive `%%PDFTOPDFNumCopies : ` followed by
`rest`: all of `rest`, when it has no NUL and starts with no blank. -/
theorem directiveValue_copies (rest : List Char) (h0 : NUL ∉ rest)
    (hb : ∀ c, rest.head? = some c → c ≠ Char.ofNat 32 ∧ c ≠ Char.ofNat 9) :
    directiveValue (lit "%%PDFTOPDFNumCopies : " ++ rest) 19 = some rest := by
  have hdrop : (lit "%%PDFTOPDFNumCopies : " ++ rest).drop 19 =
      Char.ofNat 32 :: Char.ofNat 58 :: Char.ofNat 32 :: rest := by
    rw [List.drop_append_of_le_length (by decide)]
    rfl
  have hc : cstr (Char.ofNat 32 :: Char.ofNat 58 :: Char.ofNat 32 :: rest) =
      Char.ofNat 32 :: Char.ofNat 58 :: Char.ofNat 32 :: rest :=
    cstr_eq_self (by
      intro hm
      rcases List.mem_cons.mp hm with e | hm
      · exact absurd e (by decide)
      rcases List.mem_cons.mp hm with e | hm
      · exact absurd e (by decide)
      rcases List.mem_cons.mp hm with e | hm
      · exact absurd e (by decide)
      exact h0 hm)
  unfold directiveValue strchr
  rw [hdrop, hc]
  have h1 : (Char.ofNat 32 :: Char.ofNat 58 :: Char.ofNat 32 :: rest).dropWhile
      (fun x => x != Char.ofNat 58) = Char.ofNat 58 :: Char.ofNat 32 :: rest := by
    rw [List.dropWhile_cons_of_pos (by decide), List.dropWhile_cons_of_neg (by decide)]
  rw [h1]
  simp only [List.drop_succ_cons, List.drop_zero]
  rw [List.dropWhile_cons_of_pos (by decide)]
  cases rest with
  | nil => rfl
  | cons c cs =>
    have := hb c rfl
    rw [List.dropWhile_cons_of_neg (by simp [this.1, this.2])]

/-- A window without a copies directive, a collation directive and a line
that is the marker of `pdftopdf` leaves the globals as they are. -/
theorem scanLines_plain (ws : List (List Char)) (g : Globals)
    (h : ∀ l ∈ ws, (lit "%%PDFTOPDFNumCopies").isPrefixOf l = false ∧
      (lit "%%PDFTOPDFCollate").isPrefixOf l = false ∧
      strcmp_eq l (lit "% This file was generated by pdftopdf") = false) :
    scanLines ws g = some g := by
  induction ws with
  | nil => rfl
  | cons l ws ih =>
    obtain ⟨h1, h2, h3⟩ := h l (by simp)
    have e1 : strncmp_eq l (lit "%%PDFTOPDFNumCopies") 19 = false := by
      rw [show (19 : Nat) = (lit "%%PDFTOPDFNumCopies").length by decide,
        strncmp_eq_isPrefixOf l (lit "%%PDFTOPDFNumCopies") (by decide)]
      exact h1
    have e2 : strncmp_eq l (lit "%%PDFTOPDFCollate") 17 = false := by
      rw [show (17 : Nat) = (lit "%%PDFTOPDFCollate").length by decide,
        strncmp_eq_isPrefixOf l (lit "%%PDFTOPDFCollate") (by decide)]
      exact h2
    have hc : commentLine l g = some g := by
      simp [commentLine, e1, e2, h3]
    unfold scanLines
    rw [hc]
    exact ih (fun x hx => h x (List.mem_cons_of_mem _ hx))

/-- What the code gives as the copies argument of `pstops`. When
`pdftopdfapplied` is 0 after the sniffer it is `argv[4]`, and this is so for a
file `plain` whose scan window has no copies directive, no collation directive
and no marker line. When the lines of the file are shorter than the read
buffer, every directive line of the scan window has a `:`, and the last copies
directive of the window is `%%PDFTOPDFNumCopies : N` with `N` free of NUL and
not starting with a blank, the sniffer returns and the copies argument is `N`
followed by the end of that line, the line feed that `fgets` has left in the
buffer (nothing only for a last line of the file without a line feed). -/
theorem pstopsCopies_value (argv4 plain file N eol : List Char) (hp : ShortLines plain)
    (hnone : ∀ l ∈ scanWindow plain, (lit "%%PDFTOPDFNumCopies").isPrefixOf l = false ∧
      (lit "%%PDFTOPDFCollate").isPrefixOf l = false ∧
      strcmp_eq l (lit "% This file was generated by pdftopdf") = false)
    (hs : ShortLines file)
    (hwf : ∀ l ∈ scanWindow file,
      ((lit "%%PDFTOPDFNumCopies").isPrefixOf l = true → directiveValue l 19 ≠ none) ∧
      ((lit "%%PDFTOPDFCollate").isPrefixOf l = true → directiveValue l 17 ≠ none))
    (hlast : ((scanWindow file).filter
      (fun l => (lit "%%PDFTOPDFNumCopies").isPrefixOf l)).getLast? =
        some (lit "%%PDFTOPDFNumCopies : " ++ N ++ eol))
    (h0 : NUL ∉ N) (hb : ∀ c, N.head? = some c → c ≠ Char.ofNat 32 ∧ c ≠ Char.ofNat 9)
    (he : eol = [LF] ∨ eol = []) :
    (∀ g, g.pdftopdfapplied = 0 → pstopsCopies argv4 g = argv4) ∧
    (∃ g, parsePDFTOPDFComment (some plain) initialGlobals = some g ∧
      g.pdftopdfapplied = 0 ∧ pstopsCopies argv4 g = argv4) ∧
    ∃ g, parsePDFTOPDFComment (some file) initialGlobals = some g ∧
      pstopsCopies argv4 g = N ++ eol := by
  have hfirst : ∀ g : Globals, g.pdftopdfapplied = 0 → pstopsCopies argv4 g = argv4 := by
    intro g hg
    unfold pstopsCopies
    rw [if_neg (by simp [hg])]
  refine ⟨hfirst, ?_, ?_⟩
  · refine ⟨initialGlobals, ?_, rfl, hfirst initialGlobals rfl⟩
    rw [parse_eq_scanLines plain _ hp]
    exact scanLines_plain (scanWindow plain) initialGlobals hnone
  · obtain ⟨g, hg, hc, _⟩ := scanLines_last_wins (scanWindow file) initialGlobals hwf
    refine ⟨g, ?_, ?_⟩
    · rw [parse_eq_scanLines file _ hs]
      exact hg
    · have hmem : lit "%%PDFTOPDFNumCopies : " ++ N ++ eol ∈ (scanWindow file).filter
          (fun l => (lit "%%PDFTOPDFNumCopies").isPrefixOf l) :=
        List.mem_of_getLast?_eq_some hlast
      have hmem2 := List.mem_filter.mp hmem
      have happ : g.pdftopdfapplied = 1 :=
        scanLines_applied (scanWindow file) initialGlobals g hg
          (Or.inr ⟨_, hmem2.1, hmem2.2⟩)
      have hrest0 : NUL ∉ N ++ eol := by
        rcases he with e | e <;> subst e
        · intro hm
          rcases List.mem_append.mp hm with hm | hm
          · exact h0 hm
          · exact absurd hm (by decide)
        · simpa using h0
      have hrestb : ∀ c, (N ++ eol).head? = some c → c ≠ Char.ofNat 32 ∧ c ≠ Char.ofNat 9 := by
        intro c hc'
        cases N with
        | nil =>
          rcases he with e | e <;> subst e
          · simp only [List.nil_append, List.head?_cons, Option.some.injEq] at hc'
            subst hc'
            decide
          · simp at hc'
        | cons a t => exact hb c (by simpa using hc')
      unfold pstopsCopies
      rw [if_pos (by simp [happ]), hc, hlast]
      simp only
      rw [List.append_assoc, directiveValue_copies (N ++ eol) hrest0 hrestb]
      rfl

theorem pstopsCopies_value_witness :
    (∀ g, g.pdftopdfapplied = 0 → pstopsCopies (lit "1") g = lit "1") ∧
    (∃ g, parsePDFTOPDFComment (some (lit "%PDF-1.5\n%comment\n")) initialGlobals = some g ∧
      g.pdftopdfapplied = 0 ∧ pstopsCopies (lit "1") g = lit "1") ∧
    ∃ g, parsePDFTOPDFComment (some (lit "%PDF-1.5\n%%PDFTOPDFNumCopies : 3\n"))
        initialGlobals = some g ∧
      pstopsCopies (lit "1") g = lit "3" ++ [LF] :=
  pstopsCopies_value (lit "1") (lit "%PDF-1.5\n%comment\n")
    (lit "%PDF-1.5\n%%PDFTOPDFNumCopies : 3\n") (lit "3") [LF]
    (by decide) (by decide) (by decide) (by decide) (by decide) (by decide) (by decide)
    (by decide)

/-- C21, the code at the failing input: the scan window holds the copies
directive `%%PDFTOPDFNumCopies : 2`, as a line that ends with a line feed.
`fgets` leaves the line feed in the buffer and `deviceCopies` is a copy of the
buffer from the value on, so the copies argument of `pstops` is `2` followed
by a line feed and not the string `2`; without a directive the argument is
`argv[4]` as it was given, and the string `deviceCopies` starts with is `1`. -/
theorem pstopsCopies_line_feed :
    lit "%%PDFTOPDFNumCopies : 2\n" ∈ scanWindow (lit "%PDF-1.5\n%%PDFTOPDFNumCopies : 2\n") ∧
    (∃ g, parsePDFTOPDFComment (some (lit "%PDF-1.5\n%%PDFTOPDFNumCopies : 2\n"))
        initialGlobals = some g ∧
      pstopsCopies (lit "1") g = lit "2\n" ∧ pstopsCopies (lit "1") g ≠ lit "2") ∧
    (∃ g, parsePDFTOPDFComment (some (lit "%PDF-1.5\n")) initialGlobals = some g ∧
      pstopsCopies (lit "2") g = lit "2") ∧
    initialGlobals.deviceCopies = lit "1" :=
  ⟨by decide, ⟨⟨1, lit "2\n", 0⟩, by decide, by decide, by decide⟩,
    ⟨initialGlobals, by decide, by decide⟩, rfl⟩

/-! ## The workaround and the post-processing stage -/

/-- The test `strcasecmp(val, w) == 0` for a word `w` of lower case letters:
the C string `val` is `w` up to the case of letters. -/
theorem strcasecmp_eq_word (val w : List Char) (hw : (cstr w).map tolower = w) :
    strcasecmp_eq val w = true ↔ (cstr val).map tolower = w := by
  unfold strcasecmp_eq
  rw [hw]
  simp

/-- C23 (amended): the variable `fit` is set exactly when there is a PPD file
and the selected value, that of `fitplot` when `cupsGetOption` finds that
option and else that of `fit-to-page`, exists and is none of `no`, `off` and
`false`, the case of letters being ignored; without a PPD file `fit` gets no
value and no argument is added. The arguments for the width and the height are
added when `fit` is set and `ppdPageSize` has returned a size, and in every
other case nothing is added but `-origpagesizes`, with a PPD file, in a build
that has it. -/
theorem fit_decision {α : Type} (have_pdftops origpagesizes : Bool) (fmt : α → List Char)
    (options : List (List Char × List Char)) (ppd : Bool) (size : Option (ppd_size_t α)) :
    (fitVar ppd options = some true ↔
      ppd = true ∧ ∃ val,
        (cupsGetOption (lit "fitplot") options = some val ∨
          (cupsGetOption (lit "fitplot") options = none ∧
            cupsGetOption (lit "fit-to-page") options = some val)) ∧
        (cstr val).map tolower ≠ lit "no" ∧ (cstr val).map tolower ≠ lit "off" ∧
        (cstr val).map tolower ≠ lit "false") ∧
    (ppd = false →
      fitVar ppd options = none ∧ sizeArgs have_pdftops origpagesizes fmt options ppd size = []) ∧
    (¬(fitVar ppd options = some true ∧ size.isSome = true) →
      sizeArgs have_pdftops origpagesizes fmt options ppd size =
        if ppd && have_pdftops && origpagesizes then [lit "-origpagesizes"] else []) ∧
    (∀ sz, fitVar ppd options = some true → size = some sz →
      sizeArgs have_pdftops origpagesizes fmt options ppd size =
        if have_pdftops then
          [lit "-paperw", fmt (pdfDimensions sz (orientation options)).1,
            lit "-paperh", fmt (pdfDimensions sz (orientation options)).2, lit "-expand"]
        else
          [lit "-dDEVICEWIDTHPOINTS=" ++ fmt (pdfDimensions sz (orientation options)).1,
            lit "-dDEVICEHEIGHTPOINTS=" ++ fmt (pdfDimensions sz (orientation options)).2]) := by
  have hval : ∀ val, notFalseValue val = true ↔
      ((cstr val).map tolower ≠ lit "no" ∧ (cstr val).map tolower ≠ lit "off" ∧
        (cstr val).map tolower ≠ lit "false") := by
    intro val
    unfold notFalseValue
    rw [Bool.and_eq_true, Bool.and_eq_true, Bool.not_eq_true', Bool.not_eq_true',
      Bool.not_eq_true', ← Bool.not_eq_true, ← Bool.not_eq_true, ← Bool.not_eq_true,
      strcasecmp_eq_word val (lit "no") (by decide),
      strcasecmp_eq_word val (lit "off") (by decide),
      strcasecmp_eq_word val (lit "false") (by decide), and_assoc]
  have hfit : fit options = true ↔
      ∃ val,
        (cupsGetOption (lit "fitplot") options = some val ∨
          (cupsGetOption (lit "fitplot") options = none ∧
            cupsGetOption (lit "fit-to-page") options = some val)) ∧
        (cstr val).map tolower ≠ lit "no" ∧ (cstr val).map tolower ≠ lit "off" ∧
        (cstr val).map tolower ≠ lit "false" := by
    unfold fit
    cases h1 : cupsGetOption (lit "fitplot") options with
    | some v =>
      simp only
      rw [hval]
      constructor
      · intro h; exact ⟨v, Or.inl rfl, h⟩
      · rintro ⟨val, hsel | ⟨hsel, _⟩, h⟩
        · simp only [Option.some.injEq] at hsel
          subst hsel
          exact h
        · simp at hsel
    | none =>
      simp only
      cases h2 : cupsGetOption (lit "fit-to-page") options with
      | some v =>
        simp only
        rw [hval]
        constructor
        · intro h; exact ⟨v, Or.inr ⟨by simp, by simp⟩, h⟩
        · rintro ⟨val, hsel | ⟨_, hsel⟩, h⟩
          · simp at hsel
          · simp only [Option.some.injEq] at hsel
            subst hsel
            exact h
      | none =>
        simp only
        constructor
        · intro h; simp at h
        · rintro ⟨val, hsel | ⟨_, hsel⟩, _⟩ <;> simp at hsel
  have hvar : fitVar ppd options = some true ↔ ppd = true ∧ fit options = true := by
    unfold fitVar
    cases ppd <;> simp
  refine ⟨?_, ?_, ?_, ?_⟩
  · rw [hvar, hfit]
  · intro hp
    subst hp
    exact ⟨rfl, rfl⟩
  · intro h
    rw [hvar] at h
    unfold sizeArgs
    cases ppd with
    | false => simp
    | true =>
      simp only [if_true, Bool.true_and]
      cases size with
      | none => rfl
      | some sz =>
        cases hf : fit options with
        | true => exact absurd ⟨⟨rfl, hf⟩, rfl⟩ h
        | false => rfl
  · intro sz hv hs
    subst hs
    obtain ⟨hp, hf⟩ := hvar.mp hv
    subst hp
    unfold sizeArgs
    rw [if_pos rfl, hf]

theorem fit_decision_witness :
    (fitVar true [(lit "fit-to-page", lit "true")] = some true ↔
      true = true ∧ ∃ val,
        (cupsGetOption (lit "fitplot") [(lit "fit-to-page", lit "true")] = some val ∨
          (cupsGetOption (lit "fitplot") [(lit "fit-to-page", lit "true")] = none ∧
            cupsGetOption (lit "fit-to-page") [(lit "fit-to-page", lit "true")] = some val)) ∧
        (cstr val).map tolower ≠ lit "no" ∧ (cstr val).map tolower ≠ lit "off" ∧
        (cstr val).map tolower ≠ lit "false") ∧
    (true = false →
      fitVar true [(lit "fit-to-page", lit "true")] = none ∧
        sizeArgs false false (fun n : Nat => List.replicate n (Char.ofNat 49))
          [(lit "fit-to-page", lit "true")] true (some ⟨2, 3⟩) = []) ∧
    (¬(fitVar true [(lit "fit-to-page", lit "true")] = some true ∧
        (some (⟨2, 3⟩ : ppd_size_t Nat)).isSome = true) →
      sizeArgs false false (fun n : Nat => List.replicate n (Char.ofNat 49))
          [(lit "fit-to-page", lit "true")] true (some ⟨2, 3⟩) =
        if true && false && false then [lit "-origpagesizes"] else []) ∧
    (∀ sz, fitVar true [(lit "fit-to-page", lit "true")] = some true →
      some (⟨2, 3⟩ : ppd_size_t Nat) = some sz →
      sizeArgs false false (fun n : Nat => List.replicate n (Char.ofNat 49))
          [(lit "fit-to-page", lit "true")] true (some ⟨2, 3⟩) =
        if false then
          [lit "-paperw",
            (fun n : Nat => List.replicate n (Char.ofNat 49))
              (pdfDimensions sz (orientation [(lit "fit-to-page", lit "true")])).1,
            lit "-paperh",
            (fun n : Nat => List.replicate n (Char.ofNat 49))
              (pdfDimensions sz (orientation [(lit "fit-to-page", lit "true")])).2,
            lit "-expand"]
        else
          [lit "-dDEVICEWIDTHPOINTS=" ++
              (fun n : Nat => List.replicate n (Char.ofNat 49))
                (pdfDimensions sz (orientation [(lit "fit-to-page", lit "true")])).1,
            lit "-dDEVICEHEIGHTPOINTS=" ++
              (fun n : Nat => List.replicate n (Char.ofNat 49))
                (pdfDimensions sz (orientation [(lit "fit-to-page", lit "true")])).2]) :=
  fit_decision false false (fun n : Nat => List.replicate n (Char.ofNat 49))
    [(lit "fit-to-page", lit "true")] true (some ⟨2, 3⟩)

/-- C23, the counterexample: there is no PPD file and the options hold
`fit-to-page` with the value `true`, so the selected value exists and is none
of `no`, `off` and `false`; the block `if (ppd)` that assigns `fit` is not
run, `fit` is not set, and no argument is added. -/
theorem fit_decision_counterexample :
    (cupsGetOption (lit "fitplot") [(lit "fit-to-page", lit "true")] = none ∧
      cupsGetOption (lit "fit-to-page") [(lit "fit-to-page", lit "true")] = some (lit "true") ∧
      (cstr (lit "true")).map tolower ≠ lit "no" ∧ (cstr (lit "true")).map tolower ≠ lit "off" ∧
      (cstr (lit "true")).map tolower ≠ lit "false") ∧
    fitVar false [(lit "fit-to-page", lit "true")] = none ∧
    fitVar false [(lit "fit-to-page", lit "true")] ≠ some true ∧
    fitVar true [(lit "fit-to-page", lit "true")] = some true ∧
    sizeArgs true true (fun n : Nat => List.replicate n (Char.ofNat 49))
      [(lit "fit-to-page", lit "true")] false none = [] := by
  refine ⟨⟨by decide, by decide, by decide, by decide, by decide⟩, by decide, by decide,
    by decide, by decide⟩

/-! ## The buffer of the options of `pstops` -/

/-- C24: for a pointer of at most 8 bytes there is an options string, for
example `media=A4`, that the two calls of `remove_options` leave as it is and
for which the size given to `realloc`, the size of a pointer plus 8, is
smaller than the number of bytes in use after ` Collate` has been copied to
the end of the string (the string, 8 bytes and the NUL): `strcpy` writes past
the size that was asked for, and the run has no defined result. -/
theorem collate_overflow (sizeof_ptr : Nat) (h : sizeof_ptr ≤ 8) :
    ∃ argv5 s,
      (remove_options argv5 pstops_exclude_general).bind
        (fun s1 => remove_options s1 pstops_exclude_page_management) = some s ∧
      collateEnd s = s.length + 8 + 1 ∧
      reallocSize sizeof_ptr < collateEnd s ∧
      pstopsOptions sizeof_ptr argv5 1 1 = none := by
  have hlt : reallocSize sizeof_ptr < collateEnd (lit "media=A4") := by
    have : collateEnd (lit "media=A4") = 17 := by decide
    rw [this]
    unfold reallocSize
    omega
  have h1 : remove_options (lit "media=A4") pstops_exclude_general = some (lit "media=A4") := by
    decide
  have h2 : remove_options (lit "media=A4") pstops_exclude_page_management =
      some (lit "media=A4") := by decide
  refine ⟨lit "media=A4", lit "media=A4", by decide, by decide, hlt, ?_⟩
  unfold pstopsOptions
  rw [h1]
  simp only [ne_eq, one_ne_zero, not_false_eq_true, if_true, h2, and_self]
  rw [if_neg (by omega)]

theorem collate_overflow_witness :
    ∃ argv5 s,
      (remove_options argv5 pstops_exclude_general).bind
        (fun s1 => remove_options s1 pstops_exclude_page_management) = some s ∧
      collateEnd s = s.length + 8 + 1 ∧
      reallocSize 8 < collateEnd s ∧
      pstopsOptions 8 argv5 1 1 = none :=
  collate_overflow 8 (by decide)

/-! ## `remove_options`, applied twice and as a deletion -/

/-- C25, the code at the failing inputs: a second call of `remove_options`
changes the result of the first. With the page management list, the first
call leaves `number-up=2` in `number-up-layout=btlr number-up=2`, since the
loop for `number-up` stops at the occurrence inside `number-up-layout`, and
the second call removes it. With the general list, the first call makes
`fitplot` out of `fitlandscape plot`, after the loop for `fitplot` has run,
and the second call removes it. -/
theorem remove_options_twice :
    remove_options (lit "number-up-layout=btlr number-up=2") pstops_exclude_page_management =
      some (lit "number-up=2") ∧
    remove_options (lit "number-up=2") pstops_exclude_page_management = some [] ∧
    remove_options (lit "fitlandscape plot") pstops_exclude_general = some (lit "fitplot") ∧
    remove_options (lit "fitplot") pstops_exclude_general = some [] := by
  refine ⟨by decide, by decide, by decide, by decide⟩

/-- The string after the `memmove` is the string before it with bytes deleted. -/
theorem stripAt_sublist (s o : List Char) (i : Nat) : (stripAt s o i).Sublist s := by
  have key : ∀ a : Nat, a ≤ i + o.length →
      (s.take a ++ ((s.drop (i + o.length)).dropWhile (fun c => !isspace c)).dropWhile
        isspace).Sublist s := by
    intro a ha
    have h1 : (((s.drop (i + o.length)).dropWhile (fun c => !isspace c)).dropWhile
        isspace).Sublist (s.drop (i + o.length)) :=
      ((List.dropWhile_suffix _).trans (List.dropWhile_suffix _)).sublist
    have h2 : (s.drop (i + o.length)).Sublist (s.drop a) := by
      have : s.drop (i + o.length) = (s.drop a).drop (i + o.length - a) := by
        rw [List.drop_drop]
        congr 1
        omega
      rw [this]
      exact List.drop_sublist _ _
    have h3 := List.Sublist.append (List.Sublist.refl (s.take a)) (h1.trans h2)
    rwa [List.take_append_drop] at h3
  unfold stripAt
  simp only
  split
  · exact key (i - 2) (by omega)
  · exact key i (by omega)

/-- C26: for every options string and every list of option names none of
which is empty, `remove_options` returns, and what it returns is the string
with bytes deleted, so it is not longer; the inner loop for a listed name
ends from every string, and each of its iterations, at an occurrence of the
name, deletes bytes and makes the string shorter by at least the length of
the name, so strictly shorter. -/
theorem remove_options_deletes (s : List Char) (L : List (List Char))
    (hL : ∀ o ∈ L, o ≠ []) :
    (∃ r, remove_options s L = some r ∧ r.Sublist s ∧ r.length ≤ s.length) ∧
    (∀ o ∈ L, ∀ t : List Char, ∃ r, stripOption o (t.length + 1) t = some r ∧ r.Sublist t) ∧
    (∀ o ∈ L, ∀ (t : List Char) (i : Nat), strcasestr t o = some i →
      (stripAt t o i).Sublist t ∧ (stripAt t o i).length + o.length ≤ t.length ∧
      (stripAt t o i).length < t.length) := by
  refine ⟨?_, ?_, ?_⟩
  · obtain ⟨r, h1, h2, h3⟩ := remove_options_ind (fun r => r.Sublist s) L hL
      (fun o _ t i ht _ => (stripAt_sublist t o i).trans ht) s (List.Sublist.refl s)
    exact ⟨r, h1, h2, h3⟩
  · intro o ho t
    obtain ⟨r, h1, h2, _⟩ := stripOption_ind (fun r => r.Sublist t) o (hL o ho)
      (fun u i hu _ => (stripAt_sublist u o i).trans hu) (t.length + 1) t (by omega)
      (List.Sublist.refl t)
    exact ⟨r, h1, h2⟩
  · intro o ho t i hi
    have hl := stripAt_length t o i hi
    have hpos : 0 < o.length := List.length_pos.mpr (hL o ho)
    exact ⟨stripAt_sublist t o i, hl, by omega⟩

theorem remove_options_deletes_witness :
    (∃ r, remove_options (lit "nolandscape gamma=2") pstops_exclude_general = some r ∧
      r.Sublist (lit "nolandscape gamma=2") ∧ r.length ≤ (lit "nolandscape gamma=2").length) ∧
    (∀ o ∈ pstops_exclude_general, ∀ t : List Char,
      ∃ r, stripOption o (t.length + 1) t = some r ∧ r.Sublist t) ∧
    (∀ o ∈ pstops_exclude_general, ∀ (t : List Char) (i : Nat), strcasestr t o = some i →
      (stripAt t o i).Sublist t ∧ (stripAt t o i).length + o.length ≤ t.length ∧
      (stripAt t o i).length < t.length) :=
  remove_options_deletes (lit "nolandscape gamma=2") pstops_exclude_general (by decide)

/-! ## The globals after the sniffer -/

/-- The loop over the comment lines keeps what every line keeps. -/
theorem scanComments_ind (P : Globals → Prop)
    (hP : ∀ l g g', commentLine l g = some g' → P g → P g') :
    ∀ (n : Nat) (inp : List Char) (g g' : Globals),
      scanComments n inp g = some g' → P g → P g' := by
  intro n
  induction n with
  | zero =>
    intro inp g g' h hg
    unfold scanComments at h
    simp only [Option.some.injEq] at h
    subst h
    exact hg
  | succ n ih =>
    intro inp g g' h hg
    unfold scanComments at h
    cases hf : fgets 4096 inp with
    | none =>
      rw [hf] at h
      simp only [Option.some.injEq] at h
      subst h
      exact hg
    | some r =>
      rw [hf] at h
      simp only at h
      cases hc : commentLine r.1 g with
      | none => rw [hc] at h; simp at h
      | some g1 =>
        rw [hc] at h
        exact ih r.2 g1 g' h (hP r.1 g g1 hc hg)

/-- A line of the sniffer sets `deviceCollate` to 0 or 1 or leaves it. -/
theorem commentLine_collate (l : List Char) (g g' : Globals) (h : commentLine l g = some g') :
    g'.deviceCollate = g.deviceCollate ∨
      (g'.pdftopdfapplied = 1 ∧ (g'.deviceCollate = 0 ∨ g'.deviceCollate = 1)) := by
  unfold commentLine at h
  by_cases h1 : strncmp_eq l (lit "%%PDFTOPDFNumCopies") 19 = true
  · rw [if_pos h1] at h
    cases hd : directiveValue l 19 with
    | none => rw [hd] at h; simp at h
    | some p =>
      rw [hd] at h
      simp only [Option.some.injEq] at h
      subst h
      exact Or.inl rfl
  · rw [if_neg h1] at h
    by_cases h2 : strncmp_eq l (lit "%%PDFTOPDFCollate") 17 = true
    · rw [if_pos h2] at h
      cases hd : directiveValue l 17 with
      | none => rw [hd] at h; simp at h
      | some p =>
        rw [hd] at h
        simp only [Option.some.injEq] at h
        subst h
        right
        refine ⟨rfl, ?_⟩
        by_cases ht : strncasecmp_eq p (lit "true") 4 = true
        · right; simp [ht]
        · left; simp [ht]
    · rw [if_neg h2] at h
      by_cases h3 : strcmp_eq l (lit "% This file was generated by pdftopdf") = true
      · rw [if_pos h3] at h
        simp only [Option.some.injEq] at h
        subst h
        exact Or.inl rfl
      · rw [if_neg h3] at h
        simp only [Option.some.injEq] at h
        subst h
        exact Or.inl rfl

/-- C27: after any number `n` of rounds of the loop of `parsePDFTOPDFComment`
over the lines that follow the `%PDF` line of a file, started with the initial
globals, `deviceCollate` is 0 or 1 and is 1 only if `pdftopdfapplied` is 1;
no line and no number of rounds takes `pdftopdfapplied` from 1 to another
value. So ` Collate` is appended to the string of options of `pstops`, which
happens exactly when `deviceCollate` is 1, only after both calls of
`remove_options`, the one for the page management options included; the
string is then the stripped string with ` Collate` when that fits in the block
that `realloc` returns, and the run has no defined result when it does not. -/
theorem sniffer_invariant (sizeof_ptr : Nat) (file argv5 : List Char) (n : Nat) (g : Globals)
    (h : scanComments n (skipToHeader file.length file) initialGlobals = some g) :
    ((g.deviceCollate = 0 ∨ g.deviceCollate = 1) ∧
      (g.deviceCollate = 1 → g.pdftopdfapplied = 1)) ∧
    (∀ l g1 g2, commentLine l g1 = some g2 → g1.pdftopdfapplied = 1 →
      g2.pdftopdfapplied = 1) ∧
    (∀ m inp g1 g2, scanComments m inp g1 = some g2 → g1.pdftopdfapplied = 1 →
      g2.pdftopdfapplied = 1) ∧
    (g.deviceCollate = 1 →
      pstopsOptions sizeof_ptr argv5 g.pdftopdfapplied g.deviceCollate =
        ((remove_options argv5 pstops_exclude_general).bind
          (fun s1 => remove_options s1 pstops_exclude_page_management)).bind
            (fun s2 =>
              if collateEnd s2 ≤ reallocSize sizeof_ptr then some (s2 ++ lit " Collate")
              else none)) ∧
    (g.deviceCollate = 0 →
      pstopsOptions sizeof_ptr argv5 g.pdftopdfapplied g.deviceCollate =
        if g.pdftopdfapplied ≠ 0 then
          (remove_options argv5 pstops_exclude_general).bind
            (fun s1 => remove_options s1 pstops_exclude_page_management)
        else remove_options argv5 pstops_exclude_general) := by
  have hstep : ∀ l g1 g2, commentLine l g1 = some g2 → g1.pdftopdfapplied = 1 →
      g2.pdftopdfapplied = 1 := by
    intro l g1 g2 hc h1
    rcases commentLine_cases l g1 g2 hc with e | e
    · rw [e]; exact h1
    · exact e
  have hinv : (g.deviceCollate = 0 ∨ g.deviceCollate = 1) ∧
      (g.deviceCollate = 1 → g.pdftopdfapplied = 1) := by
    refine scanComments_ind
      (fun g => (g.deviceCollate = 0 ∨ g.deviceCollate = 1) ∧
        (g.deviceCollate = 1 → g.pdftopdfapplied = 1)) ?_ n _ initialGlobals g h
      ⟨Or.inl rfl, fun h0 => absurd h0 (by decide)⟩
    intro l g1 g2 hc hg1
    rcases commentLine_collate l g1 g2 hc with e | ⟨ha, e⟩
    · rw [e]
      refine ⟨hg1.1, fun h1 => ?_⟩
      exact hstep l g1 g2 hc (hg1.2 h1)
    · exact ⟨e, fun _ => ha⟩
  refine ⟨hinv, hstep, ?_, ?_, ?_⟩
  · intro m inp g1 g2 hs h1
    exact scanComments_ind (fun g => g.pdftopdfapplied = 1) hstep m inp g1 g2 hs h1
  · intro hc
    have ha := hinv.2 hc
    unfold pstopsOptions
    rw [ha, hc]
    cases remove_options argv5 pstops_exclude_general with
    | none => rfl
    | some s1 =>
      simp only [Option.some_bind]
      cases remove_options s1 pstops_exclude_page_management with
      | none => rfl
      | some s2 => simp
  · intro hc
    unfold pstopsOptions
    rw [hc]
    cases remove_options argv5 pstops_exclude_general with
    | none => by_cases ha : g.pdftopdfapplied ≠ 0 <;> simp [ha]
    | some s1 =>
      by_cases ha : g.pdftopdfapplied ≠ 0
      · simp only [Option.some_bind, if_pos ha]
        cases remove_options s1 pstops_exclude_page_management with
        | none => rfl
        | some s2 => simp
      · simp only [if_neg ha]
        simp

theorem sniffer_invariant_witness :
    (((⟨1, lit "1", 1⟩ : Globals).deviceCollate = 0 ∨
        (⟨1, lit "1", 1⟩ : Globals).deviceCollate = 1) ∧
      ((⟨1, lit "1", 1⟩ : Globals).deviceCollate = 1 →
        (⟨1, lit "1", 1⟩ : Globals).pdftopdfapplied = 1)) ∧
    (∀ l g1 g2, commentLine l g1 = some g2 → g1.pdftopdfapplied = 1 →
      g2.pdftopdfapplied = 1) ∧
    (∀ m inp g1 g2, scanComments m inp g1 = some g2 → g1.pdftopdfapplied = 1 →
      g2.pdftopdfapplied = 1) ∧
    ((⟨1, lit "1", 1⟩ : Globals).deviceCollate = 1 →
      pstopsOptions 8 (lit "Collate a=1") (⟨1, lit "1", 1⟩ : Globals).pdftopdfapplied
          (⟨1, lit "1", 1⟩ : Globals).deviceCollate =
        ((remove_options (lit "Collate a=1") pstops_exclude_general).bind
          (fun s1 => remove_options s1 pstops_exclude_page_management)).bind
            (fun s2 =>
              if collateEnd s2 ≤ reallocSize 8 then some (s2 ++ lit " Collate")
              else none)) ∧
    ((⟨1, lit "1", 1⟩ : Globals).deviceCollate = 0 →
      pstopsOptions 8 (lit "Collate a=1") (⟨1, lit "1", 1⟩ : Globals).pdftopdfapplied
          (⟨1, lit "1", 1⟩ : Globals).deviceCollate =
        if (⟨1, lit "1", 1⟩ : Globals).pdftopdfapplied ≠ 0 then
          (remove_options (lit "Collate a=1") pstops_exclude_general).bind
            (fun s1 => remove_options s1 pstops_exclude_page_management)
        else remove_options (lit "Collate a=1") pstops_exclude_general) :=
  sniffer_invariant 8 (lit "%PDF-1.5\n%%PDFTOPDFCollate : true\n") (lit "Collate a=1")
    MAX_CHECK_COMMENT_LINES ⟨1, lit "1", 1⟩ (by decide)

end Pdftops

namespace Driverless

open Pdftops (Event ChildEnd SIGTERM WTERMSIG WIFEXITED WEXITSTATUS)

set_option maxRecDepth 100000

/-! ## The wait loop of `list_printers` -/

/-- Every process id that the wait loop passes to `kill` is the value of
`ippfind_ipps_pid` or of `ippfind_ipp_pid`. -/
theorem waitLoop_killed (mode ipps ipp : Int) (evs : List Event) (st st' : WaitState)
    (h : waitLoop mode ipps ipp evs st = some st') :
    ∀ p ∈ st'.killed, p ∈ st.killed ∨ p = ipps ∨ p = ipp := by
  induction evs generalizing st with
  | nil =>
    unfold waitLoop at h
    split at h
    · simp at h
    · simp only [Option.some.injEq] at h
      subst h
      exact fun p hp => Or.inl hp
  | cons ev evs ih =>
    unfold waitLoop at h
    by_cases hw : st.wait_children > 0
    · rw [if_pos hw] at h
      cases ev with
      | sigterm =>
        simp only at h
        exact ih (cancel_job st) h
      | waitEintr =>
        simp only at h
        intro p hp
        rcases ih (onEintr ipps ipp st) h p hp with e | e
        · unfold onEintr at e
          split at e
          · simp only [List.mem_append, List.mem_cons, List.mem_singleton, List.not_mem_nil,
              or_false] at e
            rcases e with e | e | e
            · exact Or.inl e
            · exact Or.inr (Or.inl e)
            · exact Or.inr (Or.inr e)
          · exact Or.inl e
        · exact Or.inr e
      | waitError =>
        simp only [Option.some.injEq] at h
        subst h
        exact fun p hp => Or.inl hp
      | waitReaped pid how =>
        simp only at h
        exact ih (onReaped mode ipps st pid how) h
    · rw [if_neg hw] at h
      simp only [Option.some.injEq] at h
      subst h
      exact fun p hp => Or.inl hp

/-- With both children (`reg_type_no` is 1), every process id that a run of
`list_printers` has passed to `kill` is positive and was returned by `fork`. -/
theorem list_printers_killed_both (mode : Int) (sys : Sys) (r : Result)
    (h : list_printers mode 1 sys = Outcome.returned r) :
    ∀ p ∈ r.killed, 0 < p ∧ p ∈ r.forked := by
  unfold list_printers at h
  by_cases h1 : sys.pipe_ipps ≠ 0
  · rw [if_pos h1] at h
    simp only [Outcome.returned.injEq] at h
    subst h
    intro p hp
    simp at hp
  rw [if_neg h1] at h
  by_cases h2 : sys.fork_ipps = 0
  · rw [if_pos ⟨by decide, h2⟩] at h
    simp at h
  rw [if_neg (fun hh => h2 hh.2)] at h
  by_cases h3 : sys.fork_ipps < 0
  · rw [if_pos ⟨by decide, h3⟩] at h
    simp only [Outcome.returned.injEq] at h
    subst h
    intro p hp
    simp at hp
  rw [if_neg (fun hh => h3 hh.2)] at h
  simp only at h
  by_cases h4 : sys.pipe_ipp ≠ 0
  · rw [if_pos h4] at h
    simp only [Outcome.returned.injEq] at h
    subst h
    intro p hp
    simp at hp
  rw [if_neg h4] at h
  by_cases h5 : sys.fork_ipp = 0
  · rw [if_pos ⟨by decide, h5⟩] at h
    simp at h
  rw [if_neg (fun hh => h5 hh.2)] at h
  by_cases h6 : sys.fork_ipp < 0
  · rw [if_pos ⟨by decide, h6⟩] at h
    simp only [Outcome.returned.injEq] at h
    subst h
    intro p hp
    simp at hp
  rw [if_neg (fun hh => h6 hh.2)] at h
  cases hw : waitLoop mode (if (1 : Int) ≥ 1 then sys.fork_ipps else 0)
      (if (1 : Int) ≤ 1 then sys.fork_ipp else 0) sys.events
      { job_canceled := sys.job_canceled, wait_children := 2, exit_status := 0,
        killed := [] } with
  | none => rw [hw] at h; simp at h
  | some st =>
    rw [hw] at h
    simp only [Outcome.returned.injEq] at h
    subst h
    intro p hp
    have := waitLoop_killed _ _ _ _ _ _ hw p hp
    simp only [List.not_mem_nil, false_or, ge_iff_le, le_refl, if_true] at this
    simp only [ge_iff_le, le_refl, if_true, List.singleton_append, List.mem_cons,
      List.mem_singleton]
    rcases this with e | e
    · subst e
      exact ⟨by omega, Or.inl rfl⟩
    · subst e
      exact ⟨by omega, Or.inr (Or.inl rfl)⟩

/-- When `list_printers` is run by CUPS (`mode` is not 0), a child that exits
with status 1 or 2 sets `exit_status` to 0 when it is the IPPS child and to
its status when it is not. -/
theorem onReaped_exited (mode ipps : Int) (st : WaitState) (pid code : Nat) (hm : mode ≠ 0)
    (h1 : 1 ≤ code) (h2 : code ≤ 2) :
    (onReaped mode ipps st pid (.exited code)).exit_status =
      if (pid : Int) = ipps then 0 else code := by
  have hc : code = 1 ∨ code = 2 := by omega
  rcases hc with e | e <;> subst e <;> by_cases hp : (pid : Int) = ipps <;>
    simp [onReaped, ChildEnd.status, WIFEXITED, WTERMSIG, WEXITSTATUS, hm, hp]

/-- C28, the code at the failing input: `list_printers` is run by CUPS as a
backend (`mode` is 2) with both children, process 101 for IPPS and 102 for
IPP; the IPPS child exits with 0 and the IPP child with 1, no printer found:
`list_printers` returns 1. The test before `exit_status = 0` asks for
`wait_pid == ippfind_ipps_pid`, so the status of the IPP child is kept; with
the two endings in each other's place the result is 0. With the IPP child
alone (`reg_type_no` is 0) its status 1 is returned as well. -/
theorem list_printers_ipp_status :
    list_printers 2 1
        ⟨0, 101, 0, 102, 0, [.waitReaped 101 (.exited 0), .waitReaped 102 (.exited 1)]⟩ =
      Outcome.returned { forked := [101, 102], killed := [], exit_status := 1 } ∧
    list_printers 2 1
        ⟨0, 101, 0, 102, 0, [.waitReaped 101 (.exited 1), .waitReaped 102 (.exited 0)]⟩ =
      Outcome.returned { forked := [101, 102], killed := [], exit_status := 0 } ∧
    list_printers 2 0 ⟨0, 0, 0, 102, 0, [.waitReaped 102 (.exited 1), .waitError]⟩ =
      Outcome.returned { forked := [102], killed := [], exit_status := 1 } := by
  refine ⟨by decide, by decide, by decide⟩

/-- C29, the code at the failing input: `list_printers` is called for IPP
only (`reg_type_no` is 0), so that `fork` is called once, for the IPP child,
process 102, and `ippfind_ipps_pid` keeps its initial value 0; a `SIGTERM`
arrives, `wait` is interrupted, and the loop calls `kill(0, SIGTERM)` and
`kill(102, SIGTERM)`. For IPPS only (`reg_type_no` is 2) it calls
`kill(101, SIGTERM)` and `kill(0, SIGTERM)`. -/
theorem list_printers_kills_zero :
    list_printers 2 0
        ⟨0, 0, 0, 102, 0,
          [.sigterm, .waitEintr, .waitReaped 102 (.signaled 15 false), .waitError]⟩ =
      Outcome.returned { forked := [102], killed := [0, 102], exit_status := 0 } ∧
    list_printers 2 2
        ⟨0, 101, 0, 0, 0,
          [.sigterm, .waitEintr, .waitReaped 101 (.signaled 15 false), .waitError]⟩ =
      Outcome.returned { forked := [101], killed := [101, 0], exit_status := 0 } := by
  refine ⟨by decide, by decide⟩

end Driverless
